import Mathlib

/-!
# Love Journey: a shallow embedding of the simulation core of `script.js`

The class `LoveJourneyGame` keeps all of its state in one mutable object.  Here that
object is the record `Game`, every method is a function `Game → Game`, and the
calls that leave the simulation (canvas, DOM, audio) are dropped, except for the
sound effects that tell a death by car from a death by water, which are kept as a
trace (`Game.sounds`).

Conventions of the embedding:

* JavaScript numbers that hold rows, columns and counters are `ℤ` or `ℕ`; all other
  numbers are exact rationals `ℚ` (`0.1` is `1/10`, `0.02` is `1/50`), so the
  statements below are about the arithmetic the program text denotes, not about
  IEEE rounding.
* `Math.random()` is the oracle `ω : ℕ → ℚ`; `Game.rngCalls` counts the draws made
  so far, so the `k`-th call returns `ω k`.
* Object identity of logs (`this.player.onLog === log`) is the field `Log.id`,
  allocated from `Game.nextLogId` by `spawnLog`.
* `null`/`undefined` fields are `Option`s.
-/

namespace LoveJourney

/-! ## Constants (constructor, lines 7-11) -/

def TILE : ℚ := 32
def GRID_W : ℤ := 15
def GRID_H : ℤ := 20
def W : ℚ := GRID_W * TILE
def H : ℚ := GRID_H * TILE

/-- The palette `carColors`. -/
def carColors : List String := ["#FF8A8A", "#8CFFB3", "#8AB3FF", "#FFFF8A", "#FFB38A"]

/-! ## Data model -/

/-- The three terrain kinds returned by `getLaneType`. -/
inductive LaneType where
  | grass | road | water
  deriving DecidableEq, Repr

/-- The values of `gameState`. -/
inductive GameState where
  | title | play | ending | bonus | bonusOver | homeInterior | tofuSoup
  deriving DecidableEq, Repr

/-- The values of `homeInterior.animationPhase`. -/
inductive HomePhase where
  | fadeIn | playerWalk | approach | hearts | showButton
  deriving DecidableEq, Repr

/-- The values of `tofuSoup.animationPhase`. -/
inductive SoupPhase where
  | fadeIn | showSoup
  deriving DecidableEq, Repr

/-- The argument of `gameOver`. -/
inductive DeathCause where
  | generic | car | water
  deriving DecidableEq, Repr

/-- Sound effects started by the simulation; the trace of these calls is what an
observer sees of a death cause, a pickup or a door opening. -/
inductive Sound where
  | splash | carHonk | pickup | doorOpening
  deriving DecidableEq, Repr

/-- An entry of `INGREDIENTS`. -/
structure Ingredient where
  key : String
  label : String
  taken : Bool
  deriving DecidableEq, Repr

/-- An entry of `ingredientPositions`. -/
structure Slot where
  key : String
  label : String
  gx : ℤ
  gy : ℤ
  taken : Bool
  deriving DecidableEq, Repr

/-- The object `player`; `onLog` holds the identity of the log it refers to. -/
structure Player where
  gridX : ℚ
  worldY : ℤ
  width : ℚ
  height : ℚ
  onLog : Option ℕ
  alive : Bool
  deriving DecidableEq, Repr

/-- An entry of `vehicles`. -/
structure Vehicle where
  gridX : ℚ
  worldY : ℤ
  width : ℚ
  height : ℚ
  speed : ℚ
  color : String
  deriving DecidableEq, Repr

/-- An entry of `logs`; `id` stands for the identity of the JavaScript object. -/
structure Log where
  id : ℕ
  gridX : ℚ
  worldY : ℤ
  width : ℚ
  height : ℚ
  speed : ℚ
  length : ℤ
  deriving DecidableEq, Repr

/-- The object `house`. -/
structure House where
  gridX : ℤ
  worldY : Option ℤ
  visible : Bool
  entranceSpawned : Bool
  deriving DecidableEq, Repr

/-- The object `houseEntrance`. -/
structure HouseEntrance where
  grassFieldStart : ℤ
  grassFieldEnd : ℤ
  pathStart : ℤ
  fenceLeft : ℤ
  fenceRight : ℤ
  gateY : ℤ
  challengeZoneStart : ℤ
  challengeZoneEnd : ℤ
  deriving DecidableEq, Repr

/-- A heart particle of the home scene. -/
structure Heart where
  x : ℚ
  y : ℚ
  scale : ℚ
  opacity : ℚ
  deriving DecidableEq, Repr

/-- The object `homeInterior`; `heartsPhaseTimer` is absent (`none`) in the object
the constructor builds, and arithmetic on the absent value stays absent. -/
structure HomeInterior where
  fadeOpacity : ℚ
  playerPosX : ℚ
  partnerPosX : ℚ
  animationPhase : HomePhase
  animationTimer : ℚ
  heartsPhaseTimer : Option ℚ
  hearts : List Heart
  deriving DecidableEq, Repr

/-- A steam particle of the soup scene. -/
structure Steam where
  x : ℚ
  y : ℚ
  opacity : ℚ
  scale : ℚ
  deriving DecidableEq, Repr

/-- The object `tofuSoup`. -/
structure TofuSoup where
  fadeOpacity : ℚ
  animationPhase : SoupPhase
  animationTimer : ℚ
  steamParticles : List Steam
  deriving DecidableEq, Repr

/-- An entry of `bonusRings`. -/
structure Ring where
  x : ℚ
  y : ℚ
  r : ℚ
  w : ℚ
  deriving DecidableEq, Repr

/-- A point of the bonus field (`bonusCat`, `bonusPlayer`). -/
structure Point where
  x : ℚ
  y : ℚ
  deriving DecidableEq, Repr

/-- The click box `tofuSoupButton`. -/
structure Button where
  x : ℚ
  y : ℚ
  w : ℚ
  h : ℚ
  deriving DecidableEq, Repr

/-- The fields of a `LoveJourneyGame` instance that the simulation reads or writes,
followed by the three bookkeeping fields of the embedding. -/
structure Game where
  gameState : GameState
  gameRunning : Bool
  lastTime : ℚ
  hopCooldown : ℚ
  INGREDIENTS : List Ingredient
  collected : List String
  ingredientPositions : List Slot
  continuousSpawnTimer : ℕ
  cameraY : ℚ
  targetCameraY : ℚ
  maxPlayerProgress : ℤ
  vehicles : List Vehicle
  logs : List Log
  spawnTimer : ℕ
  gameSpeed : ℚ
  player : Player
  homeInterior : HomeInterior
  house : House
  houseEntrance : Option HouseEntrance
  gameWorldTop : Option ℤ
  finalStretchMode : Bool
  bonusTimer : ℚ
  bonusRings : List Ring
  bonusCat : Point
  bonusPlayer : Point
  ringSpawnTimer : ℚ
  tofuSoup : Option TofuSoup
  tofuSoupButton : Option Button
  rngCalls : ℕ
  nextLogId : ℕ
  sounds : List Sound
  deriving Repr

/-- The source of `Math.random()` values: the `k`-th call returns `ω k`. -/
abbrev Oracle := ℕ → ℚ

/-- One call of `Math.random()`. -/
def random (ω : Oracle) (s : Game) : ℚ × Game :=
  (ω s.rngCalls, { s with rngCalls := s.rngCalls + 1 })

/-- The JavaScript `Set.prototype.add` on the `collected` set, kept as a
duplicate-free list in insertion order. -/
def setAdd (k : String) (c : List String) : List String :=
  if k ∈ c then c else c ++ [k]

/-- A `null` operand of JavaScript arithmetic counts as `0`. -/
def numOrZero : Option ℤ → ℤ
  | some n => n
  | none => 0

/-! ## LaneClassifier (lines 612-656) -/

/-- The method `getDynamicLaneType(worldY)`. -/
def getDynamicLaneType (worldY : ℤ) : LaneType :=
  let absY := |worldY|
  let sectionSize : ℤ := 7
  let sectionIndex := absY / sectionSize
  let positionInSection := absY % sectionSize
  let streetRows := 2 + (sectionIndex % 2)
  if positionInSection < streetRows then LaneType.road
  else if positionInSection = streetRows then LaneType.grass
  else if positionInSection < streetRows + 3 then LaneType.water
  else LaneType.grass

/-- The method `getLaneType(worldY)`. -/
def getLaneType (s : Game) (worldY : ℤ) : LaneType :=
  if worldY ≥ 0 then LaneType.grass
  else
    match s.house.entranceSpawned, s.houseEntrance with
    | true, some he =>
      if worldY < numOrZero s.house.worldY - 5 then LaneType.grass
      else if worldY ≤ he.grassFieldStart ∧ worldY ≥ he.grassFieldEnd then LaneType.grass
      else getDynamicLaneType worldY
    | _, _ => getDynamicLaneType worldY

/-! ## GoalController: spawning the goal zone (lines 806-838) -/

/-- The method `spawnHouseEntrance()`. -/
def spawnHouseEntrance (s : Game) : Game :=
  if s.house.entranceSpawned then s
  else
    let currentTopOfScreen := s.cameraY
    let houseY : ℤ := ⌊currentTopOfScreen / TILE⌋ - 12
    { s with
      house := { s.house with worldY := some houseY, visible := true, entranceSpawned := true }
      gameWorldTop := some (houseY - 5)
      houseEntrance := some
        { grassFieldStart := houseY + 5
          grassFieldEnd := houseY - 2
          pathStart := houseY + 3
          fenceLeft := s.house.gridX - 3
          fenceRight := s.house.gridX + 8
          gateY := houseY + 1
          challengeZoneStart := houseY + 8
          challengeZoneEnd := houseY + 5 }
      finalStretchMode := true }

/-! ## IngredientManager (lines 509-610, 776-804) -/

/-- The `while (!placed && attempts < 100)` loop of `spawnInitialIngredients` for one
ingredient; the first argument is the number of attempts still allowed
(`100 - attempts`), and placing the slot ends the loop. -/
def spawnInitialAttempts (ω : Oracle) (ingredient : Ingredient) (index : ℕ) : ℕ → Game → Game
  | 0, s => s
  | n + 1, s =>
    let (r1, s) := random ω s
    let gx : ℤ := ⌊r1 * GRID_W⌋
    let (r2, s) := random ω s
    let baseY : ℤ := -(5 + (index * 8) + ⌊r2 * 6⌋)
    let (r3, s) := random ω s
    let gy : ℤ := baseY - ⌊r3 * 5⌋
    let laneType := getLaneType s gy
    if laneType ≠ LaneType.water then
      let tooClose := s.ingredientPositions.any fun pos =>
        decide (|pos.gx - gx| < 3) && decide (|pos.gy - gy| < 3)
      if !tooClose then
        { s with ingredientPositions := s.ingredientPositions ++
            [{ key := ingredient.key, label := ingredient.label, gx := gx, gy := gy,
               taken := ingredient.taken || decide (ingredient.key ∈ s.collected) }] }
      else spawnInitialAttempts ω ingredient index n s
    else spawnInitialAttempts ω ingredient index n s

/-- The `forEach` of `spawnInitialIngredients` over the entries of `INGREDIENTS` from
position `index` on. -/
def spawnInitialFrom (ω : Oracle) : List Ingredient → ℕ → Game → Game
  | [], _, s => s
  | ingredient :: rest, index, s =>
    spawnInitialFrom ω rest (index + 1) (spawnInitialAttempts ω ingredient index 100 s)

/-- The method `spawnInitialIngredients()`. -/
def spawnInitialIngredients (ω : Oracle) (s : Game) : Game :=
  spawnInitialFrom ω s.INGREDIENTS 0 s

/-- The method `spawnIngredients()`. -/
def spawnIngredients (ω : Oracle) (s : Game) : Game :=
  spawnInitialIngredients ω { s with ingredientPositions := [], continuousSpawnTimer := 0 }

/-- The `while (!placed && attempts < 100)` loop of `spawnIngredientAhead`; the first
argument is the number of attempts still allowed. -/
def spawnAheadAttempts (ω : Oracle) (ingredient : Ingredient) : ℕ → Game → Game
  | 0, s => s
  | n + 1, s =>
    let (r1, s) := random ω s
    let gx : ℤ := ⌊r1 * GRID_W⌋
    let minAhead := s.player.worldY - 10
    let maxAhead := s.player.worldY - 35
    let (r2, s) := random ω s
    let gy : ℤ := ⌊r2 * ((minAhead - maxAhead + 1 : ℤ) : ℚ)⌋ + maxAhead
    let laneType := getLaneType s gy
    if laneType ≠ LaneType.water then
      let tooClose := s.ingredientPositions.any fun pos =>
        decide (|pos.gx - gx| < 2) && decide (|pos.gy - gy| < 2)
      if !tooClose then
        { s with ingredientPositions := s.ingredientPositions ++
            [{ key := ingredient.key, label := ingredient.label, gx := gx, gy := gy,
               taken := false }] }
      else spawnAheadAttempts ω ingredient n s
    else spawnAheadAttempts ω ingredient n s

/-- The method `spawnIngredientAhead(ingredient)`. -/
def spawnIngredientAhead (ω : Oracle) (ingredient : Ingredient) (s : Game) : Game :=
  spawnAheadAttempts ω ingredient 100 s

/-- The `forEach` of `respawnMissingIngredients` over `missingIngredients`. -/
def respawnEach (ω : Oracle) : List Ingredient → Game → Game
  | [], s => s
  | ingredient :: rest, s =>
    let alreadyPlaced := s.ingredientPositions.any fun pos =>
      decide (pos.key = ingredient.key) && !pos.taken
    respawnEach ω rest (if !alreadyPlaced then spawnIngredientAhead ω ingredient s else s)

/-- The method `respawnMissingIngredients()`. -/
def respawnMissingIngredients (ω : Oracle) (s : Game) : Game :=
  let missingIngredients := s.INGREDIENTS.filter fun ing => !decide (ing.key ∈ s.collected)
  let s := { s with ingredientPositions := s.ingredientPositions.filter fun pos => !pos.taken }
  respawnEach ω missingIngredients s

/-- The method `continuouslySpawnIngredients()`. -/
def continuouslySpawnIngredients (ω : Oracle) (s : Game) : Game :=
  let s := { s with continuousSpawnTimer := s.continuousSpawnTimer + 1 }
  if s.continuousSpawnTimer ≥ 120 then
    { respawnMissingIngredients ω s with continuousSpawnTimer := 0 }
  else s

/-- The statement `ingredientDef.taken = true` of `checkIngredientPickup`, where
`ingredientDef` is the first entry of `INGREDIENTS` with the given key, if any. -/
def markTaken (key : String) : List Ingredient → List Ingredient
  | [] => []
  | ing :: rest =>
    if ing.key = key then { ing with taken := true } :: rest else ing :: markTaken key rest

/-- The `forEach` of `checkIngredientPickup` over the slots not yet visited: returns
the visited slots as the loop leaves them and the state after the loop.  The slot
columns are integers, so `Math.floor(ingredient.gx)` is `ingredient.gx`. -/
def pickupLoop : List Slot → Game → List Slot × Game
  | [], s => ([], s)
  | ingredient :: rest, s =>
    if !ingredient.taken ∧ ingredient.gx = ⌊s.player.gridX⌋ ∧
        ingredient.gy = s.player.worldY then
      let s := { s with
        collected := setAdd ingredient.key s.collected
        INGREDIENTS := markTaken ingredient.key s.INGREDIENTS
        sounds := s.sounds ++ [Sound.pickup] }
      let s := if s.collected.length = s.INGREDIENTS.length then spawnHouseEntrance s else s
      let (rest', s) := pickupLoop rest s
      ({ ingredient with taken := true } :: rest', s)
    else
      let (rest', s) := pickupLoop rest s
      (ingredient :: rest', s)

/-- The method `checkIngredientPickup()`. -/
def checkIngredientPickup (s : Game) : Game :=
  let (slots, s') := pickupLoop s.ingredientPositions s
  { s' with ingredientPositions := slots }

/-! ## GoalController: arrival (lines 840-885) -/

/-- The method `enterHouse()`. -/
def enterHouse (s : Game) : Game :=
  { s with
    gameState := GameState.homeInterior
    gameRunning := true
    sounds := s.sounds ++ [Sound.doorOpening]
    homeInterior :=
      { fadeOpacity := 0
        playerPosX := 50
        partnerPosX := W / 2
        animationPhase := HomePhase.fadeIn
        animationTimer := 0
        heartsPhaseTimer := some 0
        hearts := [] } }

/-- The method `checkHouseEntry()`. -/
def checkHouseEntry (s : Game) : Game :=
  if !s.house.visible ∨ s.collected.length ≠ s.INGREDIENTS.length then s
  else if some s.player.worldY = s.house.worldY ∧
      s.player.gridX ≥ s.house.gridX ∧
      s.player.gridX ≤ s.house.gridX + 4 then
    enterHouse s
  else s

/-! ## CameraController (lines 970-979) -/

/-- The method `updateCameraTarget()`. -/
def updateCameraTarget (s : Game) : Game :=
  { s with targetCameraY := (s.maxPlayerProgress * TILE) - (H * (7 / 10)) }

/-- The method `updateCamera()`. -/
def updateCamera (s : Game) : Game :=
  let lerpSpeed : ℚ := 1 / 10
  { s with cameraY := s.cameraY + (s.targetCameraY - s.cameraY) * lerpSpeed }

/-! ## Reset and player input (lines 690-774) -/

/-- The method `resetGame()`. -/
def resetGame (ω : Oracle) (s : Game) : Game :=
  let s := { s with
    player := { s.player with gridX := ⌊(GRID_W : ℚ) / 2⌋, worldY := 0, onLog := none,
                              alive := true }
    maxPlayerProgress := 0
    vehicles := []
    logs := []
    spawnTimer := 0
    continuousSpawnTimer := 0
    gameSpeed := 2
    cameraY := -H * (3 / 10) }
  let s := { s with
    targetCameraY := s.cameraY
    hopCooldown := 0
    house := { s.house with visible := false, entranceSpawned := false, worldY := none }
    houseEntrance := none
    gameWorldTop := none
    finalStretchMode := false
    collected := []
    INGREDIENTS := s.INGREDIENTS.map fun ingredient => { ingredient with taken := false } }
  spawnIngredients ω s

/-- The method `handlePlayerInput(key)`. -/
def handlePlayerInput (key : String) (s : Game) : Game :=
  if s.hopCooldown > 0 then s
  else
    let maxGridX : ℤ := GRID_W - 1
    let s :=
      if key = "w" ∨ key = "arrowup" then
        let s := { s with
          player := { s.player with worldY := s.player.worldY - 1, onLog := none }
          hopCooldown := 120 }
        if s.player.worldY < s.maxPlayerProgress then
          updateCameraTarget { s with maxPlayerProgress := s.player.worldY }
        else s
      else if key = "s" ∨ key = "arrowdown" then
        if s.player.worldY < 0 then
          { s with
            player := { s.player with worldY := s.player.worldY + 1, onLog := none }
            hopCooldown := 120 }
        else s
      else if key = "a" ∨ key = "arrowleft" then
        if s.player.gridX > 0 then
          { s with
            player := { s.player with gridX := s.player.gridX - 1, onLog := none }
            hopCooldown := 120 }
        else s
      else if key = "d" ∨ key = "arrowright" then
        if s.player.gridX < maxGridX then
          { s with
            player := { s.player with gridX := s.player.gridX + 1, onLog := none }
            hopCooldown := 120 }
        else s
      else s
    checkHouseEntry (checkIngredientPickup s)

/-- The method `gameOver(deathCause)`. -/
def gameOver (deathCause : DeathCause) (s : Game) : Game :=
  let s := { s with player := { s.player with alive := false }, gameRunning := false }
  match deathCause with
  | DeathCause.water => { s with sounds := s.sounds ++ [Sound.splash] }
  | DeathCause.car => { s with sounds := s.sounds ++ [Sound.carHonk] }
  | DeathCause.generic => s

/-! ## HazardSpawner (lines 981-1092) -/

/-- The method `spawnVehicle(worldRow, isFinalStretch)`.  The remainder `worldRow % 2` of
JavaScript takes the sign of `worldRow`, as `Int.tmod` does. -/
def spawnVehicle (ω : Oracle) (worldRow : ℤ) (isFinalStretch : Bool) (s : Game) : Game :=
  let existingVehicles := s.vehicles.filter fun v => decide (v.worldY = worldRow)
  let goingRight : Bool :=
    match existingVehicles with
    | v :: _ => decide (v.speed > 0)
    | [] => decide (Int.tmod worldRow 2 = 0)
  let (r1, s) := random ω s
  let baseSpeed : ℚ := if isFinalStretch then 8 / 10 + r1 * 1 else 1 + r1 * (12 / 10)
  let vehicleWidth : ℚ := if isFinalStretch then TILE * (8 / 10) else TILE * (9 / 10)
  let (r2, s) := random ω s
  let vehicle : Vehicle :=
    { gridX := if goingRight then -2 else GRID_W + 1
      worldY := worldRow
      width := vehicleWidth
      height := TILE * (7 / 10)
      speed := baseSpeed * (if goingRight then 1 else -1)
      color := (carColors.get? (⌊r2 * carColors.length⌋ : ℤ).toNat).getD "undefined" }
  { s with vehicles := s.vehicles ++ [vehicle] }

/-- The method `spawnLog(worldRow, isFinalStretch)`; the new object takes the identity
`nextLogId`. -/
def spawnLog (ω : Oracle) (worldRow : ℤ) (isFinalStretch : Bool) (s : Game) : Game :=
  let (r1, s) := random ω s
  let goingRight : Bool := decide (r1 > 1 / 2)
  let (r2, s) := random ω s
  let logLength : ℤ := if isFinalStretch then 3 + ⌊r2 * 2⌋ else 2 + ⌊r2 * 3⌋
  let (r3, s) := random ω s
  let baseSpeed : ℚ := if isFinalStretch then 6 / 10 + r3 * 1 else 8 / 10 + r3 * (12 / 10)
  let log : Log :=
    { id := s.nextLogId
      gridX := if goingRight then -logLength else GRID_W + 1
      worldY := worldRow
      width := TILE * logLength * (9 / 10)
      height := TILE * (8 / 10)
      speed := baseSpeed * (if goingRight then 1 else -1)
      length := logLength }
  { s with logs := s.logs ++ [log], nextLogId := s.nextLogId + 1 }

/-- The body of the `for` loop of `spawnVehiclesAndLogs` for one `worldRow`; the
three `continue` statements return the state unchanged. -/
def spawnRow (ω : Oracle) (worldRow : ℤ) (s : Game) : Game :=
  if s.gameWorldTop.isSome ∧ worldRow < numOrZero s.gameWorldTop then s
  else
    let skip : Bool :=
      match s.house.entranceSpawned, s.houseEntrance with
      | true, some he =>
        decide (worldRow < numOrZero s.house.worldY - 5) ||
          (decide (worldRow ≤ he.grassFieldStart) && decide (worldRow ≥ he.grassFieldEnd))
      | _, _ => false
    if skip then s
    else
      let laneType := getLaneType s worldRow
      let vehicleChance : ℚ := 2 / 10
      let logChance : ℚ := 2 / 10
      let vehicleChance : ℚ :=
        if laneType = LaneType.road then
          let absY := |worldRow|
          let sectionIndex := absY / 7
          let streetRows := 2 + (sectionIndex % 2)
          if streetRows = 3 then vehicleChance * (7 / 10) else vehicleChance
        else vehicleChance
      let inChallengeZone : Bool :=
        match s.finalStretchMode, s.houseEntrance with
        | true, some he =>
          decide (worldRow ≤ he.challengeZoneStart) && decide (worldRow ≥ he.challengeZoneEnd)
        | _, _ => false
      let vehicleChance : ℚ := if inChallengeZone then 1 / 10 else vehicleChance
      let logChance : ℚ := if inChallengeZone then 25 / 100 else logChance
      if laneType = LaneType.road then
        let (r, s) := random ω s
        if r < vehicleChance then spawnVehicle ω worldRow s.finalStretchMode s else s
      else if laneType = LaneType.water then
        let (r, s) := random ω s
        if r < logChance then spawnLog ω worldRow s.finalStretchMode s else s
      else s

/-- The loop `for (worldRow = startRow; worldRow <= endRow; worldRow++)`; the first
argument is the number of rows still to visit, starting at `worldRow`. -/
def spawnRows (ω : Oracle) : ℕ → ℤ → Game → Game
  | 0, _, s => s
  | n + 1, worldRow, s => spawnRows ω n (worldRow + 1) (spawnRow ω worldRow s)

/-- The method `spawnVehiclesAndLogs()`. -/
def spawnVehiclesAndLogs (ω : Oracle) (s : Game) : Game :=
  let s := { s with spawnTimer := s.spawnTimer + 1 }
  if (s.spawnTimer : ℚ) ≥ 60 - s.gameSpeed * 5 then
    let startRow : ℤ := ⌊s.cameraY / TILE⌋ - 2
    let endRow : ℤ := startRow + ⌈H / TILE⌉ + 4
    let s := spawnRows ω (endRow - startRow + 1).toNat startRow s
    { s with spawnTimer := 0 }
  else s

/-! ## HazardSimulator (lines 1094-1130) -/

/-- The vehicle loop `for (i = vehicles.length - 1; i >= 0; i--)` of
`updateVehiclesAndLogs`; the first argument is `i + 1`. -/
def updateVehiclesFrom : ℕ → List Vehicle → List Vehicle
  | 0, vehicles => vehicles
  | i + 1, vehicles =>
    match vehicles.get? i with
    | none => updateVehiclesFrom i vehicles
    | some vehicle =>
      let vehicle := { vehicle with gridX := vehicle.gridX + vehicle.speed * (2 / 100) }
      if vehicle.gridX > (GRID_W : ℚ) + 3 ∨ vehicle.gridX < -3 then
        updateVehiclesFrom i (vehicles.eraseIdx i)
      else updateVehiclesFrom i (vehicles.set i vehicle)

/-- The log loop `for (i = logs.length - 1; i >= 0; i--)` of `updateVehiclesAndLogs`;
the first argument is `i + 1`.  The player is carried when `player.onLog === log`, and
the bounds test nested in that branch is the conjunction below; the `return` after
`gameOver` leaves the logs below `i` as they are. -/
def updateLogsFrom : ℕ → Game → Game
  | 0, s => s
  | i + 1, s =>
    match s.logs.get? i with
    | none => updateLogsFrom i s
    | some log =>
      let log := { log with gridX := log.gridX + log.speed * (2 / 100) }
      let s := { s with logs := s.logs.set i log }
      let s :=
        if s.player.onLog = some log.id then
          { s with player := { s.player with gridX := s.player.gridX + log.speed * (2 / 100) } }
        else s
      if s.player.onLog = some log.id ∧ (s.player.gridX < 0 ∨ s.player.gridX ≥ (GRID_W : ℚ)) then
        gameOver DeathCause.water s
      else if log.gridX > (GRID_W : ℚ) + 4 ∨ log.gridX < -4 then
        let s :=
          if s.player.onLog = some log.id then
            { s with player := { s.player with onLog := none } }
          else s
        updateLogsFrom i { s with logs := s.logs.eraseIdx i }
      else updateLogsFrom i s

/-- The method `updateVehiclesAndLogs()`. -/
def updateVehiclesAndLogs (s : Game) : Game :=
  let s := { s with vehicles := updateVehiclesFrom s.vehicles.length s.vehicles }
  updateLogsFrom s.logs.length s

/-! ## CollisionResolver (lines 1132-1203) -/

/-- The loop `for (const vehicle of this.vehicles)` of `checkCollisions`: `true` when
it reaches `gameOver('car'); return`. -/
def hitByVehicle (s : Game) : List Vehicle → Bool
  | [] => false
  | vehicle :: rest =>
    if vehicle.worldY = s.player.worldY ∧
        s.player.gridX < vehicle.gridX + (vehicle.width / TILE) ∧
        s.player.gridX + (s.player.width / TILE) > vehicle.gridX then true
    else hitByVehicle s rest

/-- The loop `for (const log of this.logs)` of `checkCollisions`: the log at which it
reaches `break`, if any. -/
def findLog (s : Game) : List Log → Option Log
  | [] => none
  | log :: rest =>
    if log.worldY = s.player.worldY then
      let playerLeft := s.player.gridX - 3 / 10
      let playerRight := s.player.gridX + 8 / 10
      let logLeft := log.gridX
      let logRight := log.gridX + log.length
      if playerRight > logLeft ∧ playerLeft < logRight then some log
      else findLog s rest
    else findLog s rest

/-- The last statement of `checkCollisions` ("Increase difficulty as player
progresses"). -/
def increaseDifficulty (s : Game) : Game :=
  if s.player.worldY < -10 ∧ |s.player.worldY| % 20 = 0 then
    { s with gameSpeed := min (s.gameSpeed + 1 / 10) 8 }
  else s

/-- The method `checkCollisions()`. -/
def checkCollisions (s : Game) : Game :=
  let playerWorldY := s.player.worldY
  let laneType := getLaneType s playerWorldY
  let s := { s with player := { s.player with onLog := none } }
  match laneType with
  | LaneType.road =>
    if hitByVehicle s s.vehicles then gameOver DeathCause.car s
    else increaseDifficulty s
  | LaneType.water =>
    match findLog s s.logs with
    | some log => increaseDifficulty { s with player := { s.player with onLog := some log.id } }
    | none => gameOver DeathCause.water s
  | LaneType.grass => increaseDifficulty s

/-! ## Scenes (lines 453-490, 887-968, 1205-1414) -/

/-- The method `winGame()`. -/
def winGame (s : Game) : Game :=
  { s with gameState := GameState.ending, gameRunning := false }

/-- The method `startTofuSoupScene()`. -/
def startTofuSoupScene (s : Game) : Game :=
  { s with
    gameState := GameState.tofuSoup
    gameRunning := true
    tofuSoup := some
      { fadeOpacity := 0, animationPhase := SoupPhase.fadeIn, animationTimer := 0,
        steamParticles := [] } }

/-- The method `handleCanvasClick(event)`, with `x` and `y` the click position relative to the
canvas. -/
def handleCanvasClick (x y : ℚ) (s : Game) : Game :=
  match s.tofuSoupButton with
  | some b =>
    if s.gameState = GameState.homeInterior ∧
        s.homeInterior.animationPhase = HomePhase.showButton then
      if x ≥ b.x ∧ x ≤ b.x + b.w ∧ y ≥ b.y ∧ y ≤ b.y + b.h then startTofuSoupScene s
      else s
    else s
  | none => s

/-- The method `spawnHeart()`. -/
def spawnHeart (ω : Oracle) (s : Game) : Game :=
  let centerX := (s.homeInterior.playerPosX + s.homeInterior.partnerPosX) / 2
  let (r1, s) := random ω s
  let (r2, s) := random ω s
  let (r3, s) := random ω s
  let heart : Heart :=
    { x := centerX + (r1 - 1 / 2) * 60
      y := H / 2 + (r2 - 1 / 2) * 40
      scale := 1 / 2 + r3 * (1 / 2)
      opacity := 1 }
  { s with homeInterior := { s.homeInterior with hearts := s.homeInterior.hearts ++ [heart] } }

/-- The heart loops `for (i = hearts.length - 1; i >= 0; i--)` of `updateHomeInterior`,
with `move` the update of one heart; the first argument is `i + 1`. -/
def updateHeartsFrom (move : Heart → Heart) : ℕ → List Heart → List Heart
  | 0, hearts => hearts
  | i + 1, hearts =>
    match hearts.get? i with
    | none => updateHeartsFrom move i hearts
    | some heart =>
      let heart := move heart
      if heart.opacity ≤ 0 then updateHeartsFrom move i (hearts.eraseIdx i)
      else updateHeartsFrom move i (hearts.set i heart)

/-- The method `updateHomeInterior(dt)`. -/
def updateHomeInterior (ω : Oracle) (dt : ℚ) (s : Game) : Game :=
  let h := { s.homeInterior with animationTimer := s.homeInterior.animationTimer + dt }
  let s := { s with homeInterior := h }
  match h.animationPhase with
  | HomePhase.fadeIn =>
    let h := { h with fadeOpacity := min 1 (h.fadeOpacity + dt / 1000) }
    if h.fadeOpacity ≥ 1 ∧ h.animationTimer > 500 then
      { s with homeInterior :=
          { h with animationPhase := HomePhase.playerWalk, animationTimer := 0 } }
    else { s with homeInterior := h }
  | HomePhase.playerWalk =>
    let h := { h with playerPosX := h.playerPosX + dt * (1 / 10) }
    if h.playerPosX ≥ W / 3 then
      { s with homeInterior :=
          { h with animationPhase := HomePhase.approach, animationTimer := 0 } }
    else { s with homeInterior := h }
  | HomePhase.approach =>
    let approachSpeed := dt * (5 / 100)
    let h := { h with playerPosX := h.playerPosX + approachSpeed,
                      partnerPosX := h.partnerPosX - approachSpeed }
    if |h.playerPosX - h.partnerPosX| < 30 then
      { s with homeInterior :=
          { h with animationPhase := HomePhase.hearts, animationTimer := 0,
                   heartsPhaseTimer := some 0 } }
    else { s with homeInterior := h }
  | HomePhase.hearts =>
    let h := { h with heartsPhaseTimer := h.heartsPhaseTimer.map (· + dt) }
    let s := { s with homeInterior := h }
    let s :=
      if h.animationTimer > 500 then
        let s := spawnHeart ω s
        { s with homeInterior := { s.homeInterior with animationTimer := 0 } }
      else s
    let move : Heart → Heart := fun heart =>
      { heart with y := heart.y - dt * (5 / 100), scale := heart.scale + dt * (5 / 10000),
                   opacity := heart.opacity - dt * (1 / 1000) }
    let h := s.homeInterior
    let h := { h with hearts := updateHeartsFrom move h.hearts.length h.hearts }
    if (match h.heartsPhaseTimer with | some t => decide (t > 1000) | none => false) then
      { s with homeInterior :=
          { h with animationPhase := HomePhase.showButton, animationTimer := 0 } }
    else { s with homeInterior := h }
  | HomePhase.showButton =>
    let s :=
      if h.animationTimer > 500 then
        let s := spawnHeart ω s
        { s with homeInterior := { s.homeInterior with animationTimer := 0 } }
      else s
    let move : Heart → Heart := fun heart =>
      { heart with y := heart.y - dt * (2 / 100), opacity := heart.opacity - dt * (5 / 10000) }
    let h := s.homeInterior
    { s with homeInterior := { h with hearts := updateHeartsFrom move h.hearts.length h.hearts } }

/-- The loop `for (let i = 0; i < 3; i++)` of `spawnSteam`; the first argument is the
number of particles still to create. -/
def spawnSteamLoop (ω : Oracle) : ℕ → TofuSoup → Game → TofuSoup × Game
  | 0, t, s => (t, s)
  | n + 1, t, s =>
    let (r1, s) := random ω s
    let (r2, s) := random ω s
    let steam : Steam :=
      { x := W / 2 + (r1 - 1 / 2) * 80
        y := H / 2 + 100
        opacity := 8 / 10
        scale := 1 / 2 + r2 * (3 / 10) }
    spawnSteamLoop ω n { t with steamParticles := t.steamParticles ++ [steam] } s

/-- The steam loop `for (i = steamParticles.length - 1; i >= 0; i--)` of
`updateTofuSoup`; the first argument is `i + 1`. -/
def updateSteamFrom (ω : Oracle) (dt : ℚ) : ℕ → List Steam → Game → List Steam × Game
  | 0, particles, s => (particles, s)
  | i + 1, particles, s =>
    match particles.get? i with
    | none => updateSteamFrom ω dt i particles s
    | some steam =>
      let (r, s) := random ω s
      let steam := { steam with
        y := steam.y - dt * (6 / 100)
        x := steam.x + (r - 1 / 2) * dt * (1 / 100)
        opacity := steam.opacity - dt * (8 / 10000)
        scale := steam.scale + dt * (1 / 1000) }
      if steam.opacity ≤ 0 then updateSteamFrom ω dt i (particles.eraseIdx i) s
      else updateSteamFrom ω dt i (particles.set i steam) s

/-- The method `updateTofuSoup(dt)`; reading the absent object `tofuSoup` throws, which leaves
the state as it is. -/
def updateTofuSoup (ω : Oracle) (dt : ℚ) (s : Game) : Game :=
  match s.tofuSoup with
  | none => s
  | some t =>
    let t := { t with animationTimer := t.animationTimer + dt }
    match t.animationPhase with
    | SoupPhase.fadeIn =>
      let t := { t with fadeOpacity := min 1 (t.fadeOpacity + dt / 1000) }
      if t.fadeOpacity ≥ 1 ∧ t.animationTimer > 500 then
        let t := { t with animationPhase := SoupPhase.showSoup, animationTimer := 0 }
        { s with tofuSoup := some t }
      else { s with tofuSoup := some t }
    | SoupPhase.showSoup =>
      let (t, s) :=
        if t.animationTimer > 200 then
          let (t, s) := spawnSteamLoop ω 3 t s
          ({ t with animationTimer := 0 }, s)
        else (t, s)
      let (particles, s) := updateSteamFrom ω dt t.steamParticles.length t.steamParticles s
      let t := { t with steamParticles := particles }
      let s := { s with tofuSoup := some t }
      if t.animationTimer > 10000 then winGame s else s

/-- The test `Math.abs(dist - ring.r) < ring.w` of `updateBonus`, where `dist` is the
square root of `d2 = (px - ring.x)^2 + (py - ring.y)^2`: it says
`ring.r - ring.w < dist < ring.r + ring.w`, and for `d2 ≥ 0` a bound `c` satisfies
`dist < c` exactly when `0 < c` and `d2 < c^2`, and `c < dist` exactly when `c < 0` or
`c^2 < d2`. -/
def ringHit (p : Point) (ring : Ring) : Bool :=
  let d2 := (p.x - ring.x) ^ 2 + (p.y - ring.y) ^ 2
  let lo := ring.r - ring.w
  let hi := ring.r + ring.w
  (decide (lo < 0) || decide (lo ^ 2 < d2)) && (decide (0 < hi) && decide (d2 < hi ^ 2))

/-- The ring loop `for (i = bonusRings.length - 1; i >= 0; i--)` of `updateBonus`; the
first argument is `i + 1`. -/
def updateRingsFrom (dt : ℚ) : ℕ → Game → Game
  | 0, s => s
  | i + 1, s =>
    match s.bonusRings.get? i with
    | none => updateRingsFrom dt i s
    | some ring =>
      let ring := { ring with r := ring.r + dt * (2 / 10) }
      let s := { s with bonusRings := s.bonusRings.set i ring }
      let s := if ringHit s.bonusPlayer ring then { s with bonusPlayer := ⟨W / 2, H / 2⟩ } else s
      if ring.r > max W H then updateRingsFrom dt i { s with bonusRings := s.bonusRings.eraseIdx i }
      else updateRingsFrom dt i s

/-- The method `updateBonus(dt)`. -/
def updateBonus (dt : ℚ) (s : Game) : Game :=
  let s := { s with bonusTimer := s.bonusTimer - dt / 1000, ringSpawnTimer := s.ringSpawnTimer + dt }
  let s :=
    if s.ringSpawnTimer > 2000 then
      let ring : Ring := { x := s.bonusCat.x, y := s.bonusCat.y, r := 0, w := 15 }
      { s with bonusRings := s.bonusRings ++ [ring], ringSpawnTimer := 0 }
    else s
  let s := updateRingsFrom dt s.bonusRings.length s
  if s.bonusTimer ≤ 0 then { s with gameState := GameState.bonusOver, gameRunning := false }
  else s

/-- The method `handleBonusInput(key)`. -/
def handleBonusInput (key : String) (s : Game) : Game :=
  if s.hopCooldown > 0 then s
  else
    let moveDistance := TILE
    if key = "w" ∨ key = "arrowup" then
      if s.bonusPlayer.y > moveDistance then
        { s with bonusPlayer := { s.bonusPlayer with y := s.bonusPlayer.y - moveDistance },
                 hopCooldown := 120 }
      else s
    else if key = "s" ∨ key = "arrowdown" then
      if s.bonusPlayer.y < H - moveDistance then
        { s with bonusPlayer := { s.bonusPlayer with y := s.bonusPlayer.y + moveDistance },
                 hopCooldown := 120 }
      else s
    else if key = "a" ∨ key = "arrowleft" then
      if s.bonusPlayer.x > moveDistance then
        { s with bonusPlayer := { s.bonusPlayer with x := s.bonusPlayer.x - moveDistance },
                 hopCooldown := 120 }
      else s
    else if key = "d" ∨ key = "arrowright" then
      if s.bonusPlayer.x < W - moveDistance then
        { s with bonusPlayer := { s.bonusPlayer with x := s.bonusPlayer.x + moveDistance },
                 hopCooldown := 120 }
      else s
    else s

/-! ## GameLoop and the event handlers (lines 2-109, 316-338, 408-451, 658-688, 1416-1463) -/

/-- The one assignment made while drawing: `drawHomeInterior` calls
`drawTofuSoupButton` in the `showButton` phase, which stores the click box. -/
def draw (s : Game) : Game :=
  if s.gameState = GameState.homeInterior ∧
      s.homeInterior.animationPhase = HomePhase.showButton then
    let button : Button := { x := (W - 250) / 2, y := H * (75 / 100) + 50, w := 250, h := 80 }
    { s with tofuSoupButton := some button }
  else s

/-- The statement `if (this.hopCooldown > 0) ...` of `gameLoop`. -/
def updateHopCooldown (dt : ℚ) (s : Game) : Game :=
  if s.hopCooldown > 0 then { s with hopCooldown := max 0 (s.hopCooldown - dt) } else s

/-- The branch of `gameLoop` for `gameState === 'play'`. -/
def updatePlay (ω : Oracle) (s : Game) : Game :=
  let s := spawnVehiclesAndLogs ω s
  let s := updateVehiclesAndLogs s
  let s := updateCamera s
  let s := continuouslySpawnIngredients ω s
  checkCollisions s

/-- The `if`/`else if` chain of `gameLoop` that updates the active scene. -/
def updateScene (ω : Oracle) (dt : ℚ) (s : Game) : Game :=
  if s.gameState = GameState.play then updatePlay ω s
  else if s.gameState = GameState.bonus then updateBonus dt s
  else if s.gameState = GameState.homeInterior then updateHomeInterior ω dt s
  else if s.gameState = GameState.tofuSoup then updateTofuSoup ω dt s
  else s

/-- One call of `gameLoop(currentTime)`, without the request for the next frame (the
next call is the next `Event.frame`). -/
def gameLoop (ω : Oracle) (currentTime : ℚ) (s : Game) : Game :=
  if !s.gameRunning then s
  else
    let dt := min (currentTime - s.lastTime) 40
    let s := { s with lastTime := currentTime }
    let s := updateHopCooldown dt s
    let s := updateScene ω dt s
    draw s

/-- The method `startGame()`; `now` is the value of `performance.now()`. -/
def startGame (ω : Oracle) (now : ℚ) (s : Game) : Game :=
  gameLoop ω now (resetGame ω { s with gameState := GameState.play, gameRunning := true })

/-- The method `restartGame()`; `now` is the value of `performance.now()`. -/
def restartGame (ω : Oracle) (now : ℚ) (s : Game) : Game :=
  gameLoop ω now (resetGame ω { s with gameState := GameState.play, gameRunning := true })

/-- The method `backToTitle()`. -/
def backToTitle (s : Game) : Game :=
  { s with gameState := GameState.title, gameRunning := false }

/-- The method `startBonus()`; `now` is the value of `performance.now()`. -/
def startBonus (ω : Oracle) (now : ℚ) (s : Game) : Game :=
  gameLoop ω now
    { s with
      gameState := GameState.bonus
      gameRunning := true
      bonusTimer := 30
      bonusRings := []
      bonusPlayer := ⟨W / 2, H / 2⟩
      ringSpawnTimer := 0 }

/-- The loop `INGREDIENTS.forEach` shared by the two testing shortcuts: marks every
entry taken and adds its key to `collected`. -/
def collectAll (s : Game) : Game :=
  { s with
    collected := s.INGREDIENTS.foldl (fun c ingredient => setAdd ingredient.key c) s.collected
    INGREDIENTS := s.INGREDIENTS.map fun ingredient => { ingredient with taken := true } }

/-- The method `teleportToHouseForTesting()`. -/
def teleportToHouseForTesting (s : Game) : Game :=
  let s := spawnHouseEntrance (collectAll s)
  let s := { s with player := { s.player with worldY := numOrZero s.house.worldY,
                                              gridX := s.house.gridX + 2 } }
  let s := { s with targetCameraY := (numOrZero s.house.worldY * TILE) - (H * (5 / 10)) }
  { s with cameraY := s.targetCameraY }

/-- The method `completeAllIngredients()`. -/
def completeAllIngredients (s : Game) : Game :=
  let s := collectAll s
  let s := { s with ingredientPositions :=
    s.ingredientPositions.map fun ingredient => { ingredient with taken := true } }
  spawnHouseEntrance s

/-- The state the constructor leaves, before its call of `spawnIngredients`. -/
def constructorFields : Game :=
  { gameState := GameState.title
    gameRunning := false
    lastTime := 0
    hopCooldown := 0
    INGREDIENTS :=
      [ ⟨"tofu", "Tofu", false⟩, ⟨"onion", "Onion", false⟩, ⟨"broth", "Broth", false⟩,
        ⟨"mushroom", "Mushroom", false⟩, ⟨"scallion", "Scallion", false⟩,
        ⟨"chili", "Chili", false⟩ ]
    collected := []
    ingredientPositions := []
    continuousSpawnTimer := 0
    cameraY := -H * (3 / 10)
    targetCameraY := -H * (3 / 10)
    maxPlayerProgress := 0
    vehicles := []
    logs := []
    spawnTimer := 0
    gameSpeed := 2
    player :=
      { gridX := ⌊(GRID_W : ℚ) / 2⌋
        worldY := 0
        width := TILE * (8 / 10)
        height := TILE * (8 / 10)
        onLog := none
        alive := true }
    homeInterior :=
      { fadeOpacity := 0
        playerPosX := -50
        partnerPosX := 0
        animationPhase := HomePhase.fadeIn
        animationTimer := 0
        heartsPhaseTimer := none
        hearts := [] }
    house :=
      { gridX := ⌊(GRID_W : ℚ) / 2⌋ - 2
        worldY := none
        visible := false
        entranceSpawned := false }
    houseEntrance := none
    gameWorldTop := none
    finalStretchMode := false
    bonusTimer := 30
    bonusRings := []
    bonusCat := ⟨W / 2, H / 2⟩
    bonusPlayer := ⟨W / 2, H / 2⟩
    ringSpawnTimer := 0
    tofuSoup := none
    tofuSoupButton := none
    rngCalls := 0
    nextLogId := 0
    sounds := [] }

/-- The game object after `new LoveJourneyGame()`. -/
def newGame (ω : Oracle) : Game :=
  spawnIngredients ω constructorFields

/-- What can happen to a game object after construction: a key press, an animation
frame at time `currentTime`, a click on one of the buttons, or a click on the canvas;
`now` is the value of `performance.now()` where the handler reads it. -/
inductive Event where
  | keydown (key : String) (now : ℚ)
  | frame (currentTime : ℚ)
  | startBtn (now : ℚ)
  | restartBtn (now : ℚ)
  | playAgainBtn (now : ℚ)
  | bonusBtn (now : ℚ)
  | backToTitleBtn
  | canvasClick (x y : ℚ)

/-- The `keydown` listener installed by `initEventListeners`; `now` is the value of
`performance.now()` if the key starts the game. -/
def onKeydown (ω : Oracle) (key : String) (now : ℚ) (s : Game) : Game :=
  if s.gameState = GameState.title ∧ (key = " " ∨ key = "Enter") then startGame ω now s
  else if s.gameState = GameState.play ∧ s.gameRunning then
    if key.toLower = "t" then teleportToHouseForTesting s
    else if key.toLower = "c" then completeAllIngredients s
    else handlePlayerInput key.toLower s
  else if s.gameState = GameState.bonus ∧ s.gameRunning then handleBonusInput key.toLower s
  else s

/-- The effect of one event. -/
def handleEvent (ω : Oracle) (e : Event) (s : Game) : Game :=
  match e with
  | Event.keydown key now => onKeydown ω key now s
  | Event.frame currentTime => gameLoop ω currentTime s
  | Event.startBtn now => startGame ω now s
  | Event.restartBtn now => restartGame ω now s
  | Event.playAgainBtn now => restartGame ω now s
  | Event.bonusBtn now => startBonus ω now s
  | Event.backToTitleBtn => backToTitle s
  | Event.canvasClick x y => handleCanvasClick x y s

/-- The key press is one of the two testing shortcuts of the `keydown` listener. -/
def isTestingShortcut (e : Event) : Bool :=
  match e with
  | Event.keydown key _ => decide (key.toLower = "t") || decide (key.toLower = "c")
  | _ => false

/-- The states a game object can be in: the constructed object and whatever a
sequence of events makes of it, for the draws `ω`. -/
inductive Reachable (ω : Oracle) : Game → Prop where
  | init : Reachable ω (newGame ω)
  | step (s : Game) (e : Event) : Reachable ω s → Reachable ω (handleEvent ω e s)

/-- The run of a list of events, oldest first. -/
def runEvents (ω : Oracle) : List Event → Game → Game
  | [], s => s
  | e :: rest, s => runEvents ω rest (handleEvent ω e s)

/-! ## Definitions used to state the properties -/

/-- The 7-row pattern in the words of the specification: within a section the first
`streetRows` rows are road, the next 1 row is grass, the next 3 rows are water and
the rest is grass. -/
def specLanePattern (worldY : ℤ) : LaneType :=
  let absY := |worldY|
  let sectionIndex := absY / 7
  let streetRows := 2 + (sectionIndex % 2)
  let p := absY % 7
  if p < streetRows then LaneType.road
  else if p < streetRows + 1 then LaneType.grass
  else if p < streetRows + 1 + 3 then LaneType.water
  else LaneType.grass

/-- The half-open spans `[a1, b1)` and `[a2, b2)` have a point in common. -/
def spansOverlap (a1 b1 a2 b2 : ℚ) : Prop :=
  ∃ x : ℚ, a1 ≤ x ∧ x < b1 ∧ a2 ≤ x ∧ x < b2

/-- The log is on the player's row and its span overlaps the player's span widened
to `[gridX - 0.3, gridX + 0.8)`. -/
def ridesLog (s : Game) (log : Log) : Prop :=
  log.worldY = s.player.worldY ∧
    spansOverlap log.gridX (log.gridX + log.length)
      (s.player.gridX - 3 / 10) (s.player.gridX + 8 / 10)

/-- Draws that never spawn anything: every call of `Math.random()` returns 0.99. -/
def quietOracle : Oracle := fun _ => 99 / 100

/-- A log of length 4 at column 5 of the given row, drifting right at speed 1. -/
def rampLog (id : ℕ) (row : ℤ) : Log :=
  { id := id, gridX := 5, worldY := row, width := TILE * 4 * (9 / 10), height := TILE * (8 / 10),
    speed := 1, length := 4 }

/-- A play state with the player on row -10, column 7, a log on each water row between
rows -10 and -30, and no vehicle. -/
def rampStart : Game :=
  { constructorFields with
    gameState := GameState.play
    gameRunning := true
    player := { constructorFields.player with worldY := -10 }
    maxPlayerProgress := -10
    targetCameraY := -10 * TILE - H * (7 / 10)
    cameraY := -10 * TILE - H * (7 / 10)
    logs := [rampLog 0 (-11), rampLog 1 (-12), rampLog 2 (-17), rampLog 3 (-18),
             rampLog 4 (-25), rampLog 5 (-26)]
    nextLogId := 6 }

/-- One hop forward at time `t` followed by the three frames of 40 ms that the hop
cooldown of 120 ms takes. -/
def hopForward (t : ℚ) : List Event :=
  [Event.keydown "w" t, Event.frame (t + 40), Event.frame (t + 80), Event.frame (t + 120)]

/-- Twenty hops forward, one every 120 ms. -/
def rampEvents : List Event :=
  (List.range 20).flatMap fun i => hopForward (120 * i)

/-- The events, run from `s`, are a play run between rows -10 and -30: before each
event the player is alive in the running `play` scene, every row visited lies between
-30 and -10, and each event is a frame or a key press other than a testing
shortcut. -/
def advancesAlive (ω : Oracle) : List Event → Game → Bool
  | [], s => decide (-30 ≤ s.player.worldY) && decide (s.player.worldY ≤ -10)
  | e :: rest, s =>
    s.player.alive && s.gameRunning && decide (s.gameState = GameState.play) &&
      decide (-30 ≤ s.player.worldY) && decide (s.player.worldY ≤ -10) &&
      (match e with
        | Event.frame _ => true
        | Event.keydown _ _ => !isTestingShortcut e
        | _ => false) &&
      advancesAlive ω rest (handleEvent ω e s)

/-- The number of frames of the run that start with the player on row `row`. -/
def framesOnRow (ω : Oracle) (row : ℤ) : List Event → Game → ℕ
  | [], _ => 0
  | e :: rest, s =>
    (match e with
      | Event.frame _ => if s.player.worldY = row then 1 else 0
      | _ => 0) + framesOnRow ω row rest (handleEvent ω e s)

/-- The state `rampStart` with the player moved to row -19. -/
def rampRow19 : Game :=
  { rampStart with player := { rampStart.player with worldY := -19 } }

/-- The move of one vehicle in a frame. -/
def moveVehicle (v : Vehicle) : Vehicle :=
  { v with gridX := v.gridX + v.speed * (2 / 100) }

/-- The vehicle is within 3 columns of the grid. -/
def vehicleOnScreen (v : Vehicle) : Bool :=
  decide (-3 ≤ v.gridX) && decide (v.gridX ≤ (GRID_W : ℚ) + 3)

/-- The move of one log in a frame. -/
def moveLog (log : Log) : Log :=
  { log with gridX := log.gridX + log.speed * (2 / 100) }

/-- A play state with the player at column 7 of row `row` and one vehicle on that
row spanning the columns `[6.5, 8.0)`; no goal zone is spawned. -/
def carScene (row : ℤ) : Game :=
  { constructorFields with
    gameState := GameState.play
    gameRunning := true
    player := { constructorFields.player with worldY := row }
    vehicles := [{ gridX := 13 / 2, worldY := row, width := 48, height := TILE * (7 / 10),
                   speed := 1, color := "#FF8A8A" }] }

/-- A play state with the player at column `x` of the water row -3 and one log of
length 3 at column 5 of that row. -/
def logScene (x : ℚ) : Game :=
  { constructorFields with
    gameState := GameState.play
    gameRunning := true
    player := { constructorFields.player with gridX := x, worldY := -3 }
    logs := [{ id := 0, gridX := 5, worldY := -3, width := TILE * 3 * (9 / 10),
               height := TILE * (8 / 10), speed := 1, length := 3 }]
    nextLogId := 1 }

/-- The state `logScene 7` with the player standing on the log. -/
def rideScene : Game :=
  { logScene 7 with player := { (logScene 7).player with onLog := some 0 } }

/-- The logs in `logs` are distinct objects and `nextLogId` is an identity no log
has taken yet. -/
def logsDistinct (s : Game) : Prop :=
  (s.logs.map Log.id).Nodup ∧ ∀ l ∈ s.logs, l.id < s.nextLogId

/-- The operation leaves `logs` and `nextLogId` as they are. -/
def sameLogs (s t : Game) : Prop :=
  t.logs = s.logs ∧ t.nextLogId = s.nextLogId

/-! ## Definitions used to state the properties of the goal, the camera and the traffic -/

/-- The fields of the game object that the goal, the ingredients' bookkeeping and
the camera live in. -/
structure GoalView where
  INGREDIENTS : List Ingredient
  collected : List String
  house : House
  houseEntrance : Option HouseEntrance
  gameWorldTop : Option ℤ
  finalStretchMode : Bool
  cameraY : ℚ
  targetCameraY : ℚ
  maxPlayerProgress : ℤ

/-- The goal, bookkeeping and camera fields of a state. -/
def goalView (s : Game) : GoalView :=
  { INGREDIENTS := s.INGREDIENTS
    collected := s.collected
    house := s.house
    houseEntrance := s.houseEntrance
    gameWorldTop := s.gameWorldTop
    finalStretchMode := s.finalStretchMode
    cameraY := s.cameraY
    targetCameraY := s.targetCameraY
    maxPlayerProgress := s.maxPlayerProgress }

/-- The fields of `goalView` together with the slots on the map. -/
def questView (s : Game) : GoalView × List Slot :=
  (goalView s, s.ingredientPositions)

/-- One step of `updateCamera` on the camera fields. -/
def lerpView (g : GoalView) : GoalView :=
  { g with cameraY := g.cameraY + (g.targetCameraY - g.cameraY) * (1 / 10) }

/-- A state whose camera lags 100 pixels behind its target. -/
def lagScene : Game :=
  { constructorFields with cameraY := 0, targetCameraY := -100 }

/-- The draws are values of `Math.random()`: each lies in `[0, 1)`. -/
def validOracle (ω : Oracle) : Prop :=
  ∀ k, 0 ≤ ω k ∧ ω k < 1

/-- The states reached from an empty vehicle list by `spawnVehicle` and
`updateVehiclesAndLogs`. -/
inductive TrafficReachable (ω : Oracle) : Game → Prop where
  | empty (s : Game) : s.vehicles = [] → TrafficReachable ω s
  | spawn (s : Game) (worldRow : ℤ) (isFinalStretch : Bool) :
      TrafficReachable ω s → TrafficReachable ω (spawnVehicle ω worldRow isFinalStretch s)
  | update (s : Game) : TrafficReachable ω s → TrafficReachable ω (updateVehiclesAndLogs s)

/-- Every vehicle moves, and moves rightward exactly on the even rows. -/
def directionByParity (vehicles : List Vehicle) : Prop :=
  ∀ v ∈ vehicles, v.speed ≠ 0 ∧ (v.speed > 0 ↔ v.worldY % 2 = 0)

/-- Two vehicles spawned on row -7 of the constructed state, with a frame between. -/
def trafficScene : Game :=
  spawnVehicle quietOracle (-7) false
    (updateVehiclesAndLogs (spawnVehicle quietOracle (-7) false constructorFields))

/-- Draws that spawn on every road and water row visited: every call of
`Math.random()` returns 0. -/
def eagerOracle : Oracle := fun _ => 0

/-- A state with the goal zone spawned (house on row -18), the camera moved up to
the zone, and the spawn timer one tick before it fires. -/
def goalScene : Game :=
  { spawnHouseEntrance constructorFields with spawnTimer := 49, cameraY := -800 }

/-- The entrance of `goalScene`. -/
def goalSceneEntrance : HouseEntrance :=
  { grassFieldStart := -13, grassFieldEnd := -20, pathStart := -15, fenceLeft := 2,
    fenceRight := 13, gateY := -17, challengeZoneStart := -10, challengeZoneEnd := -13 }

/-- The keys of the ingredients, in the order of `INGREDIENTS`. -/
def ingredientKeys : List String :=
  constructorFields.INGREDIENTS.map Ingredient.key

/-- The bookkeeping of the ingredients and of the goal zone is consistent: the entries
of `INGREDIENTS` carry the six keys, `collected` is a set of such keys, an entry is
taken exactly when its key is collected, the goal zone is spawned exactly when all
keys are collected, and `house.worldY` is set exactly when the goal zone is spawned. -/
structure GoalInv (s : Game) : Prop where
  keys : s.INGREDIENTS.map Ingredient.key = ingredientKeys
  nodup : s.collected.Nodup
  sub : ∀ k ∈ s.collected, k ∈ ingredientKeys
  taken : ∀ ing ∈ s.INGREDIENTS, ing.taken = true ↔ ing.key ∈ s.collected
  spawned : s.house.entranceSpawned = true ↔ s.collected.length = s.INGREDIENTS.length
  worldY : s.house.worldY.isSome = true ↔ s.house.entranceSpawned = true

/-- Every slot carries the key of an ingredient. -/
def slotKeysOk (slots : List Slot) : Prop :=
  ∀ slot ∈ slots, slot.key ∈ ingredientKeys

/-- The invariant of the ingredient and goal bookkeeping. -/
def QuestInv (s : Game) : Prop :=
  GoalInv s ∧ slotKeysOk s.ingredientPositions

/-- The statements that `checkIngredientPickup` runs for a slot it picks up, apart
from the slot's own flag: the key joins `collected`, the entry of `INGREDIENTS` is
marked, the sound plays, and the goal zone spawns if the set is full. -/
def pickupStep (key : String) (s : Game) : Game :=
  let s := { s with
    collected := setAdd key s.collected
    INGREDIENTS := markTaken key s.INGREDIENTS
    sounds := s.sounds ++ [Sound.pickup] }
  if s.collected.length = s.INGREDIENTS.length then spawnHouseEntrance s else s

/-- The test of `checkIngredientPickup` on one slot: the slot is untaken, its column
is the floor of the player's column, and its row is the player's row. -/
abbrev slotHit (s : Game) (slot : Slot) : Prop :=
  !slot.taken ∧ slot.gx = ⌊s.player.gridX⌋ ∧ slot.gy = s.player.worldY

/-- The slot as a pickup leaves it. -/
def takeSlot (slot : Slot) : Slot :=
  { slot with taken := true }

/-- The `switch` statement of `handlePlayerInput`: the move of the player. -/
def movePlayer (key : String) (s : Game) : Game :=
  let maxGridX : ℤ := GRID_W - 1
  if key = "w" ∨ key = "arrowup" then
    let s := { s with
      player := { s.player with worldY := s.player.worldY - 1, onLog := none }
      hopCooldown := 120 }
    if s.player.worldY < s.maxPlayerProgress then
      updateCameraTarget { s with maxPlayerProgress := s.player.worldY }
    else s
  else if key = "s" ∨ key = "arrowdown" then
    if s.player.worldY < 0 then
      { s with
        player := { s.player with worldY := s.player.worldY + 1, onLog := none }
        hopCooldown := 120 }
    else s
  else if key = "a" ∨ key = "arrowleft" then
    if s.player.gridX > 0 then
      { s with
        player := { s.player with gridX := s.player.gridX - 1, onLog := none }
        hopCooldown := 120 }
    else s
  else if key = "d" ∨ key = "arrowright" then
    if s.player.gridX < maxGridX then
      { s with
        player := { s.player with gridX := s.player.gridX + 1, onLog := none }
        hopCooldown := 120 }
    else s
  else s

/-- The states of a run: what `resetGame` leaves, and what player input, a camera
step and a whole frame make of such a state. -/
inductive PlayRun (ω : Oracle) : Game → Prop where
  | reset (s : Game) : PlayRun ω (resetGame ω s)
  | input (s : Game) (key : String) : PlayRun ω s → PlayRun ω (handlePlayerInput key s)
  | camera (s : Game) : PlayRun ω s → PlayRun ω (updateCamera s)
  | frame (s : Game) (currentTime : ℚ) : PlayRun ω s → PlayRun ω (gameLoop ω currentTime s)

/-- The camera target is not ahead of the target the record of progress asks for, and
the camera is not ahead of its target (ahead is the negative direction). -/
def cameraInv (s : Game) : Prop :=
  s.maxPlayerProgress * TILE - H * (7 / 10) ≤ s.targetCameraY ∧ s.targetCameraY ≤ s.cameraY

/-- A run in play: reset from the constructed object, then two hops forward with the
three frames of the cooldown between. -/
def cameraScene : Game :=
  handlePlayerInput "w" (gameLoop quietOracle 120 (gameLoop quietOracle 80
    (gameLoop quietOracle 40 (handlePlayerInput "w" (resetGame quietOracle
      { constructorFields with gameState := GameState.play, gameRunning := true })))))

/-- The event starts a new run: it reaches `resetGame`. -/
def restarts (e : Event) (s : Game) : Bool :=
  match e with
  | Event.startBtn _ => true
  | Event.restartBtn _ => true
  | Event.playAgainBtn _ => true
  | Event.keydown key _ => decide (s.gameState = GameState.title ∧ (key = " " ∨ key = "Enter"))
  | _ => false

/-- None of the events, run from `s`, starts a new run. -/
def sameRun (ω : Oracle) : List Event → Game → Bool
  | [], _ => true
  | e :: rest, s => !restarts e s && sameRun ω rest (handleEvent ω e s)

/-- The number of events of the run at which the goal zone is spawned: the event
finds `house.entranceSpawned` false and leaves it true. -/
def spawnCount (ω : Oracle) : List Event → Game → ℕ
  | [], _ => 0
  | e :: rest, s =>
    (if s.house.entranceSpawned = false ∧ (handleEvent ω e s).house.entranceSpawned = true
      then 1 else 0) + spawnCount ω rest (handleEvent ω e s)

/-- The constructed object put in the running `play` scene. -/
def playFields : Game :=
  { constructorFields with gameState := GameState.play, gameRunning := true }

/-- The game after the start button and then the key `key`, with draws that spawn
no hazard. -/
def shortcutScene (key : String) : Game :=
  handleEvent quietOracle (Event.keydown key 0)
    (handleEvent quietOracle (Event.startBtn 0) (newGame quietOracle))

/-- A play state with the player at column 7.3 of the water row -4 (as a log leaves
it) and an untaken slot at column 7 of row -5. -/
def fracScene : Game :=
  let slot : Slot := { key := "tofu", label := "Tofu", gx := 7, gy := -5, taken := false }
  { playFields with
    player := { constructorFields.player with gridX := 73 / 10, worldY := -4 }
    maxPlayerProgress := -4
    ingredientPositions := [slot] }

/-- A play state with the player at column 7 of row -4 and slots at (7, -5), untaken,
and (3, -9). -/
def pickScene : Game :=
  let slot1 : Slot := { key := "tofu", label := "Tofu", gx := 7, gy := -5, taken := false }
  let slot2 : Slot := { key := "onion", label := "Onion", gx := 3, gy := -9, taken := false }
  { playFields with
    player := { constructorFields.player with worldY := -4 }
    maxPlayerProgress := -4
    ingredientPositions := [slot1, slot2] }

/-! ## Definitions used to state the properties of the scenes, the placement and the player -/

/-- The successor of a phase in the order fadeIn, playerWalk, approach, hearts,
showButton; the last phase has none and is its own successor here. -/
def nextHomePhase : HomePhase → HomePhase
  | HomePhase.fadeIn => HomePhase.playerWalk
  | HomePhase.playerWalk => HomePhase.approach
  | HomePhase.approach => HomePhase.hearts
  | HomePhase.hearts => HomePhase.showButton
  | HomePhase.showButton => HomePhase.showButton

/-- The position of a phase in the order fadeIn, playerWalk, approach, hearts,
showButton. -/
def homePhaseRank : HomePhase → ℕ
  | HomePhase.fadeIn => 0
  | HomePhase.playerWalk => 1
  | HomePhase.approach => 2
  | HomePhase.hearts => 3
  | HomePhase.showButton => 4

/-- The home scene in its `showButton` phase, with the button box stored as `draw`
stores it. -/
def buttonScene : Game :=
  draw { constructorFields with
    gameState := GameState.homeInterior
    gameRunning := true
    homeInterior := { constructorFields.homeInterior with
      animationPhase := HomePhase.showButton } }

/-- A play state in the middle of a hop cooldown, with an untaken slot on the row
ahead of the player. -/
def cooldownScene : Game :=
  { pickScene with hopCooldown := 80 }

/-- A bonus state with the token at the centre and no cooldown. -/
def bonusScene : Game :=
  { constructorFields with gameState := GameState.bonus, gameRunning := true }

/-- A step of a run without testing shortcuts: a player input or a frame. -/
inductive PlayStep where
  | input (key : String)
  | frame (currentTime : ℚ)

/-- The effect of one step of a run. -/
def playStep (ω : Oracle) (st : PlayStep) (s : Game) : Game :=
  match st with
  | PlayStep.input key => handlePlayerInput key s
  | PlayStep.frame currentTime => gameLoop ω currentTime s

/-- The run of a list of steps, oldest first. -/
def runPlay (ω : Oracle) : List PlayStep → Game → Game
  | [], s => s
  | st :: rest, s => runPlay ω rest (playStep ω st s)

/-- The most negative row the player stands on in the states of the run, the first
and the last included. -/
def lowestRow (ω : Oracle) : List PlayStep → Game → ℤ
  | [], s => s.player.worldY
  | st :: rest, s => min s.player.worldY (lowestRow ω rest (playStep ω st s))

/-- Two hops forward and one back, with the frames of the cooldown between. -/
def backAndForth : List PlayStep :=
  [PlayStep.input "w", PlayStep.frame 40, PlayStep.frame 80, PlayStep.frame 120,
   PlayStep.input "w", PlayStep.frame 160, PlayStep.frame 200, PlayStep.frame 240,
   PlayStep.input "s"]

/-- Two slots differ by at least `d` in column or in row. -/
def farApart (d : ℤ) (a b : Slot) : Prop :=
  d ≤ |a.gx - b.gx| ∨ d ≤ |a.gy - b.gy|

/-- A play state with the player on row -20, the tofu collected, an untaken onion slot
and a taken broth slot on the map. -/
def respawnScene : Game :=
  let slot1 : Slot := { key := "onion", label := "Onion", gx := 3, gy := -25, taken := false }
  let slot2 : Slot := { key := "broth", label := "Broth", gx := 9, gy := -18, taken := true }
  { playFields with
    player := { constructorFields.player with worldY := -20 }
    maxPlayerProgress := -20
    collected := ["tofu"]
    ingredientPositions := [slot1, slot2] }

/-- Draws that are all 1/2. -/
def midOracle : Oracle := fun _ => 1 / 2

/-- The run of `updateTofuSoup` over frames with the given time steps, oldest first. -/
def runSoup (ω : Oracle) : List ℚ → Game → Game
  | [], s => s
  | dt :: rest, s => runSoup ω rest (updateTofuSoup ω dt s)

/-- The soup scene is in its `showSoup` phase. -/
def inShowSoup (s : Game) : Prop :=
  ∃ t : TofuSoup, s.tofuSoup = some t ∧ t.animationPhase = SoupPhase.showSoup

/-- The soup scene as 25 frames of 40 ms leave it after the click on the button: the
fade-in is over and the `showSoup` phase starts. -/
def soupScene : Game :=
  runSoup quietOracle (List.replicate 25 40) (startTofuSoupScene buttonScene)

/-- The growth of one ring in a frame. -/
def growRing (dt : ℚ) (ring : Ring) : Ring :=
  { ring with r := ring.r + dt * (2 / 10) }

/-- The rings that the loop of `updateBonus` visits: those of the state, and the ring
the cat emits in this frame if the spawn timer has passed 2000. -/
def emittedRings (dt : ℚ) (s : Game) : List Ring :=
  if s.ringSpawnTimer + dt > 2000 then
    s.bonusRings ++ [{ x := s.bonusCat.x, y := s.bonusCat.y, r := 0, w := 15 }]
  else s.bonusRings

/-- The token after the ring loop: the rings are visited from the last to the first,
and a ring that hits the token where it then is sends it to the centre. -/
def tokenAfter (dt : ℚ) (rings : List Ring) (p : Point) : Point :=
  rings.foldr (fun ring q => if ringHit q (growRing dt ring) then ⟨W / 2, H / 2⟩ else q) p

/-- The test `|dist - ring.r| < c` in the squared form of `ringHit`, for any bound `c`. -/
def nearRingEdge (c : ℚ) (p : Point) (ring : Ring) : Bool :=
  let d2 := (p.x - ring.x) ^ 2 + (p.y - ring.y) ^ 2
  let lo := ring.r - c
  let hi := ring.r + c
  (decide (lo < 0) || decide (lo ^ 2 < d2)) && (decide (0 < hi) && decide (d2 < hi ^ 2))

/-- A bonus state with one ring of radius 92 and width 15 around the cat and the token
110 pixels to the right of the cat. -/
def hitScene : Game :=
  { bonusScene with
    bonusRings := [{ x := 240, y := 320, r := 92, w := 15 }]
    bonusPlayer := ⟨350, 320⟩ }

/-- Draws that spawn one log, on row -3 in the first spawn pass of the run
`rideEvents`, and nothing else: the draw of index 1234 is 0, every other draw 0.99. -/
def logOracle : Oracle := fun k => if k = 1234 then 0 else 99 / 100

/-- The frames number `a` to `a + n - 1` of a run with one frame every 40 ms. -/
def framesFrom (a n : ℕ) : List Event :=
  (List.range n).map fun i => Event.frame (40 * ((a + i : ℕ) : ℚ))

/-- A key press followed by the three frames of its cooldown. -/
def hopThen (key : String) (a : ℕ) : List Event :=
  Event.keydown key 0 :: framesFrom a 3

/-- A run of play: start, two hops forward to the grass row -2, seven hops right to
column 14, a wait of 365 frames while the log on row -3 drifts right, and a hop onto
the log, which carries the player for two frames. -/
def rideEvents : List Event :=
  Event.startBtn 0 :: framesFrom 1 3 ++
  hopThen "w" 4 ++ hopThen "w" 7 ++
  ((List.range 7).flatMap fun i => hopThen "d" (10 + 3 * i)) ++
  framesFrom 31 365 ++ hopThen "w" 396

/-- The state at the end of the run `rideEvents`. -/
def edgeScene : Game :=
  runEvents logOracle rideEvents (newGame logOracle)

/-! # Properties -/

/-! ## LaneClassifier -/

/-- Without a goal zone a row ahead of the start is classified by the pattern
alone. -/
theorem getLaneType_no_goal (s : Game) (worldY : ℤ)
    (h : s.house.entranceSpawned = false ∨ s.houseEntrance = none) (hy : worldY < 0) :
    getLaneType s worldY = getDynamicLaneType worldY := by
  unfold getLaneType
  rw [if_neg (by omega)]
  rcases h with h | h
  · rw [h]
  · rw [h]; cases s.house.entranceSpawned <;> rfl

/-- The pattern at position `p` of section `q`. -/
theorem getDynamicLaneType_section (q p : ℕ) (hp : p < 7) :
    getDynamicLaneType (-((7 * q + p : ℕ) : ℤ)) =
      if p < 2 + q % 2 then LaneType.road
      else if p = 2 + q % 2 then LaneType.grass
      else if p ≤ 2 + q % 2 + 2 then LaneType.water
      else LaneType.grass := by
  have habs : |(-((7 * q + p : ℕ) : ℤ))| = ((7 * q + p : ℕ) : ℤ) := by
    rw [abs_neg]; exact abs_of_nonneg (Int.natCast_nonneg _)
  have hdiv : ((7 * q + p : ℕ) : ℤ) / 7 = (q : ℤ) := by omega
  have hmod : ((7 * q + p : ℕ) : ℤ) % 7 = (p : ℤ) := by omega
  unfold getDynamicLaneType
  simp only [habs, hdiv, hmod]
  have hq : q % 2 = 0 ∨ q % 2 = 1 := by omega
  have hq' : ((q : ℤ) % 2) = ((q % 2 : ℕ) : ℤ) := by omega
  rw [hq']
  rcases hq with h | h <;> rw [h] <;> interval_cases p <;> simp

/-- C1: for every game state, with or without a goal zone, and every row
`worldY ≥ 0`, `getLaneType` answers grass. -/
theorem getLaneType_start_zone (s : Game) (worldY : ℤ) (h : worldY ≥ 0) :
    getLaneType s worldY = LaneType.grass := by
  unfold getLaneType
  rw [if_pos h]

/-- C1 at row 3 of a state whose goal zone is spawned. -/
theorem getLaneType_start_zone_witness :
    (3 : ℤ) ≥ 0 ∧ (spawnHouseEntrance constructorFields).house.entranceSpawned = true ∧
      getLaneType (spawnHouseEntrance constructorFields) 3 = LaneType.grass :=
  ⟨by decide, rfl, getLaneType_start_zone (spawnHouseEntrance constructorFields) 3 (by decide)⟩

/-- C2 as the specification words it fails at row -5: with no goal zone the third
row after the grass separator of section 0 is water in the specification's pattern
and grass in `getLaneType`. -/
theorem getLaneType_spec_pattern_counterexample :
    (-5 : ℤ) < 0 ∧ constructorFields.house.entranceSpawned = false ∧
      specLanePattern (-5) = LaneType.water ∧
      getLaneType constructorFields (-5) = LaneType.grass :=
  ⟨by decide, rfl, by decide, by decide⟩

/-- C2, amended: for every row `worldY < 0` and no goal zone, with
`sectionIndex = |worldY| / 7`, `streetRows = 2 + sectionIndex % 2` and
`p = |worldY| % 7`, the row is road when `p < streetRows`, grass for the next row,
water for the next 2 rows, and grass for what is left of the section. -/
theorem getLaneType_pattern (s : Game) (worldY : ℤ)
    (h : s.house.entranceSpawned = false ∨ s.houseEntrance = none) (hy : worldY < 0) :
    let sectionIndex := |worldY| / 7
    let streetRows := 2 + sectionIndex % 2
    let p := |worldY| % 7
    (p < streetRows → getLaneType s worldY = LaneType.road) ∧
    (p = streetRows → getLaneType s worldY = LaneType.grass) ∧
    (streetRows < p ∧ p ≤ streetRows + 2 → getLaneType s worldY = LaneType.water) ∧
    (streetRows + 2 < p → getLaneType s worldY = LaneType.grass) := by
  intro sectionIndex streetRows p
  have hw : worldY = -(((7 * (|worldY| / 7).toNat + (|worldY| % 7).toNat : ℕ)) : ℤ) := by
    have h1 : |worldY| = -worldY := abs_of_neg hy
    omega
  have hp7 : (|worldY| % 7).toNat < 7 := by omega
  have key := getDynamicLaneType_section (|worldY| / 7).toNat (|worldY| % 7).toNat hp7
  rw [← hw] at key
  rw [getLaneType_no_goal s worldY h hy, key]
  have hq : ((|worldY| / 7).toNat : ℤ) = sectionIndex := by
    have h1 : |worldY| = -worldY := abs_of_neg hy
    show ((|worldY| / 7).toNat : ℤ) = |worldY| / 7
    omega
  have hpp : ((|worldY| % 7).toNat : ℤ) = p := by
    show ((|worldY| % 7).toNat : ℤ) = |worldY| % 7
    omega
  have hs : streetRows = 2 + sectionIndex % 2 := rfl
  refine ⟨fun h1 => ?_, fun h1 => ?_, fun h1 => ?_, fun h1 => ?_⟩
  · rw [if_pos (by omega)]
  · rw [if_neg (by omega), if_pos (by omega)]
  · rw [if_neg (by omega), if_neg (by omega), if_pos (by omega)]
  · rw [if_neg (by omega), if_neg (by omega), if_neg (by omega)]

/-- C2, amended, at rows -3 (water) and -5 (grass) of the constructed state. -/
theorem getLaneType_pattern_witness :
    getLaneType constructorFields (-3) = LaneType.water ∧
      getLaneType constructorFields (-5) = LaneType.grass :=
  ⟨(getLaneType_pattern constructorFields (-3) (Or.inl rfl) (by decide)).2.2.1
      ⟨by decide, by decide⟩,
   (getLaneType_pattern constructorFields (-5) (Or.inl rfl) (by decide)).2.2.2 (by decide)⟩

/-- C3: after `spawnHouseEntrance`, every row of the grass field
`[houseEntrance.grassFieldEnd, houseEntrance.grassFieldStart]` is grass, whatever the
pattern gives there; when the call is the one that spawns the zone, the field is the
rows `houseY - 2` to `houseY + 5` for `houseY = floor(cameraY / TILE) - 12`. -/
theorem getLaneType_grass_field (s : Game) (he : HouseEntrance) (worldY : ℤ)
    (hhe : (spawnHouseEntrance s).houseEntrance = some he)
    (hlo : he.grassFieldEnd ≤ worldY) (hhi : worldY ≤ he.grassFieldStart) :
    getLaneType (spawnHouseEntrance s) worldY = LaneType.grass ∧
      (s.house.entranceSpawned = false →
        he.grassFieldEnd = ⌊s.cameraY / TILE⌋ - 12 - 2 ∧
        he.grassFieldStart = ⌊s.cameraY / TILE⌋ - 12 + 5) := by
  have hsp : (spawnHouseEntrance s).house.entranceSpawned = true := by
    unfold spawnHouseEntrance
    by_cases h : s.house.entranceSpawned = true
    · rw [if_pos h]; exact h
    · rw [if_neg h]
  constructor
  · unfold getLaneType
    by_cases h0 : worldY ≥ 0
    · rw [if_pos h0]
    · rw [if_neg h0, hsp, hhe]
      simp only
      by_cases h1 : worldY < numOrZero (spawnHouseEntrance s).house.worldY - 5
      · rw [if_pos h1]
      · rw [if_neg h1, if_pos ⟨hhi, hlo⟩]
  · intro hno
    unfold spawnHouseEntrance at hhe
    rw [if_neg (by simp [hno])] at hhe
    simp only [Option.some.injEq] at hhe
    subst hhe
    exact ⟨rfl, rfl⟩

/-- C3 at row -17 of the constructed state, which the pattern alone makes water. -/
theorem getLaneType_grass_field_witness :
    getDynamicLaneType (-17) = LaneType.water ∧
      getLaneType (spawnHouseEntrance constructorFields) (-17) = LaneType.grass :=
  ⟨by decide,
   (getLaneType_grass_field constructorFields
      { grassFieldStart := -13, grassFieldEnd := -20, pathStart := -15, fenceLeft := 2,
        fenceRight := 13, gateY := -17, challengeZoneStart := -10, challengeZoneEnd := -13 }
      (-17) (by decide!) (by decide) (by decide)).1⟩

/-! ## CollisionResolver -/

theorem TILE_pos : (0 : ℚ) < TILE := by unfold TILE; norm_num

theorem spansOverlap_iff (a1 b1 a2 b2 : ℚ) (h1 : a1 < b1) (h2 : a2 < b2) :
    spansOverlap a1 b1 a2 b2 ↔ a2 < b1 ∧ a1 < b2 := by
  constructor
  · rintro ⟨x, h1, h2, h3, h4⟩
    constructor <;> linarith
  · rintro ⟨h3, h4⟩
    exact ⟨max a1 a2, le_max_left _ _, max_lt h1 h3, le_max_right _ _, max_lt h4 h2⟩

theorem hitByVehicle_iff (s : Game) (vs : List Vehicle) :
    hitByVehicle s vs = true ↔ ∃ v ∈ vs, v.worldY = s.player.worldY ∧
      s.player.gridX < v.gridX + (v.width / TILE) ∧
      s.player.gridX + (s.player.width / TILE) > v.gridX := by
  induction vs with
  | nil => simp [hitByVehicle]
  | cons v rest ih =>
    unfold hitByVehicle
    by_cases h : v.worldY = s.player.worldY ∧
        s.player.gridX < v.gridX + (v.width / TILE) ∧
        s.player.gridX + (s.player.width / TILE) > v.gridX
    · rw [if_pos h]
      simp only [List.mem_cons, true_iff]
      exact ⟨v, Or.inl rfl, h⟩
    · rw [if_neg h, ih]
      constructor
      · rintro ⟨u, hu, hc⟩
        exact ⟨u, List.mem_cons_of_mem _ hu, hc⟩
      · rintro ⟨u, hu, hc⟩
        rcases List.mem_cons.1 hu with rfl | hu
        · exact absurd hc h
        · exact ⟨u, hu, hc⟩

theorem hitByVehicle_congr (s t : Game) (vs : List Vehicle)
    (hy : t.player.worldY = s.player.worldY) (hx : t.player.gridX = s.player.gridX)
    (hw : t.player.width = s.player.width) : hitByVehicle t vs = hitByVehicle s vs := by
  induction vs with
  | nil => rfl
  | cons v rest ih => simp only [hitByVehicle, hy, hx, hw, ih]

theorem hitByVehicle_onLog (s : Game) (o : Option ℕ) (vs : List Vehicle) :
    hitByVehicle { s with player := { s.player with onLog := o } } vs = hitByVehicle s vs :=
  hitByVehicle_congr _ _ _ rfl rfl rfl

theorem increaseDifficulty_player (s : Game) : (increaseDifficulty s).player = s.player := by
  unfold increaseDifficulty; split <;> rfl

theorem increaseDifficulty_gameRunning (s : Game) :
    (increaseDifficulty s).gameRunning = s.gameRunning := by
  unfold increaseDifficulty; split <;> rfl

theorem increaseDifficulty_sounds (s : Game) : (increaseDifficulty s).sounds = s.sounds := by
  unfold increaseDifficulty; split <;> rfl

theorem checkCollisions_road_hit (s : Game)
    (hroad : getLaneType s s.player.worldY = LaneType.road)
    (hit : hitByVehicle s s.vehicles = true) :
    checkCollisions s =
      gameOver DeathCause.car { s with player := { s.player with onLog := none } } := by
  unfold checkCollisions
  simp only [hroad]
  rw [hitByVehicle_onLog, if_pos hit]

theorem checkCollisions_road_miss (s : Game)
    (hroad : getLaneType s s.player.worldY = LaneType.road)
    (hit : hitByVehicle s s.vehicles = false) :
    checkCollisions s =
      increaseDifficulty { s with player := { s.player with onLog := none } } := by
  unfold checkCollisions
  simp only [hroad]
  rw [hitByVehicle_onLog, hit]
  rfl

/-- C4: on a road row, with the player alive, `checkCollisions` kills the player
(`alive = false`, `gameRunning = false`, the car honk is played) if and only if some
vehicle on the player's row has a span `[gridX, gridX + width/TILE)` that overlaps the
player's span `[gridX, gridX + width/TILE)`; otherwise the player stays alive and
nothing is played.  Widths are positive, as they are for every vehicle and player the
program creates. -/
theorem checkCollisions_road (s : Game)
    (hroad : getLaneType s s.player.worldY = LaneType.road)
    (halive : s.player.alive = true) (hpw : 0 < s.player.width)
    (hvw : ∀ v ∈ s.vehicles, 0 < v.width) :
    ((checkCollisions s).player.alive = false ↔
      ∃ v ∈ s.vehicles, v.worldY = s.player.worldY ∧
        spansOverlap v.gridX (v.gridX + v.width / TILE)
          s.player.gridX (s.player.gridX + s.player.width / TILE)) ∧
    ((checkCollisions s).player.alive = false →
      (checkCollisions s).gameRunning = false ∧
      (checkCollisions s).sounds = s.sounds ++ [Sound.carHonk]) ∧
    ((checkCollisions s).player.alive = true →
      (checkCollisions s).gameRunning = s.gameRunning ∧
      (checkCollisions s).sounds = s.sounds) := by
  have hov : (∃ v ∈ s.vehicles, v.worldY = s.player.worldY ∧
        spansOverlap v.gridX (v.gridX + v.width / TILE)
          s.player.gridX (s.player.gridX + s.player.width / TILE)) ↔
      hitByVehicle s s.vehicles = true := by
    rw [hitByVehicle_iff]
    constructor
    · rintro ⟨v, hv, hy, ho⟩
      rw [spansOverlap_iff _ _ _ _ (lt_add_of_pos_right _ (div_pos (hvw v hv) TILE_pos))
        (lt_add_of_pos_right _ (div_pos hpw TILE_pos))] at ho
      exact ⟨v, hv, hy, ho.1, ho.2⟩
    · rintro ⟨v, hv, hy, h1, h2⟩
      refine ⟨v, hv, hy, ?_⟩
      rw [spansOverlap_iff _ _ _ _ (lt_add_of_pos_right _ (div_pos (hvw v hv) TILE_pos))
        (lt_add_of_pos_right _ (div_pos hpw TILE_pos))]
      exact ⟨h1, h2⟩
  cases hit : hitByVehicle s s.vehicles with
  | true =>
    rw [checkCollisions_road_hit s hroad hit]
    refine ⟨⟨fun _ => hov.2 hit, fun _ => rfl⟩, fun _ => ⟨rfl, rfl⟩, fun h => ?_⟩
    exact absurd h (by simp [gameOver])
  | false =>
    rw [checkCollisions_road_miss s hroad hit]
    rw [increaseDifficulty_player, increaseDifficulty_gameRunning, increaseDifficulty_sounds]
    have hal : ({ s.player with onLog := none } : Player).alive = true := halive
    refine ⟨⟨fun h => ?_, fun h => ?_⟩, fun h => ?_, fun _ => ⟨rfl, rfl⟩⟩
    · rw [hal] at h; exact absurd h (by decide)
    · rw [hov.1 h] at hit; exact absurd hit (by decide)
    · rw [hal] at h; exact absurd h (by decide)

theorem findLog_congr (s t : Game) (logs : List Log)
    (hy : t.player.worldY = s.player.worldY) (hx : t.player.gridX = s.player.gridX) :
    findLog t logs = findLog s logs := by
  induction logs with
  | nil => rfl
  | cons l rest ih => simp only [findLog, hy, hx, ih]

theorem findLog_onLog (s : Game) (o : Option ℕ) (logs : List Log) :
    findLog { s with player := { s.player with onLog := o } } logs = findLog s logs :=
  findLog_congr _ _ _ rfl rfl

theorem ridesLog_iff (s : Game) (l : Log) (hl : 0 < l.length) :
    ridesLog s l ↔ l.worldY = s.player.worldY ∧
      (s.player.gridX + 8 / 10 > l.gridX ∧ s.player.gridX - 3 / 10 < l.gridX + l.length) := by
  unfold ridesLog
  have h1 : l.gridX < l.gridX + (l.length : ℚ) :=
    lt_add_of_pos_right _ (by exact_mod_cast hl)
  have h2 : s.player.gridX - 3 / 10 < s.player.gridX + 8 / 10 := by linarith
  rw [spansOverlap_iff _ _ _ _ h1 h2]
  constructor
  · rintro ⟨hy, a, b⟩; exact ⟨hy, b, a⟩
  · rintro ⟨hy, a, b⟩; exact ⟨hy, b, a⟩

theorem findLog_none (s : Game) (logs : List Log) (hlen : ∀ l ∈ logs, 0 < l.length)
    (h : findLog s logs = none) : ∀ m ∈ logs, ¬ ridesLog s m := by
  induction logs with
  | nil => intro m hm; cases hm
  | cons l rest ih =>
    have hl := hlen l (List.mem_cons_self _ _)
    have hrest : ∀ m ∈ rest, 0 < m.length := fun m hm => hlen m (List.mem_cons_of_mem _ hm)
    unfold findLog at h
    intro m hm
    by_cases hy : l.worldY = s.player.worldY
    · rw [if_pos hy] at h
      simp only at h
      by_cases hc : s.player.gridX + 8 / 10 > l.gridX ∧
          s.player.gridX - 3 / 10 < l.gridX + l.length
      · rw [if_pos hc] at h; cases h
      · rw [if_neg hc] at h
        rcases List.mem_cons.1 hm with rfl | hm
        · rw [ridesLog_iff s _ hl]; exact fun hr => hc hr.2
        · exact ih hrest h m hm
    · rw [if_neg hy] at h
      rcases List.mem_cons.1 hm with rfl | hm
      · rw [ridesLog_iff s _ hl]; exact fun hr => hy hr.1
      · exact ih hrest h m hm

theorem findLog_some (s : Game) (logs : List Log) (hlen : ∀ l ∈ logs, 0 < l.length)
    (log : Log) (h : findLog s logs = some log) :
    ∃ pre post, logs = pre ++ log :: post ∧ (∀ m ∈ pre, ¬ ridesLog s m) ∧ ridesLog s log := by
  induction logs with
  | nil => cases h
  | cons l rest ih =>
    have hl := hlen l (List.mem_cons_self _ _)
    have hrest : ∀ m ∈ rest, 0 < m.length := fun m hm => hlen m (List.mem_cons_of_mem _ hm)
    unfold findLog at h
    by_cases hy : l.worldY = s.player.worldY
    · rw [if_pos hy] at h
      simp only at h
      by_cases hc : s.player.gridX + 8 / 10 > l.gridX ∧
          s.player.gridX - 3 / 10 < l.gridX + l.length
      · rw [if_pos hc] at h
        cases h
        exact ⟨[], rest, rfl, fun m hm => (by cases hm), (ridesLog_iff s _ hl).2 ⟨hy, hc⟩⟩
      · rw [if_neg hc] at h
        obtain ⟨pre, post, he, hpre, hr⟩ := ih hrest h
        refine ⟨l :: pre, post, by rw [he]; rfl, fun m hm => ?_, hr⟩
        rcases List.mem_cons.1 hm with rfl | hm
        · rw [ridesLog_iff s _ hl]; exact fun hr => hc hr.2
        · exact hpre m hm
    · rw [if_neg hy] at h
      obtain ⟨pre, post, he, hpre, hr⟩ := ih hrest h
      refine ⟨l :: pre, post, by rw [he]; rfl, fun m hm => ?_, hr⟩
      rcases List.mem_cons.1 hm with rfl | hm
      · rw [ridesLog_iff s _ hl]; exact fun hr => hy hr.1
      · exact hpre m hm

theorem checkCollisions_water_some (s : Game) (log : Log)
    (hwater : getLaneType s s.player.worldY = LaneType.water)
    (h : findLog s s.logs = some log) :
    checkCollisions s =
      increaseDifficulty { s with player := { s.player with onLog := some log.id } } := by
  unfold checkCollisions
  simp only [hwater]
  rw [findLog_onLog, h]

theorem checkCollisions_water_none (s : Game)
    (hwater : getLaneType s s.player.worldY = LaneType.water)
    (h : findLog s s.logs = none) :
    checkCollisions s =
      gameOver DeathCause.water { s with player := { s.player with onLog := none } } := by
  unfold checkCollisions
  simp only [hwater]
  rw [findLog_onLog, h]

/-- C5: on a water row, with the player alive, `checkCollisions` sets `player.onLog`
to the first log in list order on that row whose span `[gridX, gridX + length)`
overlaps `[player.gridX - 0.3, player.gridX + 0.8)` and keeps the player alive, and
kills the player with the splash of a water death exactly when there is no such log.
In particular a log at column 5 of length 3 is ridden from column 6.5 and not from
column 9. -/
theorem checkCollisions_water (s : Game)
    (hwater : getLaneType s s.player.worldY = LaneType.water)
    (halive : s.player.alive = true) (hlen : ∀ l ∈ s.logs, 0 < l.length) :
    ((∃ pre log post, s.logs = pre ++ log :: post ∧ (∀ m ∈ pre, ¬ ridesLog s m) ∧
        ridesLog s log ∧ (checkCollisions s).player.onLog = some log.id ∧
        (checkCollisions s).player.alive = true ∧ (checkCollisions s).sounds = s.sounds) ∨
      ((∀ m ∈ s.logs, ¬ ridesLog s m) ∧ (checkCollisions s).player.onLog = none ∧
        (checkCollisions s).player.alive = false ∧ (checkCollisions s).gameRunning = false ∧
        (checkCollisions s).sounds = s.sounds ++ [Sound.splash])) ∧
    (∀ log : Log, s.logs = [log] → log.worldY = s.player.worldY → log.gridX = 5 →
      log.length = 3 →
      (s.player.gridX = 13 / 2 →
        (checkCollisions s).player.onLog = some log.id ∧
        (checkCollisions s).player.alive = true) ∧
      (s.player.gridX = 9 →
        (checkCollisions s).player.onLog = none ∧
        (checkCollisions s).player.alive = false)) := by
  constructor
  · cases h : findLog s s.logs with
    | none =>
      right
      rw [checkCollisions_water_none s hwater h]
      exact ⟨findLog_none s s.logs hlen h, rfl, rfl, rfl, rfl⟩
    | some log =>
      left
      obtain ⟨pre, post, he, hpre, hr⟩ := findLog_some s s.logs hlen log h
      rw [checkCollisions_water_some s log hwater h, increaseDifficulty_player,
        increaseDifficulty_sounds]
      exact ⟨pre, log, post, he, hpre, hr, rfl, halive, rfl⟩
  · intro log hlogs hy hx hlen3
    constructor
    · intro hp
      have h : findLog s s.logs = some log := by
        rw [hlogs]
        unfold findLog
        rw [if_pos hy]
        simp only
        rw [if_pos (by rw [hp, hx, hlen3]; norm_num)]
      rw [checkCollisions_water_some s log hwater h, increaseDifficulty_player]
      exact ⟨rfl, halive⟩
    · intro hp
      have h : findLog s s.logs = none := by
        rw [hlogs]
        unfold findLog
        rw [if_pos hy]
        simp only
        rw [if_neg (by rw [hp, hx, hlen3]; norm_num)]
        rfl
      rw [checkCollisions_water_none s hwater h]
      exact ⟨rfl, rfl⟩

/-- C4 on a vehicle spanning `[6.5, 8.0)` of road row -1 with the player at
column 7. -/
theorem checkCollisions_road_witness :
    getLaneType (carScene (-1)) (carScene (-1)).player.worldY = LaneType.road ∧
      (carScene (-1)).player.alive = true ∧
      (checkCollisions (carScene (-1))).player.alive = false ∧
      (checkCollisions (carScene (-1))).sounds = [Sound.carHonk] :=
  have h := checkCollisions_road (carScene (-1)) (by decide) rfl (by decide!) (by decide!)
  have dead : (checkCollisions (carScene (-1))).player.alive = false :=
    h.1.2 ⟨_, List.mem_singleton_self _, rfl, 7, by decide!, by decide!, by decide!,
      by decide!⟩
  ⟨by decide, rfl, dead, (h.2.1 dead).2⟩

/-- C5 on the log at column 5 of length 3 with the player at column 6.5. -/
theorem checkCollisions_water_witness :
    getLaneType (logScene (13 / 2)) (logScene (13 / 2)).player.worldY = LaneType.water ∧
      (logScene (13 / 2)).player.alive = true ∧
      (checkCollisions (logScene (13 / 2))).player.onLog = some 0 ∧
      (checkCollisions (logScene (13 / 2))).player.alive = true :=
  ⟨by decide, rfl,
   ((checkCollisions_water (logScene (13 / 2)) (by decide) rfl (by decide!)).2
      _ rfl rfl rfl rfl).1 rfl⟩

/-- C6 as stated fails: row -5 is a grass row, so with the player at (7, -5) and a
vehicle spanning `[6.5, 8.0)` on that row `checkCollisions` leaves the player alive
and plays nothing. -/
theorem checkCollisions_car_scenario_counterexample :
    (carScene (-5)).house.entranceSpawned = false ∧
      (carScene (-5)).player.gridX = 7 ∧ (carScene (-5)).player.worldY = -5 ∧
      getLaneType (carScene (-5)) (-5) = LaneType.grass ∧
      (checkCollisions (carScene (-5))).player.alive = true ∧
      (checkCollisions (carScene (-5))).gameRunning = true ∧
      (checkCollisions (carScene (-5))).sounds = [] := by
  decide!

/-- C6, amended: with the player at column 7 of a road row and a vehicle on that row
spanning `[6.5, 8.0)`, `checkCollisions` fires a collision with cause car: the player
is no longer alive, the game stops running and the car honk is played. -/
theorem checkCollisions_car_scenario (s : Game) (v : Vehicle)
    (hroad : getLaneType s s.player.worldY = LaneType.road)
    (hx : s.player.gridX = 7) (hpw : 0 < s.player.width)
    (hv : v ∈ s.vehicles) (hvy : v.worldY = s.player.worldY)
    (hvx : v.gridX = 13 / 2) (hvr : v.gridX + v.width / TILE = 8) :
    (checkCollisions s).player.alive = false ∧ (checkCollisions s).gameRunning = false ∧
      (checkCollisions s).sounds = s.sounds ++ [Sound.carHonk] := by
  have hit : hitByVehicle s s.vehicles = true := by
    rw [hitByVehicle_iff]
    refine ⟨v, hv, hvy, ?_, ?_⟩
    · rw [hx, hvr]; norm_num
    · have := div_pos hpw TILE_pos
      rw [hx, hvx]; linarith
  rw [checkCollisions_road_hit s hroad hit]
  exact ⟨rfl, rfl, rfl⟩

/-- C6, amended, on road row -8 with no goal zone. -/
theorem checkCollisions_car_scenario_witness :
    (carScene (-8)).house.entranceSpawned = false ∧
      getLaneType (carScene (-8)) (carScene (-8)).player.worldY = LaneType.road ∧
      (checkCollisions (carScene (-8))).player.alive = false ∧
      (checkCollisions (carScene (-8))).sounds = [Sound.carHonk] :=
  have h := checkCollisions_car_scenario (carScene (-8)) _ (by decide) (by decide!)
    (by decide!) (List.mem_singleton_self _) rfl rfl (by decide!)
  ⟨rfl, by decide, h.1, h.2.2⟩

/-! ## Difficulty ramp -/

@[simp] theorem random_gameSpeed (ω : Oracle) (s : Game) :
    (random ω s).2.gameSpeed = s.gameSpeed := rfl

@[simp] theorem spawnHouseEntrance_gameSpeed (s : Game) :
    (spawnHouseEntrance s).gameSpeed = s.gameSpeed := by
  unfold spawnHouseEntrance; split <;> rfl

@[simp] theorem spawnInitialAttempts_gameSpeed (ω : Oracle) (ing : Ingredient) (index n : ℕ)
    (s : Game) : (spawnInitialAttempts ω ing index n s).gameSpeed = s.gameSpeed := by
  induction n generalizing s with
  | zero => rfl
  | succ n ih =>
    unfold spawnInitialAttempts
    simp only [random]
    split_ifs
    · rfl
    · rw [ih]
    · rw [ih]

@[simp] theorem spawnInitialFrom_gameSpeed (ω : Oracle) (l : List Ingredient) (index : ℕ)
    (s : Game) : (spawnInitialFrom ω l index s).gameSpeed = s.gameSpeed := by
  induction l generalizing index s with
  | nil => rfl
  | cons a l ih => unfold spawnInitialFrom; rw [ih, spawnInitialAttempts_gameSpeed]

@[simp] theorem spawnIngredients_gameSpeed (ω : Oracle) (s : Game) :
    (spawnIngredients ω s).gameSpeed = s.gameSpeed := by
  unfold spawnIngredients spawnInitialIngredients
  rw [spawnInitialFrom_gameSpeed]

theorem resetGame_gameSpeed (ω : Oracle) (s : Game) : (resetGame ω s).gameSpeed = 2 := by
  unfold resetGame
  rw [spawnIngredients_gameSpeed]

@[simp] theorem spawnAheadAttempts_gameSpeed (ω : Oracle) (ing : Ingredient) (n : ℕ)
    (s : Game) : (spawnAheadAttempts ω ing n s).gameSpeed = s.gameSpeed := by
  induction n generalizing s with
  | zero => rfl
  | succ n ih =>
    unfold spawnAheadAttempts
    simp only [random]
    split_ifs
    · rfl
    · rw [ih]
    · rw [ih]

@[simp] theorem respawnEach_gameSpeed (ω : Oracle) (l : List Ingredient) (s : Game) :
    (respawnEach ω l s).gameSpeed = s.gameSpeed := by
  induction l generalizing s with
  | nil => rfl
  | cons a l ih =>
    unfold respawnEach
    simp only
    rw [ih]
    split_ifs
    · unfold spawnIngredientAhead; rw [spawnAheadAttempts_gameSpeed]
    · rfl

@[simp] theorem continuouslySpawnIngredients_gameSpeed (ω : Oracle) (s : Game) :
    (continuouslySpawnIngredients ω s).gameSpeed = s.gameSpeed := by
  unfold continuouslySpawnIngredients
  simp only
  split_ifs
  · unfold respawnMissingIngredients
    simp only [respawnEach_gameSpeed]
  · rfl

@[simp] theorem pickupLoop_gameSpeed (l : List Slot) (s : Game) :
    (pickupLoop l s).2.gameSpeed = s.gameSpeed := by
  induction l generalizing s with
  | nil => rfl
  | cons a l ih =>
    unfold pickupLoop
    split_ifs
    · simp only [ih]
      split_ifs
      · rw [spawnHouseEntrance_gameSpeed]
      · rfl
    · simp only [ih]

@[simp] theorem checkIngredientPickup_gameSpeed (s : Game) :
    (checkIngredientPickup s).gameSpeed = s.gameSpeed := by
  unfold checkIngredientPickup
  simp only [pickupLoop_gameSpeed]

@[simp] theorem checkHouseEntry_gameSpeed (s : Game) :
    (checkHouseEntry s).gameSpeed = s.gameSpeed := by
  unfold checkHouseEntry enterHouse
  split_ifs <;> rfl

@[simp] theorem handlePlayerInput_gameSpeed (key : String) (s : Game) :
    (handlePlayerInput key s).gameSpeed = s.gameSpeed := by
  unfold handlePlayerInput
  simp only [updateCameraTarget]
  split_ifs <;> simp only [checkHouseEntry_gameSpeed, checkIngredientPickup_gameSpeed]

@[simp] theorem gameOver_gameSpeed (c : DeathCause) (s : Game) :
    (gameOver c s).gameSpeed = s.gameSpeed := by
  unfold gameOver; cases c <;> rfl

@[simp] theorem spawnVehicle_gameSpeed (ω : Oracle) (row : ℤ) (f : Bool) (s : Game) :
    (spawnVehicle ω row f s).gameSpeed = s.gameSpeed := rfl

@[simp] theorem spawnLog_gameSpeed (ω : Oracle) (row : ℤ) (f : Bool) (s : Game) :
    (spawnLog ω row f s).gameSpeed = s.gameSpeed := rfl

@[simp] theorem spawnRow_gameSpeed (ω : Oracle) (row : ℤ) (s : Game) :
    (spawnRow ω row s).gameSpeed = s.gameSpeed := by
  unfold spawnRow
  simp only [random]
  split_ifs <;> rfl

@[simp] theorem spawnRows_gameSpeed (ω : Oracle) (n : ℕ) (row : ℤ) (s : Game) :
    (spawnRows ω n row s).gameSpeed = s.gameSpeed := by
  induction n generalizing row s with
  | zero => rfl
  | succ n ih => unfold spawnRows; rw [ih, spawnRow_gameSpeed]

@[simp] theorem spawnVehiclesAndLogs_gameSpeed (ω : Oracle) (s : Game) :
    (spawnVehiclesAndLogs ω s).gameSpeed = s.gameSpeed := by
  unfold spawnVehiclesAndLogs
  simp only
  split_ifs
  · simp only [spawnRows_gameSpeed]
  · rfl

@[simp] theorem updateLogsFrom_gameSpeed (n : ℕ) (s : Game) :
    (updateLogsFrom n s).gameSpeed = s.gameSpeed := by
  induction n generalizing s with
  | zero => rfl
  | succ n ih =>
    unfold updateLogsFrom
    split
    · rw [ih]
    · simp only
      split_ifs <;> simp only [gameOver_gameSpeed, ih]

@[simp] theorem updateVehiclesAndLogs_gameSpeed (s : Game) :
    (updateVehiclesAndLogs s).gameSpeed = s.gameSpeed := by
  unfold updateVehiclesAndLogs
  simp only [updateLogsFrom_gameSpeed]

@[simp] theorem updateCamera_gameSpeed (s : Game) :
    (updateCamera s).gameSpeed = s.gameSpeed := rfl

theorem increaseDifficulty_gameSpeed (s : Game) :
    (increaseDifficulty s).gameSpeed =
      if s.player.worldY < -10 ∧ |s.player.worldY| % 20 = 0 then min (s.gameSpeed + 1 / 10) 8
      else s.gameSpeed := by
  unfold increaseDifficulty; split <;> rfl

/-- The effect of `checkCollisions` on `gameSpeed`: one step of the ramp, or none. -/
theorem checkCollisions_gameSpeed_cases (s : Game) :
    (checkCollisions s).gameSpeed = s.gameSpeed ∨
      (checkCollisions s).gameSpeed = min (s.gameSpeed + 1 / 10) 8 := by
  have key : ∀ t : Game, t.gameSpeed = s.gameSpeed →
      (increaseDifficulty t).gameSpeed = s.gameSpeed ∨
        (increaseDifficulty t).gameSpeed = min (s.gameSpeed + 1 / 10) 8 := by
    intro t ht
    rw [increaseDifficulty_gameSpeed, ht]
    split
    · exact Or.inr rfl
    · exact Or.inl rfl
  unfold checkCollisions
  simp only
  split
  · split
    · left; rw [gameOver_gameSpeed]
    · exact key _ rfl
  · split
    · exact key _ rfl
    · left; rw [gameOver_gameSpeed]
  · exact key _ rfl

@[simp] theorem winGame_gameSpeed (s : Game) : (winGame s).gameSpeed = s.gameSpeed := rfl

@[simp] theorem handleCanvasClick_gameSpeed (x y : ℚ) (s : Game) :
    (handleCanvasClick x y s).gameSpeed = s.gameSpeed := by
  unfold handleCanvasClick startTofuSoupScene
  split
  · split_ifs <;> rfl
  · rfl

@[simp] theorem spawnHeart_gameSpeed (ω : Oracle) (s : Game) :
    (spawnHeart ω s).gameSpeed = s.gameSpeed := rfl

@[simp] theorem updateHomeInterior_gameSpeed (ω : Oracle) (dt : ℚ) (s : Game) :
    (updateHomeInterior ω dt s).gameSpeed = s.gameSpeed := by
  unfold updateHomeInterior
  simp only
  split <;> split_ifs <;> rfl

@[simp] theorem spawnSteamLoop_gameSpeed (ω : Oracle) (n : ℕ) (t : TofuSoup) (s : Game) :
    (spawnSteamLoop ω n t s).2.gameSpeed = s.gameSpeed := by
  induction n generalizing t s with
  | zero => rfl
  | succ n ih => unfold spawnSteamLoop; simp only [random]; rw [ih]

@[simp] theorem updateSteamFrom_gameSpeed (ω : Oracle) (dt : ℚ) (n : ℕ) (l : List Steam)
    (s : Game) : (updateSteamFrom ω dt n l s).2.gameSpeed = s.gameSpeed := by
  induction n generalizing l s with
  | zero => rfl
  | succ n ih =>
    unfold updateSteamFrom
    split
    · rw [ih]
    · simp only [random]
      split_ifs <;> rw [ih]

@[simp] theorem updateTofuSoup_gameSpeed (ω : Oracle) (dt : ℚ) (s : Game) :
    (updateTofuSoup ω dt s).gameSpeed = s.gameSpeed := by
  unfold updateTofuSoup
  split
  · rfl
  · simp only
    split
    · split_ifs <;> rfl
    · split_ifs <;>
        simp only [winGame_gameSpeed, updateSteamFrom_gameSpeed, spawnSteamLoop_gameSpeed]

@[simp] theorem updateRingsFrom_gameSpeed (dt : ℚ) (n : ℕ) (s : Game) :
    (updateRingsFrom dt n s).gameSpeed = s.gameSpeed := by
  induction n generalizing s with
  | zero => rfl
  | succ n ih =>
    unfold updateRingsFrom
    split
    · rw [ih]
    · simp only
      split_ifs <;> rw [ih]

@[simp] theorem updateBonus_gameSpeed (dt : ℚ) (s : Game) :
    (updateBonus dt s).gameSpeed = s.gameSpeed := by
  unfold updateBonus
  simp only
  split_ifs <;> simp only [updateRingsFrom_gameSpeed]

@[simp] theorem handleBonusInput_gameSpeed (key : String) (s : Game) :
    (handleBonusInput key s).gameSpeed = s.gameSpeed := by
  unfold handleBonusInput
  simp only
  split_ifs <;> rfl

@[simp] theorem draw_gameSpeed (s : Game) : (draw s).gameSpeed = s.gameSpeed := by
  unfold draw; split <;> rfl

@[simp] theorem updateHopCooldown_gameSpeed (dt : ℚ) (s : Game) :
    (updateHopCooldown dt s).gameSpeed = s.gameSpeed := by
  unfold updateHopCooldown; split <;> rfl

theorem updatePlay_gameSpeed_cases (ω : Oracle) (s : Game) :
    (updatePlay ω s).gameSpeed = s.gameSpeed ∨
      (updatePlay ω s).gameSpeed = min (s.gameSpeed + 1 / 10) 8 := by
  have h := checkCollisions_gameSpeed_cases (continuouslySpawnIngredients ω (updateCamera
    (updateVehiclesAndLogs (spawnVehiclesAndLogs ω s))))
  simp only [continuouslySpawnIngredients_gameSpeed, updateCamera_gameSpeed,
    updateVehiclesAndLogs_gameSpeed, spawnVehiclesAndLogs_gameSpeed] at h
  exact h

theorem updateScene_gameSpeed_cases (ω : Oracle) (dt : ℚ) (s : Game) :
    (updateScene ω dt s).gameSpeed = s.gameSpeed ∨
      (updateScene ω dt s).gameSpeed = min (s.gameSpeed + 1 / 10) 8 := by
  unfold updateScene
  split_ifs
  · exact updatePlay_gameSpeed_cases ω s
  · left; rw [updateBonus_gameSpeed]
  · left; rw [updateHomeInterior_gameSpeed]
  · left; rw [updateTofuSoup_gameSpeed]
  · left; rfl

/-- The effect of one frame on `gameSpeed`: one step of the ramp, or none. -/
theorem gameLoop_gameSpeed_cases (ω : Oracle) (t : ℚ) (s : Game) :
    (gameLoop ω t s).gameSpeed = s.gameSpeed ∨
      (gameLoop ω t s).gameSpeed = min (s.gameSpeed + 1 / 10) 8 := by
  unfold gameLoop
  split
  · exact Or.inl rfl
  · simp only [draw_gameSpeed]
    have h := updateScene_gameSpeed_cases ω (min (t - s.lastTime) 40)
      (updateHopCooldown (min (t - s.lastTime) 40) { s with lastTime := t })
    rw [updateHopCooldown_gameSpeed] at h
    exact h

theorem startGame_gameSpeed (ω : Oracle) (now : ℚ) (s : Game) :
    (startGame ω now s).gameSpeed = 2 ∨ (startGame ω now s).gameSpeed = min (2 + 1 / 10) 8 := by
  unfold startGame
  have h := gameLoop_gameSpeed_cases ω now
    (resetGame ω { s with gameState := GameState.play, gameRunning := true })
  rw [resetGame_gameSpeed] at h
  exact h

theorem restartGame_gameSpeed (ω : Oracle) (now : ℚ) (s : Game) :
    (restartGame ω now s).gameSpeed = 2 ∨
      (restartGame ω now s).gameSpeed = min (2 + 1 / 10) 8 :=
  startGame_gameSpeed ω now s

@[simp] theorem collectAll_gameSpeed (s : Game) : (collectAll s).gameSpeed = s.gameSpeed := rfl

@[simp] theorem teleportToHouseForTesting_gameSpeed (s : Game) :
    (teleportToHouseForTesting s).gameSpeed = s.gameSpeed := by
  unfold teleportToHouseForTesting
  simp only [spawnHouseEntrance_gameSpeed, collectAll_gameSpeed]

@[simp] theorem completeAllIngredients_gameSpeed (s : Game) :
    (completeAllIngredients s).gameSpeed = s.gameSpeed := by
  unfold completeAllIngredients
  simp only [spawnHouseEntrance_gameSpeed, collectAll_gameSpeed]

theorem newGame_gameSpeed (ω : Oracle) : (newGame ω).gameSpeed = 2 := by
  unfold newGame
  rw [spawnIngredients_gameSpeed]
  rfl

/-- The bounds that every event keeps: `2 ≤ gameSpeed ≤ 8`. -/
theorem handleEvent_gameSpeed_bounds (ω : Oracle) (e : Event) (s : Game)
    (h : 2 ≤ s.gameSpeed ∧ s.gameSpeed ≤ 8) :
    2 ≤ (handleEvent ω e s).gameSpeed ∧ (handleEvent ω e s).gameSpeed ≤ 8 := by
  have hstep : ∀ g : ℚ, (2 ≤ g ∧ g ≤ 8) → ∀ x : ℚ, (x = g ∨ x = min (g + 1 / 10) 8) →
      2 ≤ x ∧ x ≤ 8 := by
    intro g hg x hx
    rcases hx with rfl | rfl
    · exact hg
    · exact ⟨le_min (by linarith [hg.1]) (by norm_num), min_le_right _ _⟩
  have h2 : (2 : ℚ) ≤ 2 ∧ (2 : ℚ) ≤ 8 := by norm_num
  cases e with
  | keydown key now =>
    show 2 ≤ (onKeydown ω key now s).gameSpeed ∧ (onKeydown ω key now s).gameSpeed ≤ 8
    unfold onKeydown
    split_ifs
    · exact hstep 2 h2 _ (startGame_gameSpeed ω now s)
    · rw [teleportToHouseForTesting_gameSpeed]; exact h
    · rw [completeAllIngredients_gameSpeed]; exact h
    · rw [handlePlayerInput_gameSpeed]; exact h
    · rw [handleBonusInput_gameSpeed]; exact h
    · exact h
  | frame t => exact hstep _ h _ (gameLoop_gameSpeed_cases ω t s)
  | startBtn now => exact hstep 2 h2 _ (startGame_gameSpeed ω now s)
  | restartBtn now => exact hstep 2 h2 _ (restartGame_gameSpeed ω now s)
  | playAgainBtn now => exact hstep 2 h2 _ (restartGame_gameSpeed ω now s)
  | bonusBtn now =>
    refine hstep _ h _ ?_
    show (startBonus ω now s).gameSpeed = _ ∨ _
    unfold startBonus
    exact gameLoop_gameSpeed_cases ω now _
  | backToTitleBtn => exact h
  | canvasClick x y =>
    show 2 ≤ (handleCanvasClick x y s).gameSpeed ∧ (handleCanvasClick x y s).gameSpeed ≤ 8
    rw [handleCanvasClick_gameSpeed]; exact h

/-- C7: in every state reachable from the constructed game by any sequence of events
(frames, key presses, buttons, clicks), `2 ≤ gameSpeed ≤ 8`. -/
theorem gameSpeed_bounds (ω : Oracle) (s : Game) (h : Reachable ω s) :
    2 ≤ s.gameSpeed ∧ s.gameSpeed ≤ 8 := by
  induction h with
  | init => rw [newGame_gameSpeed]; norm_num
  | step s e _ ih => exact handleEvent_gameSpeed_bounds ω e s ih

/-- C7 on the state right after the start button. -/
theorem gameSpeed_bounds_witness :
    Reachable quietOracle (handleEvent quietOracle (Event.startBtn 0) (newGame quietOracle)) ∧
      2 ≤ (handleEvent quietOracle (Event.startBtn 0) (newGame quietOracle)).gameSpeed ∧
      (handleEvent quietOracle (Event.startBtn 0) (newGame quietOracle)).gameSpeed ≤ 8 :=
  ⟨Reachable.step _ _ Reachable.init,
   gameSpeed_bounds quietOracle _ (Reachable.step _ _ Reachable.init)⟩

/-- C8 as stated fails: in this run the player advances alive from row -10 to row
-30, spending the three frames of the hop cooldown on every row, and `gameSpeed` ends
0.3 above its value at row -10, not 0.1. -/
theorem gameSpeed_ramp_counterexample :
    rampStart.player.worldY = -10 ∧
      (runEvents quietOracle rampEvents rampStart).player.worldY = -30 ∧
      advancesAlive quietOracle rampEvents rampStart = true ∧
      (runEvents quietOracle rampEvents rampStart).player.alive = true ∧
      (runEvents quietOracle rampEvents rampStart).gameSpeed = rampStart.gameSpeed + 3 / 10 ∧
      (runEvents quietOracle rampEvents rampStart).gameSpeed ≠ rampStart.gameSpeed + 1 / 10 := by
  decide!

/-! ### The player's row is left alone by everything a frame calls -/

@[simp] theorem spawnRow_worldY (ω : Oracle) (row : ℤ) (s : Game) :
    (spawnRow ω row s).player.worldY = s.player.worldY := by
  unfold spawnRow
  simp only [random]
  split_ifs <;> rfl

@[simp] theorem spawnRows_worldY (ω : Oracle) (n : ℕ) (row : ℤ) (s : Game) :
    (spawnRows ω n row s).player.worldY = s.player.worldY := by
  induction n generalizing row s with
  | zero => rfl
  | succ n ih => unfold spawnRows; rw [ih, spawnRow_worldY]

@[simp] theorem spawnVehiclesAndLogs_worldY (ω : Oracle) (s : Game) :
    (spawnVehiclesAndLogs ω s).player.worldY = s.player.worldY := by
  unfold spawnVehiclesAndLogs
  simp only
  split_ifs
  · simp only [spawnRows_worldY]
  · rfl

@[simp] theorem gameOver_worldY (c : DeathCause) (s : Game) :
    (gameOver c s).player.worldY = s.player.worldY := by
  unfold gameOver; cases c <;> rfl

@[simp] theorem updateLogsFrom_worldY (n : ℕ) (s : Game) :
    (updateLogsFrom n s).player.worldY = s.player.worldY := by
  induction n generalizing s with
  | zero => rfl
  | succ n ih =>
    unfold updateLogsFrom
    split
    · rw [ih]
    · simp only
      split_ifs <;> simp only [gameOver_worldY, ih]

@[simp] theorem updateVehiclesAndLogs_worldY (s : Game) :
    (updateVehiclesAndLogs s).player.worldY = s.player.worldY := by
  unfold updateVehiclesAndLogs
  simp only [updateLogsFrom_worldY]

@[simp] theorem spawnAheadAttempts_worldY (ω : Oracle) (ing : Ingredient) (n : ℕ)
    (s : Game) : (spawnAheadAttempts ω ing n s).player.worldY = s.player.worldY := by
  induction n generalizing s with
  | zero => rfl
  | succ n ih =>
    unfold spawnAheadAttempts
    simp only [random]
    split_ifs
    · rfl
    · rw [ih]
    · rw [ih]

@[simp] theorem respawnEach_worldY (ω : Oracle) (l : List Ingredient) (s : Game) :
    (respawnEach ω l s).player.worldY = s.player.worldY := by
  induction l generalizing s with
  | nil => rfl
  | cons a l ih =>
    unfold respawnEach
    simp only
    rw [ih]
    split_ifs
    · unfold spawnIngredientAhead; rw [spawnAheadAttempts_worldY]
    · rfl

@[simp] theorem continuouslySpawnIngredients_worldY (ω : Oracle) (s : Game) :
    (continuouslySpawnIngredients ω s).player.worldY = s.player.worldY := by
  unfold continuouslySpawnIngredients
  simp only
  split_ifs
  · unfold respawnMissingIngredients
    simp only [respawnEach_worldY]
  · rfl

@[simp] theorem updateHopCooldown_worldY (dt : ℚ) (s : Game) :
    (updateHopCooldown dt s).player.worldY = s.player.worldY := by
  unfold updateHopCooldown; split <;> rfl

@[simp] theorem updateHopCooldown_gameState (dt : ℚ) (s : Game) :
    (updateHopCooldown dt s).gameState = s.gameState := by
  unfold updateHopCooldown; split <;> rfl

/-- Row -20 is grass in every state. -/
theorem getLaneType_row20 (s : Game) : getLaneType s (-20) = LaneType.grass := by
  unfold getLaneType
  rw [if_neg (by decide)]
  split
  · split_ifs
    · rfl
    · rfl
    · decide
  · decide

theorem checkCollisions_gameSpeed_row20 (s : Game) (h : s.player.worldY = -20) :
    (checkCollisions s).gameSpeed = min (s.gameSpeed + 1 / 10) 8 := by
  unfold checkCollisions
  simp only [h, getLaneType_row20]
  rw [increaseDifficulty_gameSpeed]
  rw [if_pos (by simp only [h]; decide)]

theorem checkCollisions_gameSpeed_off_ramp (s : Game)
    (h : ¬ (s.player.worldY < -10 ∧ |s.player.worldY| % 20 = 0)) :
    (checkCollisions s).gameSpeed = s.gameSpeed := by
  have key : ∀ t : Game, t.player.worldY = s.player.worldY → t.gameSpeed = s.gameSpeed →
      (increaseDifficulty t).gameSpeed = s.gameSpeed := by
    intro t hy hg
    rw [increaseDifficulty_gameSpeed, hy, if_neg h, hg]
  unfold checkCollisions
  simp only
  split
  · split
    · rw [gameOver_gameSpeed]
    · exact key _ rfl rfl
  · split
    · exact key _ rfl rfl
    · rw [gameOver_gameSpeed]
  · exact key _ rfl rfl

/-- A frame of the `play` scene raises `gameSpeed` by one capped step when the player
stands on row -20 and leaves it alone on the other rows from -30 to -10. -/
theorem gameLoop_gameSpeed_play (ω : Oracle) (t : ℚ) (s : Game)
    (hrun : s.gameRunning = true) (hplay : s.gameState = GameState.play)
    (hlo : -30 ≤ s.player.worldY) (hhi : s.player.worldY ≤ -10) :
    (gameLoop ω t s).gameSpeed =
      if s.player.worldY = -20 then min (s.gameSpeed + 1 / 10) 8 else s.gameSpeed := by
  unfold gameLoop
  rw [if_neg (by simp [hrun])]
  simp only [draw_gameSpeed]
  unfold updateScene
  rw [if_pos (by rw [updateHopCooldown_gameState]; exact hplay)]
  unfold updatePlay
  simp only
  have hy : (continuouslySpawnIngredients ω (updateCamera (updateVehiclesAndLogs
      (spawnVehiclesAndLogs ω (updateHopCooldown (min (t - s.lastTime) 40)
        { s with lastTime := t }))))).player.worldY = s.player.worldY := by
    rw [continuouslySpawnIngredients_worldY]
    show (updateVehiclesAndLogs _).player.worldY = _
    rw [updateVehiclesAndLogs_worldY, spawnVehiclesAndLogs_worldY, updateHopCooldown_worldY]
  have hg : (continuouslySpawnIngredients ω (updateCamera (updateVehiclesAndLogs
      (spawnVehiclesAndLogs ω (updateHopCooldown (min (t - s.lastTime) 40)
        { s with lastTime := t }))))).gameSpeed = s.gameSpeed := by
    simp only [continuouslySpawnIngredients_gameSpeed, updateCamera_gameSpeed,
      updateVehiclesAndLogs_gameSpeed, spawnVehiclesAndLogs_gameSpeed,
      updateHopCooldown_gameSpeed]
  by_cases h20 : s.player.worldY = -20
  · rw [if_pos h20, checkCollisions_gameSpeed_row20 _ (hy.trans h20), hg]
  · have hoff : ¬ (s.player.worldY < -10 ∧ |s.player.worldY| % 20 = 0) := by
      intro h
      have habs : |s.player.worldY| = -s.player.worldY := abs_of_neg (by omega)
      have h2 := h.2
      omega
    rw [if_neg h20, checkCollisions_gameSpeed_off_ramp _ (by rw [hy]; exact hoff), hg]

theorem min_cap_add (a c : ℚ) (hc : 0 ≤ c) : min (min a 8 + c) 8 = min (a + c) 8 := by
  rcases le_total a 8 with h | h
  · rw [min_eq_left h]
  · rw [min_eq_right h, min_eq_right (by linarith), min_eq_right (by linarith)]

theorem onKeydown_gameSpeed_play (ω : Oracle) (key : String) (now : ℚ) (s : Game)
    (hplay : s.gameState = GameState.play) :
    (onKeydown ω key now s).gameSpeed = s.gameSpeed := by
  unfold onKeydown
  rw [if_neg (by rw [hplay]; simp)]
  split_ifs
  · rw [teleportToHouseForTesting_gameSpeed]
  · rw [completeAllIngredients_gameSpeed]
  · rw [handlePlayerInput_gameSpeed]
  · rw [handleBonusInput_gameSpeed]
  · rfl

/-- C8, amended: in every play run between rows -10 and -30, each frame that starts
with the player on row -20 raises `gameSpeed` by 0.1, capped at 8, and nothing else
changes it; so at the end of the run `gameSpeed` is `min (g + 0.1 * k) 8`, where `g` is
its value at the start and `k` the number of frames spent on row -20. -/
theorem gameSpeed_ramp (ω : Oracle) (s : Game) (evs : List Event)
    (hrun : advancesAlive ω evs s = true) (hg : s.gameSpeed ≤ 8) :
    (runEvents ω evs s).gameSpeed =
      min (s.gameSpeed + (framesOnRow ω (-20) evs s : ℚ) / 10) 8 := by
  induction evs generalizing s with
  | nil =>
    unfold runEvents framesOnRow
    rw [min_eq_left (by simpa using hg)]
    simp
  | cons e rest ih =>
    unfold advancesAlive at hrun
    simp only [Bool.and_eq_true, decide_eq_true_eq] at hrun
    obtain ⟨⟨⟨⟨⟨⟨_, hrunning⟩, hplay⟩, hlo⟩, hhi⟩, hev⟩, hrest⟩ := hrun
    unfold runEvents framesOnRow
    cases e with
    | frame t =>
      have hstep := gameLoop_gameSpeed_play ω t s hrunning hplay hlo hhi
      have hstep' : (handleEvent ω (Event.frame t) s).gameSpeed =
          if s.player.worldY = -20 then min (s.gameSpeed + 1 / 10) 8 else s.gameSpeed := hstep
      have hg' : (handleEvent ω (Event.frame t) s).gameSpeed ≤ 8 := by
        rw [hstep']; split
        · exact min_le_right _ _
        · exact hg
      rw [ih _ hrest hg', hstep']
      simp only
      by_cases h20 : s.player.worldY = -20
      · rw [if_pos h20, if_pos h20, min_cap_add _ _ (by positivity)]
        congr 1
        push_cast
        ring
      · rw [if_neg h20, if_neg h20]
        congr 1
        push_cast
        ring
    | keydown key now =>
      have hstep : (handleEvent ω (Event.keydown key now) s).gameSpeed = s.gameSpeed :=
        onKeydown_gameSpeed_play ω key now s hplay
      rw [ih _ hrest (by rw [hstep]; exact hg), hstep]
      simp
    | startBtn now => simp at hev
    | restartBtn now => simp at hev
    | playAgainBtn now => simp at hev
    | bonusBtn now => simp at hev
    | backToTitleBtn => simp at hev
    | canvasClick x y => simp at hev

/-- C8, amended, on one hop from row -19 onto row -20 and the three frames spent
there. -/
theorem gameSpeed_ramp_witness :
    advancesAlive quietOracle (hopForward 0) rampRow19 = true ∧ rampRow19.gameSpeed ≤ 8 ∧
      framesOnRow quietOracle (-20) (hopForward 0) rampRow19 = 3 ∧
      (runEvents quietOracle (hopForward 0) rampRow19).gameSpeed =
        min (rampRow19.gameSpeed +
          (framesOnRow quietOracle (-20) (hopForward 0) rampRow19 : ℚ) / 10) 8 :=
  ⟨by decide!, by decide!, by decide!,
   gameSpeed_ramp quietOracle rampRow19 (hopForward 0) (by decide!) (by decide!)⟩

theorem get?_append_length {α : Type} (pre : List α) (x : α) (post : List α) :
    (pre ++ x :: post).get? pre.length = some x := by
  induction pre with
  | nil => rfl
  | cons a pre ih => simpa using ih

theorem set_append_length {α : Type} (pre : List α) (x y : α) (post : List α) :
    (pre ++ x :: post).set pre.length y = pre ++ y :: post := by
  induction pre with
  | nil => rfl
  | cons a pre ih => simp [ih]

theorem eraseIdx_append_length {α : Type} (pre : List α) (x : α) (post : List α) :
    (pre ++ x :: post).eraseIdx pre.length = pre ++ post := by
  induction pre with
  | nil => rfl
  | cons a pre ih => simpa using ih

theorem updateVehiclesFrom_append (pre post : List Vehicle) :
    updateVehiclesFrom pre.length (pre ++ post) =
      (pre.map moveVehicle).filter vehicleOnScreen ++ post := by
  induction pre using List.reverseRecOn generalizing post with
  | nil => rfl
  | append_singleton pre x ih =>
    rw [List.length_append, List.length_singleton, List.append_assoc, List.singleton_append]
    unfold updateVehiclesFrom
    rw [get?_append_length]
    simp only
    rw [List.map_append, List.filter_append, List.map_singleton]
    by_cases hoff : x.gridX + x.speed * (2 / 100) > (GRID_W : ℚ) + 3 ∨
        x.gridX + x.speed * (2 / 100) < -3
    · rw [if_pos hoff, eraseIdx_append_length, ih]
      have : vehicleOnScreen (moveVehicle x) = false := by
        unfold vehicleOnScreen moveVehicle
        rcases hoff with h | h
        · simp only [Bool.and_eq_false_imp, decide_eq_true_eq, decide_eq_false_iff_not, not_le]
          exact fun _ => h
        · simp only [Bool.and_eq_false_imp, decide_eq_true_eq, decide_eq_false_iff_not, not_le]
          intro h'; linarith
      rw [List.filter_cons_of_neg (by simp [this])]
      simp
    · rw [if_neg hoff, set_append_length, ih]
      have : vehicleOnScreen (moveVehicle x) = true := by
        unfold vehicleOnScreen moveVehicle
        simp only [Bool.and_eq_true, decide_eq_true_eq]
        push_neg at hoff
        exact ⟨hoff.2, hoff.1⟩
      rw [List.filter_cons_of_pos this]
      simp [moveVehicle]

theorem updateVehiclesAndLogs_vehicles (s : Game) :
    (updateVehiclesAndLogs s).vehicles =
      (s.vehicles.map moveVehicle).filter vehicleOnScreen := by
  have hlogs : ∀ (n : ℕ) (t : Game), (updateLogsFrom n t).vehicles = t.vehicles := by
    intro n
    induction n with
    | zero => intro t; rfl
    | succ n ih =>
      intro t
      unfold updateLogsFrom
      split
      · rw [ih]
      · simp only
        split_ifs <;> first | rw [ih] | (unfold gameOver; rfl)
  unfold updateVehiclesAndLogs
  simp only
  rw [hlogs]
  have := updateVehiclesFrom_append s.vehicles []
  simpa using this

theorem iterate_vehicles_empty (N : ℕ) (s : Game) (h : s.vehicles = []) :
    (Nat.iterate updateVehiclesAndLogs N s).vehicles = [] := by
  induction N with
  | zero => exact h
  | succ N ih =>
    rw [Function.iterate_succ_apply', updateVehiclesAndLogs_vehicles, ih]
    rfl

theorem iterate_vehicles_scenario (N : ℕ) (s : Game) (v : Vehicle) (hs : s.vehicles = [v])
    (hx : v.gridX = -2) (hv : v.speed = 3 / 2) (hN : N ≤ 666) :
    (Nat.iterate updateVehiclesAndLogs N s).vehicles =
      [{ v with gridX := -2 + 3 / 2 * (2 / 100) * N }] := by
  induction N with
  | zero =>
    rw [Function.iterate_zero_apply, hs]
    cases v
    simp only at hx
    subst hx
    norm_num
  | succ N ih =>
    have h1 : ((N : ℚ) + 1) ≤ 666 := by exact_mod_cast hN
    have h0 : (0 : ℚ) ≤ N := Nat.cast_nonneg N
    rw [Function.iterate_succ_apply', updateVehiclesAndLogs_vehicles, ih (by omega)]
    rw [List.map_singleton, List.filter_cons_of_pos]
    · simp only [moveVehicle, hv, List.filter_nil, List.cons.injEq, and_true]
      congr 1
      push_cast
      ring
    · simp only [vehicleOnScreen, moveVehicle, hv, Bool.and_eq_true, decide_eq_true_eq]
      unfold GRID_W
      constructor <;> push_cast <;> linarith

/-- C9: `updateVehiclesAndLogs` moves every vehicle by `speed * 0.02` and keeps exactly
those whose new column lies in `[-3, GRID_W + 3]`.  A lone vehicle at column -2 with
speed 1.5 is at column `-2 + 1.5 * 0.02 * N` after `N` calls for `N ≤ 666`, where that
column is still at most `GRID_W + 3`, and is gone from call 667 on, the first where
the column exceeds `GRID_W + 3`. -/
theorem updateVehiclesAndLogs_vehicle_motion :
    (∀ s : Game, (updateVehiclesAndLogs s).vehicles =
      (s.vehicles.map moveVehicle).filter vehicleOnScreen) ∧
    (∀ (s : Game) (v : Vehicle) (N : ℕ), s.vehicles = [v] → v.gridX = -2 → v.speed = 3 / 2 →
      (N ≤ 666 →
        (Nat.iterate updateVehiclesAndLogs N s).vehicles =
          [{ v with gridX := -2 + 3 / 2 * (2 / 100) * N }] ∧
        (-2 + 3 / 2 * (2 / 100) * (N : ℚ) ≤ (GRID_W : ℚ) + 3)) ∧
      (667 ≤ N →
        (Nat.iterate updateVehiclesAndLogs N s).vehicles = [] ∧
        (-2 + 3 / 2 * (2 / 100) * (N : ℚ) > (GRID_W : ℚ) + 3))) := by
  refine ⟨updateVehiclesAndLogs_vehicles, fun s v N hs hx hv => ⟨fun hN => ?_, fun hN => ?_⟩⟩
  · refine ⟨iterate_vehicles_scenario N s v hs hx hv hN, ?_⟩
    have h1 : (N : ℚ) ≤ 666 := by exact_mod_cast hN
    unfold GRID_W
    push_cast
    linarith
  · have h1 : (667 : ℚ) ≤ N := by exact_mod_cast hN
    refine ⟨?_, by unfold GRID_W; push_cast; linarith⟩
    obtain ⟨k, rfl⟩ : ∃ k, N = k + 667 := ⟨N - 667, by omega⟩
    rw [Function.iterate_add_apply]
    apply iterate_vehicles_empty
    rw [Function.iterate_succ_apply', updateVehiclesAndLogs_vehicles,
      iterate_vehicles_scenario 666 s v hs hx hv (le_refl _)]
    rw [List.map_singleton, List.filter_cons_of_neg]
    · rfl
    · simp only [vehicleOnScreen, moveVehicle, hv, Bool.and_eq_true, decide_eq_true_eq, not_and,
        not_le]
      intro _
      unfold GRID_W
      norm_num

theorem updateLogsFrom_step_other (pre post : List Log) (x : Log) (s : Game)
    (hl : s.logs = pre ++ x :: post) (hne : s.player.onLog ≠ some x.id) :
    updateLogsFrom (pre.length + 1) s =
      updateLogsFrom pre.length
        (if x.gridX + x.speed * (2 / 100) > (GRID_W : ℚ) + 4 ∨
            x.gridX + x.speed * (2 / 100) < -4 then
          { s with logs := pre ++ post }
        else { s with logs := pre ++ moveLog x :: post }) := by
  have hne' : ¬ (s.player.onLog = some x.id) := hne
  conv_lhs => unfold updateLogsFrom
  rw [hl, get?_append_length]
  simp only [hne', if_false, false_and, set_append_length]
  split_ifs
  · rw [eraseIdx_append_length]
  · rfl

theorem updateLogsFrom_step_carry (pre post : List Log) (x : Log) (s : Game)
    (hl : s.logs = pre ++ x :: post) (heq : s.player.onLog = some x.id) :
    updateLogsFrom (pre.length + 1) s =
      if s.player.gridX + x.speed * (2 / 100) < 0 ∨
          s.player.gridX + x.speed * (2 / 100) ≥ (GRID_W : ℚ) then
        gameOver DeathCause.water
          { s with
            logs := pre ++ moveLog x :: post
            player := { s.player with gridX := s.player.gridX + x.speed * (2 / 100) } }
      else
        updateLogsFrom pre.length
          (if x.gridX + x.speed * (2 / 100) > (GRID_W : ℚ) + 4 ∨
            x.gridX + x.speed * (2 / 100) < -4 then
            { s with
              logs := pre ++ post
              player := { s.player with gridX := s.player.gridX + x.speed * (2 / 100),
                                        onLog := none } }
          else
            { s with
              logs := pre ++ moveLog x :: post
              player := { s.player with gridX := s.player.gridX + x.speed * (2 / 100) } }) := by
  conv_lhs => unfold updateLogsFrom
  rw [hl, get?_append_length]
  simp only [heq, if_true, true_and, set_append_length]
  split_ifs
  · rfl
  · rw [eraseIdx_append_length]
  · rfl

/-- Logs that the player does not stand on leave the player alone. -/
theorem updateLogsFrom_no_carry (pre : List Log) :
    ∀ (post : List Log) (s : Game), s.logs = pre ++ post →
      (∀ l ∈ pre, s.player.onLog ≠ some l.id) →
      (updateLogsFrom pre.length s).player = s.player ∧
      (updateLogsFrom pre.length s).gameRunning = s.gameRunning ∧
      (updateLogsFrom pre.length s).sounds = s.sounds := by
  induction pre using List.reverseRecOn with
  | nil => intro post s _ _; exact ⟨rfl, rfl, rfl⟩
  | append_singleton pre x ih =>
    intro post s hl hne
    rw [List.append_assoc, List.singleton_append] at hl
    rw [List.length_append, List.length_singleton,
      updateLogsFrom_step_other pre post x s hl (hne x (by simp))]
    have hpre : ∀ l ∈ pre, s.player.onLog ≠ some l.id :=
      fun l hlm => hne l (List.mem_append_left _ hlm)
    split_ifs
    · exact ih post { s with logs := pre ++ post } rfl hpre
    · exact ih (moveLog x :: post) { s with logs := pre ++ moveLog x :: post } rfl hpre

/-- The log the player stands on carries the player by its own step, and the player
dies by water exactly when that leaves the columns `[0, GRID_W)`. -/
theorem updateLogsFrom_carry (pre : List Log) :
    ∀ (post : List Log) (s : Game) (log : Log), s.logs = pre ++ post → log ∈ pre →
      s.player.onLog = some log.id → (pre.map Log.id).Nodup →
      (updateLogsFrom pre.length s).player.gridX = s.player.gridX + log.speed * (2 / 100) ∧
      ((s.player.gridX + log.speed * (2 / 100) < 0 ∨
          s.player.gridX + log.speed * (2 / 100) ≥ (GRID_W : ℚ)) →
        (updateLogsFrom pre.length s).player.alive = false ∧
        (updateLogsFrom pre.length s).gameRunning = false ∧
        (updateLogsFrom pre.length s).sounds = s.sounds ++ [Sound.splash]) ∧
      (¬ (s.player.gridX + log.speed * (2 / 100) < 0 ∨
          s.player.gridX + log.speed * (2 / 100) ≥ (GRID_W : ℚ)) →
        (updateLogsFrom pre.length s).player.alive = s.player.alive ∧
        (updateLogsFrom pre.length s).gameRunning = s.gameRunning ∧
        (updateLogsFrom pre.length s).sounds = s.sounds) := by
  induction pre using List.reverseRecOn with
  | nil => intro post s log _ hmem; cases hmem
  | append_singleton pre x ih =>
    intro post s log hl hmem hon hnd
    rw [List.append_assoc, List.singleton_append] at hl
    rw [List.map_append, List.map_singleton] at hnd
    have hndpre : (pre.map Log.id).Nodup := (List.nodup_append.1 hnd).1
    have hxnot : x.id ∉ pre.map Log.id := by
      intro hx
      exact (List.nodup_append.1 hnd).2.2 hx (List.mem_singleton_self _)
    rw [List.length_append, List.length_singleton]
    by_cases hx : x.id = log.id
    · -- the last unvisited log is the one the player stands on
      have hpre : ∀ l ∈ pre, s.player.onLog ≠ some l.id := by
        intro l hlm h
        rw [hon] at h
        apply hxnot
        rw [hx, Option.some.inj h]
        exact List.mem_map_of_mem _ hlm
      have hxl : x = log := by
        rcases List.mem_append.1 hmem with h | h
        · exact absurd (hx ▸ List.mem_map_of_mem Log.id h) hxnot
        · exact (List.mem_singleton.1 h).symm
      subst hxl
      rw [updateLogsFrom_step_carry pre post x s hl hon]
      by_cases hout : s.player.gridX + x.speed * (2 / 100) < 0 ∨
          s.player.gridX + x.speed * (2 / 100) ≥ (GRID_W : ℚ)
      · rw [if_pos hout]
        exact ⟨rfl, fun _ => ⟨rfl, rfl, rfl⟩, fun h => absurd hout h⟩
      · rw [if_neg hout]
        split_ifs
        · obtain ⟨h1, h2, h3⟩ := updateLogsFrom_no_carry pre post
            { s with
              logs := pre ++ post
              player := { s.player with gridX := s.player.gridX + x.speed * (2 / 100),
                                        onLog := none } } rfl
            (fun l _ h => by cases h)
          rw [h1, h2, h3]
          exact ⟨rfl, fun h => absurd h hout, fun _ => ⟨rfl, rfl, rfl⟩⟩
        · obtain ⟨h1, h2, h3⟩ := updateLogsFrom_no_carry pre (moveLog x :: post)
            { s with
              logs := pre ++ moveLog x :: post
              player := { s.player with gridX := s.player.gridX + x.speed * (2 / 100) } } rfl
            hpre
          rw [h1, h2, h3]
          exact ⟨rfl, fun h => absurd h hout, fun _ => ⟨rfl, rfl, rfl⟩⟩
    · -- some other log: the player is not touched, the loop goes on
      have hne : s.player.onLog ≠ some x.id := by
        rw [hon]; intro h; exact hx (Option.some.inj h).symm
      have hmem' : log ∈ pre := by
        rcases List.mem_append.1 hmem with h | h
        · exact h
        · exact absurd (congrArg Log.id (List.mem_singleton.1 h)).symm hx
      rw [updateLogsFrom_step_other pre post x s hl hne]
      split_ifs
      · exact ih post { s with logs := pre ++ post } log rfl hmem' hon hndpre
      · exact ih (moveLog x :: post) { s with logs := pre ++ moveLog x :: post } log rfl
          hmem' hon hndpre

/-- C10: when `player.onLog` is one of the logs in `logs` (distinct objects, as they
are in every reachable state by `logsDistinct_of_reachable`),
`updateVehiclesAndLogs` moves the player by exactly that log's
step `log.speed * 0.02`; if the new column is `< 0` or `≥ GRID_W` the player dies by
water (`alive = false`, `gameRunning = false`, splash), and otherwise `alive`,
`gameRunning` and the sounds are as before. -/
theorem updateVehiclesAndLogs_carry (s : Game) (log : Log) (hlog : log ∈ s.logs)
    (hon : s.player.onLog = some log.id) (hid : (s.logs.map Log.id).Nodup) :
    (updateVehiclesAndLogs s).player.gridX = s.player.gridX + log.speed * (2 / 100) ∧
    (((updateVehiclesAndLogs s).player.gridX < 0 ∨
        (updateVehiclesAndLogs s).player.gridX ≥ (GRID_W : ℚ)) →
      (updateVehiclesAndLogs s).player.alive = false ∧
      (updateVehiclesAndLogs s).gameRunning = false ∧
      (updateVehiclesAndLogs s).sounds = s.sounds ++ [Sound.splash]) ∧
    (¬ ((updateVehiclesAndLogs s).player.gridX < 0 ∨
        (updateVehiclesAndLogs s).player.gridX ≥ (GRID_W : ℚ)) →
      (updateVehiclesAndLogs s).player.alive = s.player.alive ∧
      (updateVehiclesAndLogs s).gameRunning = s.gameRunning ∧
      (updateVehiclesAndLogs s).sounds = s.sounds) := by
  have h := updateLogsFrom_carry s.logs []
    { s with vehicles := updateVehiclesFrom s.vehicles.length s.vehicles } log
    (by simp) hlog hon hid
  have hdef : updateVehiclesAndLogs s = updateLogsFrom s.logs.length
      { s with vehicles := updateVehiclesFrom s.vehicles.length s.vehicles } := rfl
  rw [hdef]
  obtain ⟨h1, h2, h3⟩ := h
  refine ⟨h1, ?_, ?_⟩
  · rw [h1]; exact h2
  · rw [h1]; exact h3

/-- C10 on a player at column 7 standing on a log of speed 1. -/
theorem updateVehiclesAndLogs_carry_witness :
    rideScene.player.onLog = some 0 ∧
      (updateVehiclesAndLogs rideScene).player.gridX = 7 + 1 * (2 / 100) ∧
      (updateVehiclesAndLogs rideScene).player.alive = true :=
  have h := updateVehiclesAndLogs_carry rideScene
    { id := 0, gridX := 5, worldY := -3, width := TILE * 3 * (9 / 10),
      height := TILE * (8 / 10), speed := 1, length := 3 }
    (List.mem_singleton_self _) rfl (by decide)
  ⟨rfl, h.1, (h.2.2 (by rw [h.1]; decide!)).1⟩

/-! ### The logs are distinct objects in every reachable state -/

theorem sameLogs_refl (s : Game) : sameLogs s s := ⟨rfl, rfl⟩

theorem sameLogs_trans {s t u : Game} (h1 : sameLogs s t) (h2 : sameLogs t u) : sameLogs s u :=
  ⟨h2.1.trans h1.1, h2.2.trans h1.2⟩

theorem logsDistinct_of_sameLogs {s t : Game} (h : sameLogs s t) (hs : logsDistinct s) :
    logsDistinct t := by
  unfold logsDistinct
  rw [h.1, h.2]
  exact hs

theorem spawnHouseEntrance_sameLogs (s : Game) : sameLogs s (spawnHouseEntrance s) := by
  unfold spawnHouseEntrance; split <;> exact ⟨rfl, rfl⟩

theorem spawnInitialAttempts_sameLogs (ω : Oracle) (ing : Ingredient) (index n : ℕ)
    (s : Game) : sameLogs s (spawnInitialAttempts ω ing index n s) := by
  induction n generalizing s with
  | zero => exact ⟨rfl, rfl⟩
  | succ n ih =>
    unfold spawnInitialAttempts
    simp only [random]
    split_ifs
    · exact ⟨rfl, rfl⟩
    · exact ih _
    · exact ih _

theorem spawnInitialFrom_sameLogs (ω : Oracle) (l : List Ingredient) (index : ℕ)
    (s : Game) : sameLogs s (spawnInitialFrom ω l index s) := by
  induction l generalizing index s with
  | nil => exact ⟨rfl, rfl⟩
  | cons a l ih =>
    unfold spawnInitialFrom
    exact sameLogs_trans (spawnInitialAttempts_sameLogs ω a index 100 s) (ih _ _)

theorem spawnIngredients_sameLogs (ω : Oracle) (s : Game) :
    sameLogs s (spawnIngredients ω s) := by
  unfold spawnIngredients spawnInitialIngredients
  exact spawnInitialFrom_sameLogs ω _ 0 _

theorem spawnAheadAttempts_sameLogs (ω : Oracle) (ing : Ingredient) (n : ℕ)
    (s : Game) : sameLogs s (spawnAheadAttempts ω ing n s) := by
  induction n generalizing s with
  | zero => exact ⟨rfl, rfl⟩
  | succ n ih =>
    unfold spawnAheadAttempts
    simp only [random]
    split_ifs
    · exact ⟨rfl, rfl⟩
    · exact ih _
    · exact ih _

theorem respawnEach_sameLogs (ω : Oracle) (l : List Ingredient) (s : Game) :
    sameLogs s (respawnEach ω l s) := by
  induction l generalizing s with
  | nil => exact ⟨rfl, rfl⟩
  | cons a l ih =>
    unfold respawnEach
    simp only
    refine sameLogs_trans ?_ (ih _)
    split_ifs
    · exact spawnAheadAttempts_sameLogs ω a 100 s
    · exact ⟨rfl, rfl⟩

theorem continuouslySpawnIngredients_sameLogs (ω : Oracle) (s : Game) :
    sameLogs s (continuouslySpawnIngredients ω s) := by
  unfold continuouslySpawnIngredients
  simp only
  split_ifs
  · unfold respawnMissingIngredients
    exact respawnEach_sameLogs ω _ _
  · exact ⟨rfl, rfl⟩

theorem pickupLoop_sameLogs (l : List Slot) (s : Game) : sameLogs s (pickupLoop l s).2 := by
  induction l generalizing s with
  | nil => exact ⟨rfl, rfl⟩
  | cons a l ih =>
    unfold pickupLoop
    split_ifs
    · refine sameLogs_trans ?_ (ih _)
      split_ifs
      · exact spawnHouseEntrance_sameLogs _
      · exact ⟨rfl, rfl⟩
    · exact ih _

theorem checkIngredientPickup_sameLogs (s : Game) : sameLogs s (checkIngredientPickup s) :=
  pickupLoop_sameLogs s.ingredientPositions s

theorem checkHouseEntry_sameLogs (s : Game) : sameLogs s (checkHouseEntry s) := by
  unfold checkHouseEntry enterHouse
  split_ifs <;> exact ⟨rfl, rfl⟩

theorem handlePlayerInput_sameLogs (key : String) (s : Game) :
    sameLogs s (handlePlayerInput key s) := by
  unfold handlePlayerInput
  simp only [updateCameraTarget]
  split_ifs
  · exact ⟨rfl, rfl⟩
  all_goals
    refine sameLogs_trans (sameLogs_trans ?_ (checkIngredientPickup_sameLogs _))
      (checkHouseEntry_sameLogs _)
    exact ⟨rfl, rfl⟩

theorem gameOver_sameLogs (c : DeathCause) (s : Game) : sameLogs s (gameOver c s) := by
  unfold gameOver; cases c <;> exact ⟨rfl, rfl⟩

theorem checkCollisions_sameLogs (s : Game) : sameLogs s (checkCollisions s) := by
  have key : ∀ t : Game, sameLogs t (increaseDifficulty t) := by
    intro t; unfold increaseDifficulty; split <;> exact ⟨rfl, rfl⟩
  unfold checkCollisions
  simp only
  split
  · split
    · refine sameLogs_trans ?_ (gameOver_sameLogs _ _); exact ⟨rfl, rfl⟩
    · refine sameLogs_trans ?_ (key _); exact ⟨rfl, rfl⟩
  · split
    · refine sameLogs_trans ?_ (key _); exact ⟨rfl, rfl⟩
    · refine sameLogs_trans ?_ (gameOver_sameLogs _ _); exact ⟨rfl, rfl⟩
  · refine sameLogs_trans ?_ (key _); exact ⟨rfl, rfl⟩

theorem handleCanvasClick_sameLogs (x y : ℚ) (s : Game) :
    sameLogs s (handleCanvasClick x y s) := by
  unfold handleCanvasClick startTofuSoupScene
  split
  · split_ifs <;> exact ⟨rfl, rfl⟩
  · exact ⟨rfl, rfl⟩

theorem updateHomeInterior_sameLogs (ω : Oracle) (dt : ℚ) (s : Game) :
    sameLogs s (updateHomeInterior ω dt s) := by
  unfold updateHomeInterior
  simp only
  split <;> split_ifs <;> exact ⟨rfl, rfl⟩

theorem spawnSteamLoop_sameLogs (ω : Oracle) (n : ℕ) (t : TofuSoup) (s : Game) :
    sameLogs s (spawnSteamLoop ω n t s).2 := by
  induction n generalizing t s with
  | zero => exact ⟨rfl, rfl⟩
  | succ n ih => unfold spawnSteamLoop; simp only [random]; exact ih _ _

theorem updateSteamFrom_sameLogs (ω : Oracle) (dt : ℚ) (n : ℕ) (l : List Steam)
    (s : Game) : sameLogs s (updateSteamFrom ω dt n l s).2 := by
  induction n generalizing l s with
  | zero => exact ⟨rfl, rfl⟩
  | succ n ih =>
    unfold updateSteamFrom
    split
    · exact ih _ _
    · simp only [random]
      split_ifs <;> exact ih _ _

theorem updateTofuSoup_sameLogs (ω : Oracle) (dt : ℚ) (s : Game) :
    sameLogs s (updateTofuSoup ω dt s) := by
  have h1 : ∀ (n : ℕ) (t : TofuSoup) (u : Game), (spawnSteamLoop ω n t u).2.logs = u.logs :=
    fun n t u => (spawnSteamLoop_sameLogs ω n t u).1
  have h2 : ∀ (n : ℕ) (t : TofuSoup) (u : Game),
      (spawnSteamLoop ω n t u).2.nextLogId = u.nextLogId :=
    fun n t u => (spawnSteamLoop_sameLogs ω n t u).2
  have h3 : ∀ (n : ℕ) (l : List Steam) (u : Game),
      (updateSteamFrom ω dt n l u).2.logs = u.logs :=
    fun n l u => (updateSteamFrom_sameLogs ω dt n l u).1
  have h4 : ∀ (n : ℕ) (l : List Steam) (u : Game),
      (updateSteamFrom ω dt n l u).2.nextLogId = u.nextLogId :=
    fun n l u => (updateSteamFrom_sameLogs ω dt n l u).2
  unfold updateTofuSoup sameLogs
  split
  · exact ⟨rfl, rfl⟩
  · simp only
    split
    · split_ifs <;> exact ⟨rfl, rfl⟩
    · split_ifs <;> simp only [winGame, h1, h2, h3, h4, and_self]

theorem updateRingsFrom_sameLogs (dt : ℚ) (n : ℕ) (s : Game) :
    sameLogs s (updateRingsFrom dt n s) := by
  induction n generalizing s with
  | zero => exact ⟨rfl, rfl⟩
  | succ n ih =>
    unfold updateRingsFrom
    split
    · exact ih _
    · simp only
      split_ifs <;> exact ih _

theorem updateBonus_sameLogs (dt : ℚ) (s : Game) : sameLogs s (updateBonus dt s) := by
  unfold updateBonus
  simp only
  split_ifs
  all_goals
    refine sameLogs_trans ?_ (updateRingsFrom_sameLogs dt _ _)
    exact ⟨rfl, rfl⟩

theorem handleBonusInput_sameLogs (key : String) (s : Game) :
    sameLogs s (handleBonusInput key s) := by
  unfold handleBonusInput
  simp only
  split_ifs <;> exact ⟨rfl, rfl⟩

theorem draw_sameLogs (s : Game) : sameLogs s (draw s) := by
  unfold draw; split <;> exact ⟨rfl, rfl⟩

theorem updateHopCooldown_sameLogs (dt : ℚ) (s : Game) :
    sameLogs s (updateHopCooldown dt s) := by
  unfold updateHopCooldown; split <;> exact ⟨rfl, rfl⟩

theorem teleportToHouseForTesting_sameLogs (s : Game) :
    sameLogs s (teleportToHouseForTesting s) := by
  unfold teleportToHouseForTesting
  refine sameLogs_trans (t := spawnHouseEntrance (collectAll s))
    (sameLogs_trans (t := collectAll s) ?_ (spawnHouseEntrance_sameLogs _)) ?_
  · exact ⟨rfl, rfl⟩
  · exact ⟨rfl, rfl⟩

theorem completeAllIngredients_sameLogs (s : Game) :
    sameLogs s (completeAllIngredients s) := by
  unfold completeAllIngredients
  refine sameLogs_trans ?_ (spawnHouseEntrance_sameLogs _)
  exact ⟨rfl, rfl⟩

theorem spawnLog_logsDistinct (ω : Oracle) (row : ℤ) (f : Bool) (s : Game)
    (hs : logsDistinct s) : logsDistinct (spawnLog ω row f s) := by
  obtain ⟨hnd, hlt⟩ := hs
  unfold spawnLog logsDistinct
  simp only [random, List.map_append, List.map_singleton]
  constructor
  · rw [List.nodup_append]
    refine ⟨hnd, List.nodup_singleton _, ?_⟩
    intro a ha hb
    rw [List.mem_singleton] at hb
    obtain ⟨l, hl, rfl⟩ := List.mem_map.1 ha
    have := hlt l hl
    omega
  · intro l hl
    rcases List.mem_append.1 hl with h | h
    · have := hlt l h; omega
    · rw [List.mem_singleton] at h
      rw [h]
      exact Nat.lt_succ_self _

theorem spawnRow_logsDistinct (ω : Oracle) (row : ℤ) (s : Game) (hs : logsDistinct s) :
    logsDistinct (spawnRow ω row s) := by
  unfold spawnRow
  simp only [random]
  split_ifs
  all_goals first
    | exact hs
    | exact spawnLog_logsDistinct ω row _ _ hs

theorem spawnRows_logsDistinct (ω : Oracle) (n : ℕ) (row : ℤ) (s : Game)
    (hs : logsDistinct s) : logsDistinct (spawnRows ω n row s) := by
  induction n generalizing row s with
  | zero => exact hs
  | succ n ih => unfold spawnRows; exact ih _ _ (spawnRow_logsDistinct ω row s hs)

theorem spawnVehiclesAndLogs_logsDistinct (ω : Oracle) (s : Game) (hs : logsDistinct s) :
    logsDistinct (spawnVehiclesAndLogs ω s) := by
  unfold spawnVehiclesAndLogs
  simp only
  split_ifs
  · exact logsDistinct_of_sameLogs ⟨rfl, rfl⟩
      (spawnRows_logsDistinct ω _ _ _ (logsDistinct_of_sameLogs ⟨rfl, rfl⟩ hs))
  · exact hs

/-- The log loop only moves and removes logs: the identities left are a sublist of
those it started with. -/
theorem updateLogsFrom_ids (pre : List Log) :
    ∀ (post : List Log) (s : Game), s.logs = pre ++ post →
      ((updateLogsFrom pre.length s).logs.map Log.id).Sublist (s.logs.map Log.id) ∧
      (updateLogsFrom pre.length s).nextLogId = s.nextLogId := by
  induction pre using List.reverseRecOn with
  | nil => intro post s _; exact ⟨List.Sublist.refl _, rfl⟩
  | append_singleton pre x ih =>
    intro post s hl
    rw [List.append_assoc, List.singleton_append] at hl
    rw [List.length_append, List.length_singleton]
    have hkeep : (pre ++ moveLog x :: post).map Log.id = s.logs.map Log.id := by
      rw [hl]; simp [moveLog]
    have hdrop : ((pre ++ post).map Log.id).Sublist (s.logs.map Log.id) := by
      rw [hl, List.map_append, List.map_append, List.map_cons]
      exact List.Sublist.append_left (List.sublist_cons_self _ _) _
    by_cases hon : s.player.onLog = some x.id
    · rw [updateLogsFrom_step_carry pre post x s hl hon]
      split_ifs
      · refine ⟨?_, (gameOver_sameLogs _ _).2⟩
        rw [(gameOver_sameLogs _ _).1]
        exact hkeep ▸ List.Sublist.refl _
      · obtain ⟨h1, h2⟩ := ih post
          { s with
            logs := pre ++ post
            player := { s.player with gridX := s.player.gridX + x.speed * (2 / 100),
                                      onLog := none } } rfl
        exact ⟨h1.trans hdrop, h2⟩
      · obtain ⟨h1, h2⟩ := ih (moveLog x :: post)
          { s with
            logs := pre ++ moveLog x :: post
            player := { s.player with gridX := s.player.gridX + x.speed * (2 / 100) } } rfl
        exact ⟨h1.trans (hkeep ▸ List.Sublist.refl _), h2⟩
    · rw [updateLogsFrom_step_other pre post x s hl hon]
      split_ifs
      · obtain ⟨h1, h2⟩ := ih post { s with logs := pre ++ post } rfl
        exact ⟨h1.trans hdrop, h2⟩
      · obtain ⟨h1, h2⟩ := ih (moveLog x :: post) { s with logs := pre ++ moveLog x :: post } rfl
        exact ⟨h1.trans (hkeep ▸ List.Sublist.refl _), h2⟩

theorem updateVehiclesAndLogs_logsDistinct (s : Game) (hs : logsDistinct s) :
    logsDistinct (updateVehiclesAndLogs s) := by
  obtain ⟨h1, h2⟩ := updateLogsFrom_ids s.logs []
    { s with vehicles := updateVehiclesFrom s.vehicles.length s.vehicles } (by simp)
  have hdef : updateVehiclesAndLogs s = updateLogsFrom s.logs.length
      { s with vehicles := updateVehiclesFrom s.vehicles.length s.vehicles } := rfl
  rw [hdef]
  refine ⟨h1.nodup hs.1, fun l hl => ?_⟩
  rw [h2]
  obtain ⟨m, hm, hid⟩ := List.mem_map.1 (h1.subset (List.mem_map_of_mem Log.id hl))
  rw [← hid]
  exact hs.2 m hm

theorem resetGame_logsDistinct (ω : Oracle) (s : Game) : logsDistinct (resetGame ω s) := by
  unfold resetGame
  refine logsDistinct_of_sameLogs (spawnIngredients_sameLogs ω _) ?_
  exact ⟨List.nodup_nil, fun l hl => by cases hl⟩

theorem gameLoop_logsDistinct (ω : Oracle) (t : ℚ) (s : Game) (hs : logsDistinct s) :
    logsDistinct (gameLoop ω t s) := by
  unfold gameLoop
  split
  · exact hs
  · simp only
    refine logsDistinct_of_sameLogs (draw_sameLogs _) ?_
    have h0 : logsDistinct (updateHopCooldown (min (t - s.lastTime) 40)
        { s with lastTime := t }) :=
      logsDistinct_of_sameLogs (updateHopCooldown_sameLogs _ _)
        (logsDistinct_of_sameLogs (s := s) ⟨rfl, rfl⟩ hs)
    generalize updateHopCooldown (min (t - s.lastTime) 40) { s with lastTime := t } = u at h0
    unfold updateScene
    split_ifs
    · unfold updatePlay
      simp only
      refine logsDistinct_of_sameLogs (checkCollisions_sameLogs _) ?_
      refine logsDistinct_of_sameLogs (continuouslySpawnIngredients_sameLogs ω _) ?_
      refine logsDistinct_of_sameLogs (s := updateVehiclesAndLogs (spawnVehiclesAndLogs ω u))
        ⟨rfl, rfl⟩ ?_
      exact updateVehiclesAndLogs_logsDistinct _ (spawnVehiclesAndLogs_logsDistinct ω u h0)
    · exact logsDistinct_of_sameLogs (updateBonus_sameLogs _ _) h0
    · exact logsDistinct_of_sameLogs (updateHomeInterior_sameLogs ω _ _) h0
    · exact logsDistinct_of_sameLogs (updateTofuSoup_sameLogs ω _ _) h0
    · exact h0

theorem handleEvent_logsDistinct (ω : Oracle) (e : Event) (s : Game) (hs : logsDistinct s) :
    logsDistinct (handleEvent ω e s) := by
  have hstart : ∀ now, logsDistinct (startGame ω now s) := fun now =>
    gameLoop_logsDistinct ω now _ (resetGame_logsDistinct ω _)
  cases e with
  | keydown key now =>
    show logsDistinct (onKeydown ω key now s)
    unfold onKeydown
    split_ifs
    · exact hstart now
    · exact logsDistinct_of_sameLogs (teleportToHouseForTesting_sameLogs s) hs
    · exact logsDistinct_of_sameLogs (completeAllIngredients_sameLogs s) hs
    · exact logsDistinct_of_sameLogs (handlePlayerInput_sameLogs _ s) hs
    · exact logsDistinct_of_sameLogs (handleBonusInput_sameLogs _ s) hs
    · exact hs
  | frame t => exact gameLoop_logsDistinct ω t s hs
  | startBtn now => exact hstart now
  | restartBtn now => exact hstart now
  | playAgainBtn now => exact hstart now
  | bonusBtn now =>
    show logsDistinct (startBonus ω now s)
    unfold startBonus
    exact gameLoop_logsDistinct ω now _ (logsDistinct_of_sameLogs (s := s) ⟨rfl, rfl⟩ hs)
  | backToTitleBtn => exact logsDistinct_of_sameLogs (s := s) ⟨rfl, rfl⟩ hs
  | canvasClick x y => exact logsDistinct_of_sameLogs (handleCanvasClick_sameLogs x y s) hs

/-- In every reachable state the logs are distinct objects: no two entries of `logs`
share an identity. -/
theorem logsDistinct_of_reachable (ω : Oracle) (s : Game) (h : Reachable ω s) :
    (s.logs.map Log.id).Nodup := by
  have : logsDistinct s := by
    induction h with
    | init =>
      unfold newGame
      exact logsDistinct_of_sameLogs (spawnIngredients_sameLogs ω _)
        ⟨List.nodup_nil, fun l hl => by cases hl⟩
    | step s e _ ih => exact handleEvent_logsDistinct ω e s ih
  exact this.1

/-! ## Views of the state -/

/-! ### Operations that leave the goal, the bookkeeping, the camera and the slots alone -/

theorem spawnVehicle_questView (ω : Oracle) (row : ℤ) (f : Bool) (s : Game) :
    questView (spawnVehicle ω row f s) = questView s := rfl

theorem spawnLog_questView (ω : Oracle) (row : ℤ) (f : Bool) (s : Game) :
    questView (spawnLog ω row f s) = questView s := rfl

theorem spawnRow_questView (ω : Oracle) (row : ℤ) (s : Game) :
    questView (spawnRow ω row s) = questView s := by
  unfold spawnRow
  simp only [random]
  split_ifs <;> rfl

theorem spawnRows_questView (ω : Oracle) (n : ℕ) (row : ℤ) (s : Game) :
    questView (spawnRows ω n row s) = questView s := by
  induction n generalizing row s with
  | zero => rfl
  | succ n ih => unfold spawnRows; rw [ih, spawnRow_questView]

theorem spawnVehiclesAndLogs_questView (ω : Oracle) (s : Game) :
    questView (spawnVehiclesAndLogs ω s) = questView s := by
  unfold spawnVehiclesAndLogs
  simp only
  split_ifs
  · exact spawnRows_questView ω _ _ _
  · rfl

theorem gameOver_questView (c : DeathCause) (s : Game) :
    questView (gameOver c s) = questView s := by
  unfold gameOver; cases c <;> rfl

theorem updateLogsFrom_questView (n : ℕ) (s : Game) :
    questView (updateLogsFrom n s) = questView s := by
  induction n generalizing s with
  | zero => rfl
  | succ n ih =>
    unfold updateLogsFrom
    split
    · rw [ih]
    · simp only
      split_ifs <;> first | rw [ih] | rw [gameOver_questView]
      all_goals rfl

theorem updateVehiclesAndLogs_questView (s : Game) :
    questView (updateVehiclesAndLogs s) = questView s := by
  unfold updateVehiclesAndLogs
  simp only
  rw [updateLogsFrom_questView]
  rfl

theorem checkCollisions_questView (s : Game) :
    questView (checkCollisions s) = questView s := by
  have key : ∀ t : Game, questView (increaseDifficulty t) = questView t := by
    intro t; unfold increaseDifficulty; split <;> rfl
  unfold checkCollisions
  simp only
  split
  · split
    · rw [gameOver_questView]; rfl
    · rw [key]; rfl
  · split
    · rw [key]; rfl
    · rw [gameOver_questView]; rfl
  · rw [key]; rfl

theorem updateHopCooldown_questView (dt : ℚ) (s : Game) :
    questView (updateHopCooldown dt s) = questView s := by
  unfold updateHopCooldown; split <;> rfl

theorem draw_questView (s : Game) : questView (draw s) = questView s := by
  unfold draw; split <;> rfl

theorem updateHomeInterior_questView (ω : Oracle) (dt : ℚ) (s : Game) :
    questView (updateHomeInterior ω dt s) = questView s := by
  unfold updateHomeInterior
  simp only
  split <;> split_ifs <;> rfl

theorem spawnSteamLoop_questView (ω : Oracle) (n : ℕ) (t : TofuSoup) (s : Game) :
    questView (spawnSteamLoop ω n t s).2 = questView s := by
  induction n generalizing t s with
  | zero => rfl
  | succ n ih => unfold spawnSteamLoop; simp only [random]; rw [ih]; rfl

theorem updateSteamFrom_questView (ω : Oracle) (dt : ℚ) (n : ℕ) (l : List Steam)
    (s : Game) : questView (updateSteamFrom ω dt n l s).2 = questView s := by
  induction n generalizing l s with
  | zero => rfl
  | succ n ih =>
    unfold updateSteamFrom
    split
    · rw [ih]
    · simp only [random]
      split_ifs <;> rw [ih] <;> rfl

theorem updateTofuSoup_questView (ω : Oracle) (dt : ℚ) (s : Game) :
    questView (updateTofuSoup ω dt s) = questView s := by
  have h1 : ∀ (v : GoalView × List Slot) (u : Game) (t : Option TofuSoup),
      questView u = v → questView { u with tofuSoup := t } = v := fun _ _ _ h => h
  have h2 : ∀ (v : GoalView × List Slot) (u : Game), questView u = v →
      questView (winGame u) = v := fun _ _ h => h
  unfold updateTofuSoup
  split
  · rfl
  · simp only
    split
    · split_ifs <;> rfl
    · split_ifs
      · exact h2 _ _ (h1 _ _ _ (by rw [updateSteamFrom_questView, spawnSteamLoop_questView]))
      · exact h1 _ _ _ (by rw [updateSteamFrom_questView, spawnSteamLoop_questView])
      · exact h2 _ _ (h1 _ _ _ (by rw [updateSteamFrom_questView]))
      · exact h1 _ _ _ (by rw [updateSteamFrom_questView])

theorem updateRingsFrom_questView (dt : ℚ) (n : ℕ) (s : Game) :
    questView (updateRingsFrom dt n s) = questView s := by
  induction n generalizing s with
  | zero => rfl
  | succ n ih =>
    unfold updateRingsFrom
    split
    · rw [ih]
    · simp only
      split_ifs <;> rw [ih] <;> rfl

theorem updateBonus_questView (dt : ℚ) (s : Game) :
    questView (updateBonus dt s) = questView s := by
  have h1 : ∀ (v : GoalView × List Slot) (u : Game), questView u = v →
      questView { u with gameState := GameState.bonusOver, gameRunning := false } = v :=
    fun _ _ h => h
  unfold updateBonus
  simp only
  split_ifs
  · exact h1 _ _ (by rw [updateRingsFrom_questView]; rfl)
  · rw [updateRingsFrom_questView]; rfl
  · exact h1 _ _ (by rw [updateRingsFrom_questView]; rfl)
  · rw [updateRingsFrom_questView]; rfl

theorem handleBonusInput_questView (key : String) (s : Game) :
    questView (handleBonusInput key s) = questView s := by
  unfold handleBonusInput
  simp only
  split_ifs <;> rfl

theorem handleCanvasClick_questView (x y : ℚ) (s : Game) :
    questView (handleCanvasClick x y s) = questView s := by
  unfold handleCanvasClick startTofuSoupScene
  split
  · split_ifs <;> rfl
  · rfl

theorem checkHouseEntry_questView (s : Game) :
    questView (checkHouseEntry s) = questView s := by
  unfold checkHouseEntry enterHouse
  split_ifs <;> rfl

/-! ## CameraController -/

theorem updateCamera_iterate_target (n : ℕ) (s : Game) :
    (Nat.iterate updateCamera n s).targetCameraY = s.targetCameraY := by
  induction n with
  | zero => rfl
  | succ n ih => rw [Function.iterate_succ_apply']; exact ih

theorem updateCamera_iterate_distance (n : ℕ) (s : Game) :
    (Nat.iterate updateCamera n s).cameraY - s.targetCameraY =
      (9 / 10) ^ n * (s.cameraY - s.targetCameraY) := by
  induction n with
  | zero => simp
  | succ n ih =>
    rw [Function.iterate_succ_apply']
    have h1 : (updateCamera (Nat.iterate updateCamera n s)).cameraY =
        (Nat.iterate updateCamera n s).cameraY +
          ((Nat.iterate updateCamera n s).targetCameraY -
            (Nat.iterate updateCamera n s).cameraY) * (1 / 10) := rfl
    rw [h1, updateCamera_iterate_target, pow_succ]
    linear_combination (9 / 10 : ℚ) * ih

/-- C13: one `updateCamera` step leaves the target alone and multiplies the signed
distance from `cameraY` to the target by 0.9, so the new `cameraY` lies between the
old one and the target and never passes it; after `n` steps the distance is
`0.9 ^ n` times the initial one, and for every `ε > 0` some number of steps brings
`cameraY` within `ε` of the target. -/
theorem updateCamera_converges (s : Game) :
    (updateCamera s).targetCameraY = s.targetCameraY ∧
    (updateCamera s).cameraY - s.targetCameraY = 9 / 10 * (s.cameraY - s.targetCameraY) ∧
    min s.cameraY s.targetCameraY ≤ (updateCamera s).cameraY ∧
    (updateCamera s).cameraY ≤ max s.cameraY s.targetCameraY ∧
    (∀ n : ℕ, (Nat.iterate updateCamera n s).cameraY - s.targetCameraY =
      (9 / 10) ^ n * (s.cameraY - s.targetCameraY)) ∧
    (∀ ε : ℚ, 0 < ε →
      ∃ n : ℕ, |(Nat.iterate updateCamera n s).cameraY - s.targetCameraY| < ε) := by
  have hstep : (updateCamera s).cameraY =
      s.cameraY + (s.targetCameraY - s.cameraY) * (1 / 10) := rfl
  refine ⟨rfl, by rw [hstep]; ring, ?_, ?_, fun n => updateCamera_iterate_distance n s, ?_⟩
  · rw [hstep]
    rcases le_total s.cameraY s.targetCameraY with h | h
    · rw [min_eq_left h]; linarith
    · rw [min_eq_right h]; linarith
  · rw [hstep]
    rcases le_total s.cameraY s.targetCameraY with h | h
    · rw [max_eq_right h]; linarith
    · rw [max_eq_left h]; linarith
  · intro ε hε
    by_cases hd : s.cameraY - s.targetCameraY = 0
    · exact ⟨0, by simpa [hd] using hε⟩
    · have hpos : 0 < |s.cameraY - s.targetCameraY| := abs_pos.2 hd
      obtain ⟨n, hn⟩ := exists_pow_lt_of_lt_one (div_pos hε hpos)
        (show (9 / 10 : ℚ) < 1 by norm_num)
      refine ⟨n, ?_⟩
      rw [updateCamera_iterate_distance, abs_mul, abs_pow,
        abs_of_pos (show (0 : ℚ) < 9 / 10 by norm_num)]
      exact (lt_div_iff₀ hpos).1 hn

/-- C13 on a camera 100 pixels from its target: one step brings it to -10, and some
number of steps brings it within 1 pixel. -/
theorem updateCamera_converges_witness :
    (updateCamera lagScene).cameraY = -10 ∧
      ∃ n : ℕ, |(Nat.iterate updateCamera n lagScene).cameraY - lagScene.targetCameraY| < 1 :=
  ⟨by decide!, (updateCamera_converges lagScene).2.2.2.2.2 1 one_pos⟩

/-! ## GoalController -/

theorem spawnHouseEntrance_of_spawned (s : Game) (h : s.house.entranceSpawned = true) :
    spawnHouseEntrance s = s := by
  unfold spawnHouseEntrance
  rw [if_pos h]

theorem spawnHouseEntrance_spawned (s : Game) :
    (spawnHouseEntrance s).house.entranceSpawned = true := by
  unfold spawnHouseEntrance
  by_cases h : s.house.entranceSpawned = true
  · rw [if_pos h]; exact h
  · rw [if_neg h]

/-- C19: `spawnHouseEntrance` is idempotent: a second call, even after `cameraY` has
changed to any `c`, leaves `house` (with `house.worldY`), `gameWorldTop` and
`houseEntrance` exactly as the first call left them; and when the first call is the
one that spawns the zone it sets `house.worldY = floor(cameraY / TILE) - 12` and
`gameWorldTop = house.worldY - 5`. -/
theorem spawnHouseEntrance_idempotent (s : Game) (c : ℚ) :
    (spawnHouseEntrance { spawnHouseEntrance s with cameraY := c }).house =
      (spawnHouseEntrance s).house ∧
    (spawnHouseEntrance { spawnHouseEntrance s with cameraY := c }).gameWorldTop =
      (spawnHouseEntrance s).gameWorldTop ∧
    (spawnHouseEntrance { spawnHouseEntrance s with cameraY := c }).houseEntrance =
      (spawnHouseEntrance s).houseEntrance ∧
    (s.house.entranceSpawned = false →
      (spawnHouseEntrance s).house.worldY = some (⌊s.cameraY / TILE⌋ - 12) ∧
      (spawnHouseEntrance s).gameWorldTop = some (⌊s.cameraY / TILE⌋ - 12 - 5)) := by
  have h2 : spawnHouseEntrance { spawnHouseEntrance s with cameraY := c } =
      { spawnHouseEntrance s with cameraY := c } :=
    spawnHouseEntrance_of_spawned _ (spawnHouseEntrance_spawned s)
  rw [h2]
  refine ⟨rfl, rfl, rfl, fun hno => ?_⟩
  unfold spawnHouseEntrance
  rw [if_neg (by simp [hno])]
  exact ⟨rfl, rfl⟩

/-- C19 on the constructed state: the first call puts the house on row -18, and a
second call with the camera moved to 0 leaves it there. -/
theorem spawnHouseEntrance_idempotent_witness :
    constructorFields.house.entranceSpawned = false ∧
      (spawnHouseEntrance constructorFields).house.worldY = some (-18) ∧
      (spawnHouseEntrance { spawnHouseEntrance constructorFields with cameraY := 0 }).house =
        (spawnHouseEntrance constructorFields).house :=
  ⟨rfl, by decide!, (spawnHouseEntrance_idempotent constructorFields 0).1⟩

/-! ## HazardSpawner: the direction of traffic -/

theorem tmod_two_eq_zero (n : ℤ) : Int.tmod n 2 = 0 ↔ n % 2 = 0 := by
  rw [← Int.dvd_iff_tmod_eq_zero, Int.dvd_iff_emod_eq_zero]

/-- The vehicle that `spawnVehicle` appends: on a lane whose traffic follows the
parity rule it follows the rule too, and it enters at the edge it drives away from. -/
theorem spawnVehicle_adds (ω : Oracle) (hω : validOracle ω) (row : ℤ) (f : Bool) (s : Game)
    (hinv : directionByParity s.vehicles) :
    ∃ v : Vehicle, (spawnVehicle ω row f s).vehicles = s.vehicles ++ [v] ∧ v.worldY = row ∧
      v.speed ≠ 0 ∧ (v.speed > 0 ↔ row % 2 = 0) ∧
      (v.speed > 0 → v.gridX = -2) ∧ (v.speed < 0 → v.gridX = (GRID_W : ℚ) + 1) := by
  have hr := hω s.rngCalls
  have hbase : (0 : ℚ) < if f = true then 8 / 10 + ω s.rngCalls * 1
      else 1 + ω s.rngCalls * (12 / 10) := by
    split <;> linarith [hr.1]
  have key : ∀ (g : Bool) (w h b : ℚ) (c : String), 0 < b → (g = true ↔ row % 2 = 0) →
      ∀ v : Vehicle, v = Vehicle.mk (if g = true then -2 else (GRID_W : ℚ) + 1) row w h
          (b * (if g = true then 1 else -1)) c →
      v.worldY = row ∧ v.speed ≠ 0 ∧ (v.speed > 0 ↔ row % 2 = 0) ∧
        (v.speed > 0 → v.gridX = -2) ∧ (v.speed < 0 → v.gridX = (GRID_W : ℚ) + 1) := by
    intro g w h b c hb hg v hv
    subst hv
    cases g
    · have hodd : ¬ row % 2 = 0 := fun h0 => by simpa using hg.2 h0
      simp only [Bool.false_eq_true, if_false, mul_neg, mul_one]
      refine ⟨trivial, by linarith, ⟨fun h => by linarith, fun h => absurd h hodd⟩,
        fun h => by linarith, fun _ => trivial⟩
    · have heven : row % 2 = 0 := hg.1 rfl
      simp only [if_true, mul_one]
      refine ⟨trivial, by linarith, ⟨fun _ => heven, fun _ => hb⟩,
        fun _ => trivial, fun h => by linarith⟩
  rcases hfil : s.vehicles.filter (fun v => decide (v.worldY = row)) with _ | ⟨u, tail⟩
  · unfold spawnVehicle
    simp only [random, hfil]
    exact ⟨_, rfl, key (decide (Int.tmod row 2 = 0)) _ _ _ _ hbase
      (by simpa using tmod_two_eq_zero row) _ rfl⟩
  · have hu : u ∈ s.vehicles.filter fun v => decide (v.worldY = row) := by
      rw [hfil]; exact List.mem_cons_self _ _
    have hu' := List.mem_filter.1 hu
    have hrow : u.worldY = row := by simpa using hu'.2
    have hpar := (hinv u hu'.1).2
    rw [hrow] at hpar
    unfold spawnVehicle
    simp only [random, hfil]
    exact ⟨_, rfl, key (decide (u.speed > 0)) _ _ _ _ hbase (by simpa using hpar) _ rfl⟩

theorem directionByParity_of_reachable (ω : Oracle) (hω : validOracle ω) (s : Game)
    (h : TrafficReachable ω s) : directionByParity s.vehicles := by
  induction h with
  | empty s hs => rw [hs]; intro v hv; cases hv
  | spawn s row f _ ih =>
    obtain ⟨v, hv, hy, h0, hpar, _⟩ := spawnVehicle_adds ω hω row f s ih
    rw [hv]
    intro u hu
    rcases List.mem_append.1 hu with hu | hu
    · exact ih u hu
    · rw [List.mem_singleton.1 hu, hy]
      exact ⟨h0, hpar⟩
  | update s _ ih =>
    rw [updateVehiclesAndLogs_vehicles]
    intro u hu
    obtain ⟨v, hv, rfl⟩ := List.mem_map.1 (List.mem_filter.1 hu).1
    exact ih v hv

/-- C12: with draws in `[0, 1)`, in every state reached from an empty vehicle list by
`spawnVehicle` and `updateVehiclesAndLogs`, each vehicle has a direction and travels
rightward exactly when its row is even, so two vehicles on one row have the same
direction; and the vehicle that `spawnVehicle` creates next stands at column -2 if it
is rightward and at column `GRID_W + 1` if it is leftward. -/
theorem vehicle_direction_by_parity (ω : Oracle) (hω : validOracle ω) (s : Game)
    (h : TrafficReachable ω s) :
    (∀ v ∈ s.vehicles, v.speed ≠ 0 ∧ (v.speed > 0 ↔ v.worldY % 2 = 0)) ∧
    (∀ v ∈ s.vehicles, ∀ u ∈ s.vehicles, v.worldY = u.worldY →
      (v.speed > 0 ↔ u.speed > 0)) ∧
    (∀ (worldRow : ℤ) (isFinalStretch : Bool), ∃ v : Vehicle,
      (spawnVehicle ω worldRow isFinalStretch s).vehicles = s.vehicles ++ [v] ∧
      v.worldY = worldRow ∧
      (v.speed > 0 → v.gridX = -2) ∧ (v.speed < 0 → v.gridX = (GRID_W : ℚ) + 1)) := by
  have hinv := directionByParity_of_reachable ω hω s h
  refine ⟨hinv, fun v hv u hu hy => ?_, fun row f => ?_⟩
  · rw [(hinv v hv).2, (hinv u hu).2, hy]
  · obtain ⟨v, hv, hy, _, _, hr, hl⟩ := spawnVehicle_adds ω hω row f s hinv
    exact ⟨v, hv, hy, hr, hl⟩

theorem quietOracle_valid : validOracle quietOracle := by
  intro k
  unfold quietOracle
  norm_num

/-- C12 on two vehicles spawned on the odd row -7: both travel leftward. -/
theorem vehicle_direction_by_parity_witness :
    validOracle quietOracle ∧ TrafficReachable quietOracle trafficScene ∧
      trafficScene.vehicles.length = 2 ∧
      (∀ v ∈ trafficScene.vehicles, v.speed ≠ 0 ∧ (v.speed > 0 ↔ v.worldY % 2 = 0)) ∧
      (∀ v ∈ trafficScene.vehicles, v.speed < 0) :=
  have hreach : TrafficReachable quietOracle trafficScene :=
    TrafficReachable.spawn _ _ _ (TrafficReachable.update _
      (TrafficReachable.spawn _ _ _ (TrafficReachable.empty _ rfl)))
  ⟨quietOracle_valid, hreach, by decide!,
   (vehicle_direction_by_parity quietOracle quietOracle_valid trafficScene hreach).1,
   by decide!⟩

/-! ## HazardSpawner: rows kept clear of the goal zone -/

theorem spawnVehicle_logs (ω : Oracle) (row : ℤ) (f : Bool) (s : Game) :
    (spawnVehicle ω row f s).logs = s.logs := rfl

theorem spawnVehicle_vehicles (ω : Oracle) (row : ℤ) (f : Bool) (s : Game) :
    ∃ v : Vehicle, (spawnVehicle ω row f s).vehicles = s.vehicles ++ [v] ∧ v.worldY = row :=
  ⟨_, rfl, rfl⟩

theorem spawnLog_vehicles (ω : Oracle) (row : ℤ) (f : Bool) (s : Game) :
    (spawnLog ω row f s).vehicles = s.vehicles := rfl

theorem spawnLog_logs (ω : Oracle) (row : ℤ) (f : Bool) (s : Game) :
    ∃ l : Log, (spawnLog ω row f s).logs = s.logs ++ [l] ∧ l.worldY = row :=
  ⟨_, rfl, rfl⟩

/-- What one row of the spawning loop adds: vehicles and logs on that row only, and
nothing at all on a row beyond the boundary or inside the grass field. -/
theorem spawnRow_adds (ω : Oracle) (row : ℤ) (s : Game) (he : HouseEntrance) (top : ℤ)
    (h1 : s.house.entranceSpawned = true) (h2 : s.houseEntrance = some he)
    (h3 : s.gameWorldTop = some top) :
    ∃ vs ls, (spawnRow ω row s).vehicles = s.vehicles ++ vs ∧
      (spawnRow ω row s).logs = s.logs ++ ls ∧
      (∀ v ∈ vs, v.worldY = row) ∧ (∀ l ∈ ls, l.worldY = row) ∧
      ((vs ≠ [] ∨ ls ≠ []) → top ≤ row ∧ numOrZero s.house.worldY - 5 ≤ row ∧
        ¬ (he.grassFieldEnd ≤ row ∧ row ≤ he.grassFieldStart)) := by
  have hnone : ∃ vs ls, s.vehicles = s.vehicles ++ vs ∧ s.logs = s.logs ++ ls ∧
      (∀ v ∈ vs, v.worldY = row) ∧ (∀ l ∈ ls, l.worldY = row) ∧
      ((vs ≠ [] ∨ ls ≠ []) → top ≤ row ∧ numOrZero s.house.worldY - 5 ≤ row ∧
        ¬ (he.grassFieldEnd ≤ row ∧ row ≤ he.grassFieldStart)) :=
    ⟨[], [], by simp, by simp, by simp, by simp, by simp⟩
  unfold spawnRow
  rw [h1, h2, h3]
  simp only [Option.isSome_some, true_and, numOrZero]
  by_cases hb : row < top
  · rw [if_pos hb]; exact hnone
  rw [if_neg hb]
  by_cases hsk : (decide (row < numOrZero s.house.worldY - 5) ||
      (decide (row ≤ he.grassFieldStart) && decide (row ≥ he.grassFieldEnd))) = true
  · simp only [numOrZero] at hsk
    rw [if_pos hsk]; exact hnone
  have hclear : top ≤ row ∧ numOrZero s.house.worldY - 5 ≤ row ∧
      ¬ (he.grassFieldEnd ≤ row ∧ row ≤ he.grassFieldStart) := by
    simp only [Bool.or_eq_true, Bool.and_eq_true, decide_eq_true_eq, not_or, not_and] at hsk
    refine ⟨not_lt.1 hb, not_lt.1 hsk.1, fun h => hsk.2 h.2 h.1⟩
  simp only [numOrZero] at hsk
  rw [if_neg hsk]
  simp only [random]
  split_ifs
  all_goals first
    | exact (spawnVehicle_vehicles ω row s.finalStretchMode
        { s with rngCalls := s.rngCalls + 1 }).elim fun v hv =>
          ⟨[v], [], hv.1, (List.append_nil _).symm,
            fun u hu => (List.mem_singleton.1 hu).symm ▸ hv.2,
            fun _ hu => absurd hu (List.not_mem_nil _), fun _ => hclear⟩
    | exact (spawnLog_logs ω row s.finalStretchMode
        { s with rngCalls := s.rngCalls + 1 }).elim fun l hl =>
          ⟨[], [l], (List.append_nil _).symm, hl.1,
            fun _ hu => absurd hu (List.not_mem_nil _),
            fun u hu => (List.mem_singleton.1 hu).symm ▸ hl.2, fun _ => hclear⟩
    | exact ⟨[], [], (List.append_nil _).symm, (List.append_nil _).symm,
        fun _ hu => absurd hu (List.not_mem_nil _),
        fun _ hu => absurd hu (List.not_mem_nil _), fun _ => hclear⟩

theorem spawnRows_adds (ω : Oracle) (he : HouseEntrance) (top : ℤ) (n : ℕ) :
    ∀ (row : ℤ) (s : Game), s.house.entranceSpawned = true → s.houseEntrance = some he →
      s.gameWorldTop = some top →
      ∃ vs ls, (spawnRows ω n row s).vehicles = s.vehicles ++ vs ∧
        (spawnRows ω n row s).logs = s.logs ++ ls ∧
        (∀ v ∈ vs, top ≤ v.worldY ∧ numOrZero s.house.worldY - 5 ≤ v.worldY ∧
          ¬ (he.grassFieldEnd ≤ v.worldY ∧ v.worldY ≤ he.grassFieldStart)) ∧
        (∀ l ∈ ls, top ≤ l.worldY ∧ numOrZero s.house.worldY - 5 ≤ l.worldY ∧
          ¬ (he.grassFieldEnd ≤ l.worldY ∧ l.worldY ≤ he.grassFieldStart)) := by
  induction n with
  | zero => intro row s _ _ _; exact ⟨[], [], by simp [spawnRows], by simp [spawnRows], by simp, by simp⟩
  | succ n ih =>
    intro row s h1 h2 h3
    obtain ⟨vs, ls, hv, hl, hvy, hly, hclear⟩ := spawnRow_adds ω row s he top h1 h2 h3
    have hq := congrArg Prod.fst (spawnRow_questView ω row s)
    have hh : (spawnRow ω row s).house = s.house := congrArg GoalView.house hq
    have hhe : (spawnRow ω row s).houseEntrance = s.houseEntrance :=
      congrArg GoalView.houseEntrance hq
    have ht : (spawnRow ω row s).gameWorldTop = s.gameWorldTop :=
      congrArg GoalView.gameWorldTop hq
    obtain ⟨vs', ls', hv', hl', hvy', hly'⟩ := ih (row + 1) (spawnRow ω row s)
      (by rw [hh]; exact h1) (by rw [hhe]; exact h2) (by rw [ht]; exact h3)
    rw [hh] at hvy' hly'
    refine ⟨vs ++ vs', ls ++ ls', ?_, ?_, ?_, ?_⟩
    · show (spawnRows ω n (row + 1) (spawnRow ω row s)).vehicles = _
      rw [hv', hv, List.append_assoc]
    · show (spawnRows ω n (row + 1) (spawnRow ω row s)).logs = _
      rw [hl', hl, List.append_assoc]
    · intro v hmem
      rcases List.mem_append.1 hmem with hm | hm
      · rw [hvy v hm]; exact hclear (Or.inl (List.ne_nil_of_mem hm))
      · exact hvy' v hm
    · intro l hmem
      rcases List.mem_append.1 hmem with hm | hm
      · rw [hly l hm]; exact hclear (Or.inr (List.ne_nil_of_mem hm))
      · exact hly' l hm

/-- C11: in a state where the goal zone is spawned, whatever the camera position and
the draws, `spawnVehiclesAndLogs` only appends to `vehicles` and `logs`, and every
vehicle and log it appends has a `worldY` that is not below `gameWorldTop`, not below
`house.worldY - 5`, and not in the grass field
`[houseEntrance.grassFieldEnd, houseEntrance.grassFieldStart]`. -/
theorem spawn_outside_goal_zone (ω : Oracle) (s : Game) (he : HouseEntrance) (top : ℤ)
    (h1 : s.house.entranceSpawned = true) (h2 : s.houseEntrance = some he)
    (h3 : s.gameWorldTop = some top) :
    ∃ vs ls, (spawnVehiclesAndLogs ω s).vehicles = s.vehicles ++ vs ∧
      (spawnVehiclesAndLogs ω s).logs = s.logs ++ ls ∧
      (∀ v ∈ vs, top ≤ v.worldY ∧ numOrZero s.house.worldY - 5 ≤ v.worldY ∧
        ¬ (he.grassFieldEnd ≤ v.worldY ∧ v.worldY ≤ he.grassFieldStart)) ∧
      (∀ l ∈ ls, top ≤ l.worldY ∧ numOrZero s.house.worldY - 5 ≤ l.worldY ∧
        ¬ (he.grassFieldEnd ≤ l.worldY ∧ l.worldY ≤ he.grassFieldStart)) := by
  unfold spawnVehiclesAndLogs
  simp only
  split_ifs
  · exact spawnRows_adds ω he top _ _ { s with spawnTimer := s.spawnTimer + 1 } h1 h2 h3
  · exact ⟨[], [], by simp, by simp, by simp, by simp⟩

/-- C11 on a spawn pass over the rows -27 to -3 around a goal zone with boundary -23
and grass field [-20, -13]: vehicles appear on rows -23 to -21 and -9 to -7 only. -/
theorem spawn_outside_goal_zone_witness :
    goalScene.house.entranceSpawned = true ∧
      goalScene.houseEntrance = some goalSceneEntrance ∧
      goalScene.gameWorldTop = some (-23) ∧
      (spawnVehiclesAndLogs eagerOracle goalScene).vehicles.map Vehicle.worldY =
        [-23, -22, -21, -9, -8, -7] ∧
      ∃ vs ls, (spawnVehiclesAndLogs eagerOracle goalScene).vehicles = goalScene.vehicles ++ vs ∧
        (spawnVehiclesAndLogs eagerOracle goalScene).logs = goalScene.logs ++ ls ∧
        (∀ v ∈ vs, -23 ≤ v.worldY ∧ numOrZero goalScene.house.worldY - 5 ≤ v.worldY ∧
          ¬ (goalSceneEntrance.grassFieldEnd ≤ v.worldY ∧
            v.worldY ≤ goalSceneEntrance.grassFieldStart)) ∧
        (∀ l ∈ ls, -23 ≤ l.worldY ∧ numOrZero goalScene.house.worldY - 5 ≤ l.worldY ∧
          ¬ (goalSceneEntrance.grassFieldEnd ≤ l.worldY ∧
            l.worldY ≤ goalSceneEntrance.grassFieldStart)) :=
  ⟨by decide!, by decide!, by decide!, by decide!,
    spawn_outside_goal_zone eagerOracle goalScene goalSceneEntrance (-23)
      (by decide!) (by decide!) (by decide!)⟩

/-! ## Ingredient and goal bookkeeping -/

theorem goalView_of_questView {s t : Game} (h : questView t = questView s) :
    goalView t = goalView s := congrArg Prod.fst h

theorem slots_of_questView {s t : Game} (h : questView t = questView s) :
    t.ingredientPositions = s.ingredientPositions := congrArg Prod.snd h

theorem goalInv_congr {s t : Game} (h : goalView t = goalView s) (hs : GoalInv s) :
    GoalInv t := by
  have hI : t.INGREDIENTS = s.INGREDIENTS := congrArg GoalView.INGREDIENTS h
  have hc : t.collected = s.collected := congrArg GoalView.collected h
  have hh : t.house = s.house := congrArg GoalView.house h
  exact ⟨by rw [hI]; exact hs.keys, by rw [hc]; exact hs.nodup, by rw [hc]; exact hs.sub,
    by rw [hI, hc]; exact hs.taken, by rw [hI, hc, hh]; exact hs.spawned,
    by rw [hh]; exact hs.worldY⟩

theorem goalInv_congr_lerp {s t : Game} (h : goalView t = lerpView (goalView s))
    (hs : GoalInv s) : GoalInv t := by
  have hI : t.INGREDIENTS = s.INGREDIENTS := congrArg GoalView.INGREDIENTS h
  have hc : t.collected = s.collected := congrArg GoalView.collected h
  have hh : t.house = s.house := congrArg GoalView.house h
  exact ⟨by rw [hI]; exact hs.keys, by rw [hc]; exact hs.nodup, by rw [hc]; exact hs.sub,
    by rw [hI, hc]; exact hs.taken, by rw [hI, hc, hh]; exact hs.spawned,
    by rw [hh]; exact hs.worldY⟩

theorem questInv_congr {s t : Game} (h : questView t = questView s) (hs : QuestInv s) :
    QuestInv t := by
  have h2 : t.ingredientPositions = s.ingredientPositions := congrArg Prod.snd h
  exact ⟨goalInv_congr (congrArg Prod.fst h) hs.1, by rw [h2]; exact hs.2⟩

theorem slotKeysOk_append {l m : List Slot} (hl : slotKeysOk l) (hm : slotKeysOk m) :
    slotKeysOk (l ++ m) := by
  intro slot h
  rcases List.mem_append.1 h with h | h
  · exact hl slot h
  · exact hm slot h

/-! ### The spawning of slots leaves the bookkeeping alone -/

theorem spawnInitialAttempts_slots (ω : Oracle) (ing : Ingredient) (i n : ℕ) (s : Game) :
    goalView (spawnInitialAttempts ω ing i n s) = goalView s ∧
    ∃ l, (spawnInitialAttempts ω ing i n s).ingredientPositions = s.ingredientPositions ++ l ∧
      ∀ slot ∈ l, slot.key = ing.key := by
  induction n generalizing s with
  | zero => exact ⟨rfl, [], (List.append_nil _).symm, fun _ h => absurd h (List.not_mem_nil _)⟩
  | succ n ih =>
    unfold spawnInitialAttempts
    simp only [random]
    split_ifs
    · exact ⟨rfl, _, rfl, fun slot h => by rw [List.mem_singleton.1 h]⟩
    · exact ih _
    · exact ih _

theorem spawnInitialFrom_slots (ω : Oracle) (ings : List Ingredient) :
    ∀ (i : ℕ) (s : Game), goalView (spawnInitialFrom ω ings i s) = goalView s ∧
    ∃ l, (spawnInitialFrom ω ings i s).ingredientPositions = s.ingredientPositions ++ l ∧
      ∀ slot ∈ l, slot.key ∈ ings.map Ingredient.key := by
  induction ings with
  | nil =>
    intro i s
    exact ⟨rfl, [], (List.append_nil _).symm, fun _ h => absurd h (List.not_mem_nil _)⟩
  | cons ing rest ih =>
    intro i s
    obtain ⟨hg, l, hl, hk⟩ := spawnInitialAttempts_slots ω ing i 100 s
    obtain ⟨hg', l', hl', hk'⟩ := ih (i + 1) (spawnInitialAttempts ω ing i 100 s)
    refine ⟨hg'.trans hg, l ++ l', ?_, ?_⟩
    · show (spawnInitialFrom ω rest (i + 1) (spawnInitialAttempts ω ing i 100 s)).ingredientPositions = _
      rw [hl', hl, List.append_assoc]
    · intro slot h
      rcases List.mem_append.1 h with h | h
      · rw [hk slot h]; exact List.mem_cons_self _ _
      · exact List.mem_cons_of_mem _ (hk' slot h)

theorem spawnIngredients_goalView (ω : Oracle) (s : Game) :
    goalView (spawnIngredients ω s) = goalView s :=
  (spawnInitialFrom_slots ω s.INGREDIENTS 0
    { s with ingredientPositions := [], continuousSpawnTimer := 0 }).1

theorem spawnIngredients_slotKeys (ω : Oracle) (s : Game)
    (h : s.INGREDIENTS.map Ingredient.key = ingredientKeys) :
    slotKeysOk (spawnIngredients ω s).ingredientPositions := by
  obtain ⟨_, l, hl, hk⟩ := spawnInitialFrom_slots ω s.INGREDIENTS 0
    { s with ingredientPositions := [], continuousSpawnTimer := 0 }
  unfold spawnIngredients spawnInitialIngredients
  rw [hl]
  intro slot hs
  rw [← h]
  exact hk slot (by simpa using hs)

theorem spawnAheadAttempts_slots (ω : Oracle) (ing : Ingredient) (n : ℕ) (s : Game) :
    goalView (spawnAheadAttempts ω ing n s) = goalView s ∧
    ∃ l, (spawnAheadAttempts ω ing n s).ingredientPositions = s.ingredientPositions ++ l ∧
      ∀ slot ∈ l, slot.key = ing.key := by
  induction n generalizing s with
  | zero => exact ⟨rfl, [], (List.append_nil _).symm, fun _ h => absurd h (List.not_mem_nil _)⟩
  | succ n ih =>
    unfold spawnAheadAttempts
    simp only [random]
    split_ifs
    · exact ⟨rfl, _, rfl, fun slot h => by rw [List.mem_singleton.1 h]⟩
    · exact ih _
    · exact ih _

theorem respawnEach_slots (ω : Oracle) (ings : List Ingredient) :
    ∀ s : Game, goalView (respawnEach ω ings s) = goalView s ∧
    ∃ l, (respawnEach ω ings s).ingredientPositions = s.ingredientPositions ++ l ∧
      ∀ slot ∈ l, slot.key ∈ ings.map Ingredient.key := by
  induction ings with
  | nil =>
    intro s
    exact ⟨rfl, [], (List.append_nil _).symm, fun _ h => absurd h (List.not_mem_nil _)⟩
  | cons ing rest ih =>
    intro s
    unfold respawnEach
    simp only
    split_ifs
    · obtain ⟨hg, l, hl, hk⟩ := spawnAheadAttempts_slots ω ing 100 s
      obtain ⟨hg', l', hl', hk'⟩ := ih (spawnIngredientAhead ω ing s)
      refine ⟨hg'.trans hg, l ++ l', ?_, ?_⟩
      · rw [hl']
        show (spawnAheadAttempts ω ing 100 s).ingredientPositions ++ l' = _
        rw [hl, List.append_assoc]
      · intro slot h
        rcases List.mem_append.1 h with h | h
        · rw [hk slot h]; exact List.mem_cons_self _ _
        · exact List.mem_cons_of_mem _ (hk' slot h)
    · obtain ⟨hg', l', hl', hk'⟩ := ih s
      exact ⟨hg', l', hl', fun slot h => List.mem_cons_of_mem _ (hk' slot h)⟩

theorem respawnMissingIngredients_goalView (ω : Oracle) (s : Game) :
    goalView (respawnMissingIngredients ω s) = goalView s :=
  (respawnEach_slots ω _ _).1

theorem respawnMissingIngredients_slotKeys (ω : Oracle) (s : Game)
    (h : s.INGREDIENTS.map Ingredient.key = ingredientKeys)
    (hs : slotKeysOk s.ingredientPositions) :
    slotKeysOk (respawnMissingIngredients ω s).ingredientPositions := by
  unfold respawnMissingIngredients
  simp only
  obtain ⟨_, l, hl, hk⟩ := respawnEach_slots ω
    (s.INGREDIENTS.filter fun ing => !decide (ing.key ∈ s.collected))
    { s with ingredientPositions := s.ingredientPositions.filter fun pos => !pos.taken }
  rw [hl]
  apply slotKeysOk_append
  · intro slot hm
    exact hs slot (List.mem_filter.1 hm).1
  · intro slot hm
    obtain ⟨ing, hing, hkey⟩ := List.mem_map.1 (hk slot hm)
    rw [← hkey, ← h]
    exact List.mem_map_of_mem _ (List.mem_filter.1 hing).1

theorem continuouslySpawnIngredients_goalView (ω : Oracle) (s : Game) :
    goalView (continuouslySpawnIngredients ω s) = goalView s := by
  unfold continuouslySpawnIngredients
  simp only
  split_ifs
  · exact respawnMissingIngredients_goalView ω _
  · rfl

theorem continuouslySpawnIngredients_slotKeys (ω : Oracle) (s : Game)
    (h : s.INGREDIENTS.map Ingredient.key = ingredientKeys)
    (hs : slotKeysOk s.ingredientPositions) :
    slotKeysOk (continuouslySpawnIngredients ω s).ingredientPositions := by
  unfold continuouslySpawnIngredients
  simp only
  split_ifs
  · exact respawnMissingIngredients_slotKeys ω
      { s with continuousSpawnTimer := s.continuousSpawnTimer + 1 } h hs
  · exact hs

/-! ### One frame -/

theorem updateCamera_goalView (s : Game) :
    goalView (updateCamera s) = lerpView (goalView s) := rfl

theorem updatePlay_goalView (ω : Oracle) (s : Game) :
    goalView (updatePlay ω s) = lerpView (goalView s) := by
  unfold updatePlay
  simp only
  rw [goalView_of_questView (checkCollisions_questView _), continuouslySpawnIngredients_goalView,
    updateCamera_goalView, goalView_of_questView (updateVehiclesAndLogs_questView _),
    goalView_of_questView (spawnVehiclesAndLogs_questView _ _)]

theorem updatePlay_slotKeys (ω : Oracle) (s : Game)
    (h : s.INGREDIENTS.map Ingredient.key = ingredientKeys)
    (hs : slotKeysOk s.ingredientPositions) :
    slotKeysOk (updatePlay ω s).ingredientPositions := by
  unfold updatePlay
  simp only
  rw [slots_of_questView (checkCollisions_questView _)]
  apply continuouslySpawnIngredients_slotKeys
  · show (goalView (updateCamera (updateVehiclesAndLogs (spawnVehiclesAndLogs ω s)))).INGREDIENTS.map
      Ingredient.key = _
    rw [updateCamera_goalView, goalView_of_questView (updateVehiclesAndLogs_questView _),
      goalView_of_questView (spawnVehiclesAndLogs_questView _ _)]
    exact h
  · show slotKeysOk (questView (updateVehiclesAndLogs (spawnVehiclesAndLogs ω s))).2
    rw [updateVehiclesAndLogs_questView, spawnVehiclesAndLogs_questView]
    exact hs

theorem updateScene_goalView (ω : Oracle) (dt : ℚ) (s : Game) :
    goalView (updateScene ω dt s) = goalView s ∨
      goalView (updateScene ω dt s) = lerpView (goalView s) := by
  unfold updateScene
  split_ifs
  · exact Or.inr (updatePlay_goalView ω s)
  · exact Or.inl (goalView_of_questView (updateBonus_questView dt s))
  · exact Or.inl (goalView_of_questView (updateHomeInterior_questView ω dt s))
  · exact Or.inl (goalView_of_questView (updateTofuSoup_questView ω dt s))
  · exact Or.inl rfl

theorem updateScene_slotKeys (ω : Oracle) (dt : ℚ) (s : Game)
    (h : s.INGREDIENTS.map Ingredient.key = ingredientKeys)
    (hs : slotKeysOk s.ingredientPositions) :
    slotKeysOk (updateScene ω dt s).ingredientPositions := by
  unfold updateScene
  split_ifs
  · exact updatePlay_slotKeys ω s h hs
  · rw [slots_of_questView (updateBonus_questView dt s)]; exact hs
  · rw [slots_of_questView (updateHomeInterior_questView ω dt s)]; exact hs
  · rw [slots_of_questView (updateTofuSoup_questView ω dt s)]; exact hs
  · exact hs

theorem gameLoop_goalView (ω : Oracle) (t : ℚ) (s : Game) :
    goalView (gameLoop ω t s) = goalView s ∨
      goalView (gameLoop ω t s) = lerpView (goalView s) := by
  unfold gameLoop
  split_ifs
  · exact Or.inl rfl
  · simp only
    rw [goalView_of_questView (draw_questView _)]
    have hc : goalView (updateHopCooldown (min (t - s.lastTime) 40) { s with lastTime := t })
        = goalView s := goalView_of_questView (updateHopCooldown_questView _ _)
    rcases updateScene_goalView ω (min (t - s.lastTime) 40)
      (updateHopCooldown (min (t - s.lastTime) 40) { s with lastTime := t }) with h | h
    · exact Or.inl (h.trans hc)
    · exact Or.inr (h.trans (congrArg lerpView hc))

theorem gameLoop_questInv (ω : Oracle) (t : ℚ) (s : Game) (hs : QuestInv s) :
    QuestInv (gameLoop ω t s) := by
  refine ⟨?_, ?_⟩
  · rcases gameLoop_goalView ω t s with h | h
    · exact goalInv_congr h hs.1
    · exact goalInv_congr_lerp h hs.1
  · unfold gameLoop
    split_ifs
    · exact hs.2
    · simp only
      rw [slots_of_questView (draw_questView _)]
      have hc := updateHopCooldown_questView (min (t - s.lastTime) 40) { s with lastTime := t }
      apply updateScene_slotKeys
      · rw [show (updateHopCooldown (min (t - s.lastTime) 40) { s with lastTime := t }).INGREDIENTS
          = s.INGREDIENTS from congrArg (fun q => q.1.INGREDIENTS) hc]
        exact hs.1.keys
      · rw [slots_of_questView hc]
        exact hs.2

/-! ### Sets of keys -/

theorem mem_setAdd (x k : String) (c : List String) : x ∈ setAdd k c ↔ x ∈ c ∨ x = k := by
  unfold setAdd
  split_ifs with h
  · constructor
    · exact Or.inl
    · rintro (h1 | h1)
      · exact h1
      · rw [h1]; exact h
  · simp

theorem nodup_setAdd (k : String) (c : List String) (h : c.Nodup) : (setAdd k c).Nodup := by
  unfold setAdd
  split_ifs with hk
  · exact h
  · exact List.Nodup.append h (List.nodup_singleton k) (by
      intro x hx hx'
      rw [List.mem_singleton.1 hx'] at hx
      exact hk hx)

theorem setAdd_of_mem (k : String) (c : List String) (h : k ∈ c) : setAdd k c = c := by
  unfold setAdd; rw [if_pos h]

theorem ingredientKeys_nodup : ingredientKeys.Nodup := by
  simp [ingredientKeys, constructorFields]

theorem full_of_length {c K : List String} (hn : c.Nodup) (hsub : ∀ k ∈ c, k ∈ K)
    (hlen : c.length = K.length) : ∀ k ∈ K, k ∈ c := by
  have hp : c.Perm K :=
    (List.subperm_of_subset hn hsub).perm_of_length_le (le_of_eq hlen.symm)
  intro k hk
  exact hp.mem_iff.2 hk

theorem length_of_full {c K : List String} (hn : c.Nodup) (hK : K.Nodup)
    (hsub : ∀ k ∈ c, k ∈ K) (hfull : ∀ k ∈ K, k ∈ c) : c.length = K.length :=
  ((List.perm_ext_iff_of_nodup hn hK).2 fun k => ⟨hsub k, hfull k⟩).length_eq

theorem markTaken_keys (k : String) (l : List Ingredient) :
    (markTaken k l).map Ingredient.key = l.map Ingredient.key := by
  induction l with
  | nil => rfl
  | cons a rest ih =>
    unfold markTaken
    split_ifs
    · rfl
    · simp only [List.map_cons, ih]

theorem markTaken_mem (k : String) (l : List Ingredient) (hn : (l.map Ingredient.key).Nodup)
    (ing : Ingredient) (h : ing ∈ markTaken k l) :
    (ing ∈ l ∧ ing.key ≠ k) ∨ (ing.key = k ∧ ing.taken = true) := by
  induction l with
  | nil => cases h
  | cons a rest ih =>
    rw [List.map_cons, List.nodup_cons] at hn
    unfold markTaken at h
    split_ifs at h with hk
    · rcases List.mem_cons.1 h with h | h
      · right; rw [h]; exact ⟨hk, rfl⟩
      · left
        refine ⟨List.mem_cons_of_mem _ h, fun hik => hn.1 ?_⟩
        rw [hk, ← hik]
        exact List.mem_map_of_mem _ h
    · rcases List.mem_cons.1 h with h | h
      · left; rw [h]; exact ⟨List.mem_cons_self _ _, hk⟩
      · rcases ih hn.2 h with h' | h'
        · exact Or.inl ⟨List.mem_cons_of_mem _ h'.1, h'.2⟩
        · exact Or.inr h'

/-- The count the heads-up display shows: with consistent bookkeeping the size of
`collected` is the number of entries of `INGREDIENTS` that are taken. -/
theorem goalInv_count {s : Game} (hs : GoalInv s) :
    s.collected.length = s.INGREDIENTS.countP fun ing => ing.taken := by
  rw [List.countP_eq_length_filter, ← List.length_map (s.INGREDIENTS.filter fun ing => ing.taken)
    Ingredient.key]
  apply List.Perm.length_eq
  rw [List.perm_ext_iff_of_nodup hs.nodup]
  · intro k
    constructor
    · intro hk
      have hk' := hs.sub k hk
      rw [← hs.keys] at hk'
      obtain ⟨ing, hing, rfl⟩ := List.mem_map.1 hk'
      exact List.mem_map_of_mem _ (List.mem_filter.2 ⟨hing, (hs.taken ing hing).2 hk⟩)
    · intro hk
      obtain ⟨ing, hing, rfl⟩ := List.mem_map.1 hk
      have := List.mem_filter.1 hing
      exact (hs.taken ing this.1).1 this.2
  · have hsl : ((s.INGREDIENTS.filter fun ing => ing.taken).map Ingredient.key).Sublist
        (s.INGREDIENTS.map Ingredient.key) := (List.filter_sublist _).map _
    rw [hs.keys] at hsl
    exact hsl.nodup ingredientKeys_nodup

theorem goalInv_full {s : Game} (hs : GoalInv s)
    (h : s.house.entranceSpawned = true) : ∀ k ∈ ingredientKeys, k ∈ s.collected := by
  apply full_of_length hs.nodup hs.sub
  rw [hs.spawned.1 h, ← hs.keys, List.length_map]

/-! ### The goal zone -/

theorem spawnHouseEntrance_book (s : Game) :
    (spawnHouseEntrance s).INGREDIENTS = s.INGREDIENTS ∧
    (spawnHouseEntrance s).collected = s.collected ∧
    (spawnHouseEntrance s).ingredientPositions = s.ingredientPositions ∧
    (spawnHouseEntrance s).player = s.player ∧
    (spawnHouseEntrance s).cameraY = s.cameraY ∧
    (spawnHouseEntrance s).targetCameraY = s.targetCameraY ∧
    (spawnHouseEntrance s).maxPlayerProgress = s.maxPlayerProgress := by
  unfold spawnHouseEntrance
  split_ifs <;> exact ⟨rfl, rfl, rfl, rfl, rfl, rfl, rfl⟩

theorem spawnHouseEntrance_worldY (s : Game)
    (h : s.house.worldY.isSome = true ↔ s.house.entranceSpawned = true) :
    (spawnHouseEntrance s).house.worldY.isSome = true := by
  unfold spawnHouseEntrance
  split_ifs with hsp
  · exact h.2 hsp
  · rfl

/-- Spawning the goal zone when the set is full restores the invariant. -/
theorem spawnHouseEntrance_goalInv (s : Game)
    (hkeys : s.INGREDIENTS.map Ingredient.key = ingredientKeys) (hn : s.collected.Nodup)
    (hsub : ∀ k ∈ s.collected, k ∈ ingredientKeys)
    (htaken : ∀ ing ∈ s.INGREDIENTS, ing.taken = true ↔ ing.key ∈ s.collected)
    (hlen : s.collected.length = s.INGREDIENTS.length)
    (hw : s.house.worldY.isSome = true ↔ s.house.entranceSpawned = true) :
    GoalInv (spawnHouseEntrance s) := by
  obtain ⟨hI, hc, _⟩ := spawnHouseEntrance_book s
  refine ⟨by rw [hI]; exact hkeys, by rw [hc]; exact hn, by rw [hc]; exact hsub,
    by rw [hI, hc]; exact htaken, ?_, ?_⟩
  · rw [hI, hc]
    exact ⟨fun _ => hlen, fun _ => spawnHouseEntrance_spawned s⟩
  · exact ⟨fun _ => spawnHouseEntrance_spawned s, fun _ => spawnHouseEntrance_worldY s hw⟩

/-! ### Picking up -/

theorem pickupStep_fields (k : String) (s : Game) :
    (pickupStep k s).player = s.player ∧ (pickupStep k s).cameraY = s.cameraY ∧
    (pickupStep k s).targetCameraY = s.targetCameraY ∧
    (pickupStep k s).maxPlayerProgress = s.maxPlayerProgress ∧
    (pickupStep k s).collected = setAdd k s.collected ∧
    (pickupStep k s).INGREDIENTS = markTaken k s.INGREDIENTS := by
  unfold pickupStep
  simp only
  split_ifs
  · obtain ⟨h1, h2, _, h4, h5, h6, h7⟩ := spawnHouseEntrance_book
      { s with collected := setAdd k s.collected, INGREDIENTS := markTaken k s.INGREDIENTS,
               sounds := s.sounds ++ [Sound.pickup] }
    exact ⟨h4, h5, h6, h7, h2, h1⟩
  · exact ⟨rfl, rfl, rfl, rfl, rfl, rfl⟩

theorem pickupStep_house (k : String) (s : Game) (h : s.house.entranceSpawned = true) :
    (pickupStep k s).house = s.house ∧ (pickupStep k s).houseEntrance = s.houseEntrance ∧
    (pickupStep k s).gameWorldTop = s.gameWorldTop := by
  unfold pickupStep
  simp only
  split_ifs
  · have e := spawnHouseEntrance_of_spawned
      { s with collected := setAdd k s.collected, INGREDIENTS := markTaken k s.INGREDIENTS,
               sounds := s.sounds ++ [Sound.pickup] } h
    rw [e]; exact ⟨rfl, rfl, rfl⟩
  · exact ⟨rfl, rfl, rfl⟩

theorem pickupStep_goalInv (k : String) (s : Game) (hs : GoalInv s)
    (hk : k ∈ ingredientKeys) : GoalInv (pickupStep k s) := by
  have hkeys : (markTaken k s.INGREDIENTS).map Ingredient.key = ingredientKeys := by
    rw [markTaken_keys]; exact hs.keys
  have hn := nodup_setAdd k s.collected hs.nodup
  have hsub : ∀ x ∈ setAdd k s.collected, x ∈ ingredientKeys := by
    intro x hx
    rcases (mem_setAdd x k s.collected).1 hx with h | h
    · exact hs.sub x h
    · rw [h]; exact hk
  have htaken : ∀ ing ∈ markTaken k s.INGREDIENTS,
      ing.taken = true ↔ ing.key ∈ setAdd k s.collected := by
    intro ing hing
    rw [mem_setAdd]
    rcases markTaken_mem k s.INGREDIENTS (by rw [hs.keys]; exact ingredientKeys_nodup) ing hing
      with h | h
    · rw [hs.taken ing h.1]
      exact ⟨Or.inl, fun h' => h'.resolve_right h.2⟩
    · exact ⟨fun _ => Or.inr h.1, fun _ => h.2⟩
  have hlenI : (markTaken k s.INGREDIENTS).length = s.INGREDIENTS.length := by
    rw [← List.length_map (markTaken k s.INGREDIENTS) Ingredient.key, markTaken_keys,
      List.length_map]
  unfold pickupStep
  simp only
  split_ifs with hlen
  · exact spawnHouseEntrance_goalInv _ hkeys hn hsub htaken hlen hs.worldY
  · refine ⟨hkeys, hn, hsub, htaken, ?_, hs.worldY⟩
    constructor
    · intro hsp
      exfalso
      apply hlen
      show (setAdd k s.collected).length = (markTaken k s.INGREDIENTS).length
      rw [setAdd_of_mem k _ (goalInv_full hs hsp k hk), hlenI]
      exact hs.spawned.1 hsp
    · intro h; exact absurd h hlen

theorem pickupLoop_cons (slot : Slot) (rest : List Slot) (s : Game) :
    pickupLoop (slot :: rest) s =
      if slotHit s slot then
        (takeSlot slot :: (pickupLoop rest (pickupStep slot.key s)).1,
          (pickupLoop rest (pickupStep slot.key s)).2)
      else (slot :: (pickupLoop rest s).1, (pickupLoop rest s).2) := by
  rfl

theorem slotHit_pickupStep (k : String) (s : Game) (slot : Slot) :
    slotHit (pickupStep k s) slot ↔ slotHit s slot := by
  unfold slotHit; rw [(pickupStep_fields k s).1]

theorem pickupLoop_fields (slots : List Slot) :
    ∀ s : Game, (pickupLoop slots s).2.player = s.player ∧
      (pickupLoop slots s).2.cameraY = s.cameraY ∧
      (pickupLoop slots s).2.targetCameraY = s.targetCameraY ∧
      (pickupLoop slots s).2.maxPlayerProgress = s.maxPlayerProgress := by
  induction slots with
  | nil => intro s; exact ⟨rfl, rfl, rfl, rfl⟩
  | cons slot rest ih =>
    intro s
    rw [pickupLoop_cons]
    split_ifs
    · obtain ⟨h1, h2, h3, h4⟩ := ih (pickupStep slot.key s)
      obtain ⟨g1, g2, g3, g4, _⟩ := pickupStep_fields slot.key s
      exact ⟨h1.trans g1, h2.trans g2, h3.trans g3, h4.trans g4⟩
    · exact ih s

theorem pickupLoop_house (slots : List Slot) :
    ∀ s : Game, s.house.entranceSpawned = true →
      (pickupLoop slots s).2.house = s.house ∧
      (pickupLoop slots s).2.houseEntrance = s.houseEntrance ∧
      (pickupLoop slots s).2.gameWorldTop = s.gameWorldTop := by
  induction slots with
  | nil => intro s _; exact ⟨rfl, rfl, rfl⟩
  | cons slot rest ih =>
    intro s h
    rw [pickupLoop_cons]
    split_ifs
    · obtain ⟨g1, g2, g3⟩ := pickupStep_house slot.key s h
      obtain ⟨h1, h2, h3⟩ := ih (pickupStep slot.key s) (by rw [g1]; exact h)
      exact ⟨h1.trans g1, h2.trans g2, h3.trans g3⟩
    · exact ih s h

theorem pickupLoop_goalInv (slots : List Slot) :
    ∀ s : Game, slotKeysOk slots → GoalInv s → GoalInv (pickupLoop slots s).2 := by
  induction slots with
  | nil => intro s _ hs; exact hs
  | cons slot rest ih =>
    intro s hk hs
    have hrest : slotKeysOk rest := fun x hx => hk x (List.mem_cons_of_mem _ hx)
    rw [pickupLoop_cons]
    split_ifs
    · exact ih _ hrest (pickupStep_goalInv slot.key s hs (hk slot (List.mem_cons_self _ _)))
    · exact ih s hrest hs

/-- The slots as `checkIngredientPickup` leaves them: the slots that pass the test
are taken, the others are as they were. -/
theorem pickupLoop_slots (slots : List Slot) :
    ∀ s : Game, (pickupLoop slots s).1 =
      slots.map fun slot => if slotHit s slot then takeSlot slot else slot := by
  induction slots with
  | nil => intro s; rfl
  | cons slot rest ih =>
    intro s
    rw [pickupLoop_cons]
    split_ifs with h
    · simp only [List.map_cons, if_pos h, ih, slotHit_pickupStep]
    · simp only [List.map_cons, if_neg h, ih]

/-- The keys in `collected` after `checkIngredientPickup`: those that were there and
those of the slots that pass the test. -/
theorem pickupLoop_collected (slots : List Slot) :
    ∀ (s : Game) (k : String), k ∈ (pickupLoop slots s).2.collected ↔
      k ∈ s.collected ∨ ∃ slot ∈ slots, slotHit s slot ∧ slot.key = k := by
  induction slots with
  | nil => intro s k; simp [pickupLoop]
  | cons slot rest ih =>
    intro s k
    rw [pickupLoop_cons]
    split_ifs with h
    · simp only [ih, slotHit_pickupStep, (pickupStep_fields slot.key s).2.2.2.2.1, mem_setAdd,
        List.mem_cons, exists_eq_or_imp]
      constructor
      · rintro ((h1 | h1) | h1)
        · exact Or.inl h1
        · exact Or.inr (Or.inl ⟨h, h1.symm⟩)
        · exact Or.inr (Or.inr h1)
      · rintro (h1 | h1 | h1)
        · exact Or.inl (Or.inl h1)
        · exact Or.inl (Or.inr h1.2.symm)
        · exact Or.inr h1
    · simp only [ih, List.mem_cons, exists_eq_or_imp]
      constructor
      · rintro (h1 | h1)
        · exact Or.inl h1
        · exact Or.inr (Or.inr h1)
      · rintro (h1 | h1 | h1)
        · exact Or.inl h1
        · exact absurd h1.1 h
        · exact Or.inr h1

theorem slotKeysOk_map_take (slots : List Slot) (p : Slot → Prop) [DecidablePred p]
    (h : slotKeysOk slots) :
    slotKeysOk (slots.map fun slot => if p slot then takeSlot slot else slot) := by
  intro slot hs
  obtain ⟨x, hx, rfl⟩ := List.mem_map.1 hs
  split_ifs
  · exact h x hx
  · exact h x hx

theorem checkIngredientPickup_eq (s : Game) :
    checkIngredientPickup s =
      { (pickupLoop s.ingredientPositions s).2 with
        ingredientPositions := (pickupLoop s.ingredientPositions s).1 } := rfl

theorem checkIngredientPickup_questInv (s : Game) (hs : QuestInv s) :
    QuestInv (checkIngredientPickup s) := by
  rw [checkIngredientPickup_eq]
  refine ⟨@goalInv_congr (pickupLoop s.ingredientPositions s).2 _ rfl
    (pickupLoop_goalInv s.ingredientPositions s hs.2 hs.1), ?_⟩
  show slotKeysOk (pickupLoop s.ingredientPositions s).1
  rw [pickupLoop_slots]
  exact slotKeysOk_map_take _ _ hs.2

/-! ### Player input -/

theorem handlePlayerInput_eq (key : String) (s : Game) :
    handlePlayerInput key s =
      if s.hopCooldown > 0 then s
      else checkHouseEntry (checkIngredientPickup (movePlayer key s)) := rfl

theorem goalInv_of_fields {s t : Game} (hI : t.INGREDIENTS = s.INGREDIENTS)
    (hc : t.collected = s.collected) (hh : t.house = s.house) (hs : GoalInv s) :
    GoalInv t :=
  ⟨by rw [hI]; exact hs.keys, by rw [hc]; exact hs.nodup, by rw [hc]; exact hs.sub,
    by rw [hI, hc]; exact hs.taken, by rw [hI, hc, hh]; exact hs.spawned,
    by rw [hh]; exact hs.worldY⟩

theorem movePlayer_book (key : String) (s : Game) :
    (movePlayer key s).INGREDIENTS = s.INGREDIENTS ∧
    (movePlayer key s).collected = s.collected ∧
    (movePlayer key s).house = s.house ∧
    (movePlayer key s).houseEntrance = s.houseEntrance ∧
    (movePlayer key s).gameWorldTop = s.gameWorldTop ∧
    (movePlayer key s).ingredientPositions = s.ingredientPositions ∧
    (movePlayer key s).cameraY = s.cameraY := by
  unfold movePlayer updateCameraTarget
  simp only
  split_ifs <;> exact ⟨rfl, rfl, rfl, rfl, rfl, rfl, rfl⟩

/-- The move either leaves the record of progress and the camera target alone, or
sets a new record and puts the target at `maxPlayerProgress * TILE - 0.7 * H`. -/
theorem movePlayer_camera (key : String) (s : Game) :
    ((movePlayer key s).maxPlayerProgress = s.maxPlayerProgress ∧
      (movePlayer key s).targetCameraY = s.targetCameraY) ∨
    ((movePlayer key s).maxPlayerProgress < s.maxPlayerProgress ∧
      (movePlayer key s).targetCameraY =
        (movePlayer key s).maxPlayerProgress * TILE - H * (7 / 10)) := by
  unfold movePlayer updateCameraTarget
  simp only
  split_ifs with h1 h2
  · exact Or.inr ⟨h2, rfl⟩
  all_goals exact Or.inl ⟨rfl, rfl⟩

theorem checkHouseEntry_player (s : Game) : (checkHouseEntry s).player = s.player := by
  unfold checkHouseEntry enterHouse
  split_ifs <;> rfl

theorem movePlayer_questInv (key : String) (s : Game) (hs : QuestInv s) :
    QuestInv (movePlayer key s) := by
  obtain ⟨h1, h2, h3, _, _, h6, _⟩ := movePlayer_book key s
  exact ⟨goalInv_of_fields h1 h2 h3 hs.1, by rw [h6]; exact hs.2⟩

theorem handlePlayerInput_questInv (key : String) (s : Game) (hs : QuestInv s) :
    QuestInv (handlePlayerInput key s) := by
  rw [handlePlayerInput_eq]
  split_ifs
  · exact hs
  · exact questInv_congr (checkHouseEntry_questView _)
      (checkIngredientPickup_questInv _ (movePlayer_questInv key s hs))

/-! ### The testing shortcuts -/

theorem mem_foldl_setAdd (x : String) (l : List Ingredient) :
    ∀ c : List String, x ∈ l.foldl (fun c ing => setAdd ing.key c) c ↔
      x ∈ c ∨ x ∈ l.map Ingredient.key := by
  induction l with
  | nil => intro c; simp
  | cons a rest ih =>
    intro c
    rw [List.foldl_cons, ih, mem_setAdd, List.map_cons, List.mem_cons]
    constructor
    · rintro ((h | h) | h)
      · exact Or.inl h
      · exact Or.inr (Or.inl h)
      · exact Or.inr (Or.inr h)
    · rintro (h | h | h)
      · exact Or.inl (Or.inl h)
      · exact Or.inl (Or.inr h)
      · exact Or.inr h

theorem nodup_foldl_setAdd (l : List Ingredient) :
    ∀ c : List String, c.Nodup → (l.foldl (fun c ing => setAdd ing.key c) c).Nodup := by
  induction l with
  | nil => intro c h; exact h
  | cons a rest ih => intro c h; exact ih _ (nodup_setAdd _ _ h)

/-- After the loop `collectAll` the call of `spawnHouseEntrance` leaves a consistent
bookkeeping, whatever happened to the other fields in between. -/
theorem collectAll_spawn_goalInv (s t : Game) (hs : GoalInv s)
    (hI : t.INGREDIENTS = (collectAll s).INGREDIENTS)
    (hc : t.collected = (collectAll s).collected) (hh : t.house = s.house) :
    GoalInv (spawnHouseEntrance t) := by
  have hkeys : t.INGREDIENTS.map Ingredient.key = ingredientKeys := by
    rw [hI]
    unfold collectAll
    simp only [List.map_map]
    exact hs.keys
  have hn : t.collected.Nodup := by
    rw [hc]; exact nodup_foldl_setAdd _ _ hs.nodup
  have hmem : ∀ x, x ∈ t.collected ↔ x ∈ ingredientKeys := by
    intro x
    rw [hc]
    unfold collectAll
    simp only
    rw [mem_foldl_setAdd, hs.keys]
    exact ⟨fun h => h.elim (hs.sub x) id, Or.inr⟩
  apply spawnHouseEntrance_goalInv _ hkeys hn (fun k hk => (hmem k).1 hk)
  · intro ing hing
    have hk : ing.key ∈ t.collected :=
      (hmem _).2 (by rw [← hkeys]; exact List.mem_map_of_mem _ hing)
    refine ⟨fun _ => hk, fun _ => ?_⟩
    rw [hI] at hing
    unfold collectAll at hing
    obtain ⟨a, _, rfl⟩ := List.mem_map.1 hing
    rfl
  · rw [length_of_full hn ingredientKeys_nodup (fun k hk => (hmem k).1 hk)
      (fun k hk => (hmem k).2 hk), ← hkeys, List.length_map]
  · rw [hh]; exact hs.worldY

theorem teleportToHouseForTesting_questInv (s : Game) (hs : QuestInv s) :
    QuestInv (teleportToHouseForTesting s) := by
  refine ⟨@goalInv_of_fields (spawnHouseEntrance (collectAll s)) _ rfl rfl rfl
    (collectAll_spawn_goalInv s _ hs.1 rfl rfl rfl), ?_⟩
  show slotKeysOk (spawnHouseEntrance (collectAll s)).ingredientPositions
  rw [(spawnHouseEntrance_book _).2.2.1]
  exact hs.2

theorem completeAllIngredients_questInv (s : Game) (hs : QuestInv s) :
    QuestInv (completeAllIngredients s) := by
  unfold completeAllIngredients
  simp only
  refine ⟨collectAll_spawn_goalInv s _ hs.1 rfl rfl rfl, ?_⟩
  rw [(spawnHouseEntrance_book _).2.2.1]
  intro slot hslot
  obtain ⟨x, hx, rfl⟩ := List.mem_map.1 hslot
  exact hs.2 x hx

/-! ### Reset, construction and the events -/

theorem ingredientKeys_length {s : Game}
    (h : s.INGREDIENTS.map Ingredient.key = ingredientKeys) : s.INGREDIENTS.length = 6 := by
  rw [← List.length_map s.INGREDIENTS Ingredient.key, h]; rfl

theorem resetGame_questInv (ω : Oracle) (s : Game)
    (h : s.INGREDIENTS.map Ingredient.key = ingredientKeys) : QuestInv (resetGame ω s) := by
  unfold resetGame
  simp only
  have hk : (s.INGREDIENTS.map fun ingredient => { ingredient with taken := false }).map
      Ingredient.key = ingredientKeys := by
    simp only [List.map_map]; exact h
  refine ⟨goalInv_congr (spawnIngredients_goalView ω _) ⟨hk, List.nodup_nil,
    fun _ hx => absurd hx (List.not_mem_nil _), ?_, ?_, ?_⟩,
    spawnIngredients_slotKeys ω _ hk⟩
  · intro ing hing
    obtain ⟨a, _, rfl⟩ := List.mem_map.1 hing
    exact ⟨fun hf => (by cases hf), fun hx => absurd hx (List.not_mem_nil _)⟩
  · refine ⟨fun hf => (by cases hf), fun hl => ?_⟩
    have := ingredientKeys_length h
    simp only [List.length_nil, List.length_map] at hl
    omega
  · exact ⟨fun hf => (by cases hf), fun hf => (by cases hf)⟩

theorem newGame_questInv (ω : Oracle) : QuestInv (newGame ω) := by
  unfold newGame
  refine ⟨goalInv_congr (spawnIngredients_goalView ω _) ⟨rfl, List.nodup_nil,
    fun _ hx => absurd hx (List.not_mem_nil _), ?_, ?_, ?_⟩,
    spawnIngredients_slotKeys ω _ rfl⟩
  · intro ing hing
    refine ⟨fun ht => ?_, fun hx => absurd hx (List.not_mem_nil _)⟩
    simp [constructorFields] at hing
    rcases hing with rfl | rfl | rfl | rfl | rfl | rfl <;> cases ht
  · exact ⟨fun hf => (by cases hf), fun hl => (by cases hl)⟩
  · exact ⟨fun hf => (by cases hf), fun hf => (by cases hf)⟩

theorem startGame_questInv (ω : Oracle) (now : ℚ) (s : Game) (hs : QuestInv s) :
    QuestInv (startGame ω now s) :=
  gameLoop_questInv ω now _ (resetGame_questInv ω _ hs.1.keys)

theorem onKeydown_questInv (ω : Oracle) (key : String) (now : ℚ) (s : Game)
    (hs : QuestInv s) : QuestInv (onKeydown ω key now s) := by
  unfold onKeydown
  split_ifs
  · exact startGame_questInv ω now s hs
  · exact teleportToHouseForTesting_questInv s hs
  · exact completeAllIngredients_questInv s hs
  · exact handlePlayerInput_questInv _ s hs
  · exact questInv_congr (handleBonusInput_questView _ s) hs
  · exact hs

theorem handleEvent_questInv (ω : Oracle) (e : Event) (s : Game) (hs : QuestInv s) :
    QuestInv (handleEvent ω e s) := by
  cases e with
  | keydown key now => exact onKeydown_questInv ω key now s hs
  | frame t => exact gameLoop_questInv ω t s hs
  | startBtn now => exact startGame_questInv ω now s hs
  | restartBtn now => exact startGame_questInv ω now s hs
  | playAgainBtn now => exact startGame_questInv ω now s hs
  | bonusBtn now =>
    show QuestInv (startBonus ω now s)
    unfold startBonus
    exact gameLoop_questInv ω now _ (@questInv_congr s _ rfl hs)
  | backToTitleBtn => exact @questInv_congr s _ rfl hs
  | canvasClick x y => exact questInv_congr (handleCanvasClick_questView x y s) hs

theorem questInv_of_reachable (ω : Oracle) (s : Game) (h : Reachable ω s) : QuestInv s := by
  induction h with
  | init => exact newGame_questInv ω
  | step s e _ ih => exact handleEvent_questInv ω e s ih

theorem runEvents_questInv (ω : Oracle) (evs : List Event) :
    ∀ s : Game, QuestInv s → QuestInv (runEvents ω evs s) := by
  induction evs with
  | nil => intro s hs; exact hs
  | cons e rest ih => intro s hs; exact ih _ (handleEvent_questInv ω e s hs)

/-! ## CameraController: the camera within a run -/

theorem H_pos : (0 : ℚ) < H := by unfold H GRID_H TILE; norm_num

theorem checkIngredientPickup_fields (s : Game) :
    (checkIngredientPickup s).player = s.player ∧
    (checkIngredientPickup s).cameraY = s.cameraY ∧
    (checkIngredientPickup s).targetCameraY = s.targetCameraY ∧
    (checkIngredientPickup s).maxPlayerProgress = s.maxPlayerProgress := by
  rw [checkIngredientPickup_eq]
  exact pickupLoop_fields s.ingredientPositions s

/-- What `checkIngredientPickup` and `checkHouseEntry` leave of the player and the
camera after the move. -/
theorem afterMove_fields (s : Game) :
    (checkHouseEntry (checkIngredientPickup s)).player = s.player ∧
    (checkHouseEntry (checkIngredientPickup s)).cameraY = s.cameraY ∧
    (checkHouseEntry (checkIngredientPickup s)).targetCameraY = s.targetCameraY ∧
    (checkHouseEntry (checkIngredientPickup s)).maxPlayerProgress = s.maxPlayerProgress := by
  obtain ⟨h1, h2, h3, h4⟩ := checkIngredientPickup_fields s
  have hv := goalView_of_questView (checkHouseEntry_questView (checkIngredientPickup s))
  exact ⟨(checkHouseEntry_player _).trans h1, (congrArg GoalView.cameraY hv).trans h2,
    (congrArg GoalView.targetCameraY hv).trans h3,
    (congrArg GoalView.maxPlayerProgress hv).trans h4⟩

theorem handlePlayerInput_camera (key : String) (s : Game) :
    (handlePlayerInput key s).cameraY = s.cameraY ∧
    (((handlePlayerInput key s).maxPlayerProgress = s.maxPlayerProgress ∧
        (handlePlayerInput key s).targetCameraY = s.targetCameraY) ∨
      ((handlePlayerInput key s).maxPlayerProgress < s.maxPlayerProgress ∧
        (handlePlayerInput key s).targetCameraY =
          (handlePlayerInput key s).maxPlayerProgress * TILE - H * (7 / 10))) := by
  rw [handlePlayerInput_eq]
  split_ifs
  · exact ⟨rfl, Or.inl ⟨rfl, rfl⟩⟩
  · obtain ⟨_, h2, h3, h4⟩ := afterMove_fields (movePlayer key s)
    rw [h2, h3, h4]
    exact ⟨(movePlayer_book key s).2.2.2.2.2.2, movePlayer_camera key s⟩

theorem gameLoop_camera (ω : Oracle) (t : ℚ) (s : Game) :
    (gameLoop ω t s).targetCameraY = s.targetCameraY ∧
    (gameLoop ω t s).maxPlayerProgress = s.maxPlayerProgress ∧
    ((gameLoop ω t s).cameraY = s.cameraY ∨
      (gameLoop ω t s).cameraY = s.cameraY + (s.targetCameraY - s.cameraY) * (1 / 10)) := by
  rcases gameLoop_goalView ω t s with h | h
  · exact ⟨congrArg GoalView.targetCameraY h, congrArg GoalView.maxPlayerProgress h,
      Or.inl (congrArg GoalView.cameraY h)⟩
  · exact ⟨congrArg GoalView.targetCameraY h, congrArg GoalView.maxPlayerProgress h,
      Or.inr (congrArg GoalView.cameraY h)⟩

theorem resetGame_camera (ω : Oracle) (s : Game) :
    (resetGame ω s).cameraY = -H * (3 / 10) ∧ (resetGame ω s).targetCameraY = -H * (3 / 10) ∧
    (resetGame ω s).maxPlayerProgress = 0 := by
  unfold resetGame
  simp only
  have hv := spawnIngredients_goalView ω
  exact ⟨congrArg GoalView.cameraY (hv _), congrArg GoalView.targetCameraY (hv _),
    congrArg GoalView.maxPlayerProgress (hv _)⟩

theorem cameraInv_input (key : String) (s : Game) (hs : cameraInv s) :
    cameraInv (handlePlayerInput key s) ∧
    (handlePlayerInput key s).targetCameraY ≤ s.targetCameraY := by
  obtain ⟨hc, h | h⟩ := handlePlayerInput_camera key s
  · unfold cameraInv
    rw [hc, h.1, h.2]
    exact ⟨hs, le_refl _⟩
  · have hlt : ((handlePlayerInput key s).maxPlayerProgress : ℚ) < s.maxPlayerProgress := by
      exact_mod_cast h.1
    have hle : (handlePlayerInput key s).targetCameraY ≤ s.targetCameraY := by
      rw [h.2]
      have := mul_lt_mul_of_pos_right hlt TILE_pos
      linarith [hs.1]
    unfold cameraInv
    rw [hc]
    exact ⟨⟨by rw [h.2], le_trans hle hs.2⟩, hle⟩

theorem cameraInv_lerp (s t : Game) (hs : cameraInv s)
    (ht : t.targetCameraY = s.targetCameraY) (hm : t.maxPlayerProgress = s.maxPlayerProgress)
    (hc : t.cameraY = s.cameraY ∨
      t.cameraY = s.cameraY + (s.targetCameraY - s.cameraY) * (1 / 10)) :
    cameraInv t ∧ t.cameraY ≤ s.cameraY := by
  unfold cameraInv
  rw [ht, hm]
  rcases hc with hc | hc
  · rw [hc]; exact ⟨hs, le_refl _⟩
  · rw [hc]
    have := hs.2
    exact ⟨⟨hs.1, by linarith⟩, by linarith⟩

theorem cameraInv_of_playRun (ω : Oracle) (s : Game) (h : PlayRun ω s) : cameraInv s := by
  induction h with
  | reset s =>
    obtain ⟨h1, h2, h3⟩ := resetGame_camera ω s
    unfold cameraInv
    rw [h1, h2, h3]
    have := H_pos
    constructor
    · push_cast; linarith
    · exact le_refl _
  | input s key _ ih => exact (cameraInv_input key s ih).1
  | camera s _ ih => exact (cameraInv_lerp s (updateCamera s) ih rfl rfl (Or.inr rfl)).1
  | frame s t _ ih =>
    obtain ⟨h1, h2, h3⟩ := gameLoop_camera ω t s
    exact (cameraInv_lerp s _ ih h1 h2 h3).1

/-- C14: in every state of a run (from `resetGame`, under `handlePlayerInput`,
`updateCamera` and whole frames) `targetCameraY ≤ cameraY` holds; from such a state no
input, camera step or frame increases `targetCameraY` or `cameraY`; and an input that
sets a new forward record (a smaller `maxPlayerProgress`) leaves `targetCameraY` equal
to `maxPlayerProgress * TILE - 0.7 * H`. -/
theorem camera_never_retreats (ω : Oracle) (s : Game) (h : PlayRun ω s) :
    s.targetCameraY ≤ s.cameraY ∧
    (∀ key : String,
      (handlePlayerInput key s).targetCameraY ≤ s.targetCameraY ∧
      (handlePlayerInput key s).cameraY ≤ s.cameraY ∧
      ((handlePlayerInput key s).maxPlayerProgress < s.maxPlayerProgress →
        (handlePlayerInput key s).targetCameraY =
          (handlePlayerInput key s).maxPlayerProgress * TILE - H * (7 / 10))) ∧
    ((updateCamera s).targetCameraY ≤ s.targetCameraY ∧ (updateCamera s).cameraY ≤ s.cameraY) ∧
    (∀ currentTime : ℚ,
      (gameLoop ω currentTime s).targetCameraY ≤ s.targetCameraY ∧
      (gameLoop ω currentTime s).cameraY ≤ s.cameraY) := by
  have hs := cameraInv_of_playRun ω s h
  refine ⟨hs.2, fun key => ?_, ?_, fun t => ?_⟩
  · obtain ⟨hc, hcase⟩ := handlePlayerInput_camera key s
    refine ⟨(cameraInv_input key s hs).2, le_of_eq hc, fun hlt => ?_⟩
    rcases hcase with h' | h'
    · rw [h'.1] at hlt; exact absurd hlt (lt_irrefl _)
    · exact h'.2
  · exact ⟨le_refl _, (cameraInv_lerp s (updateCamera s) hs rfl rfl (Or.inr rfl)).2⟩
  · obtain ⟨h1, h2, h3⟩ := gameLoop_camera ω t s
    exact ⟨le_of_eq h1, (cameraInv_lerp s _ hs h1 h2 h3).2⟩

/-- C14 on a run with two hops forward: the second hop set the record -2 and the
target `-2 * TILE - 0.7 * H`, and the camera is behind its target. -/
theorem camera_never_retreats_witness :
    PlayRun quietOracle cameraScene ∧ cameraScene.maxPlayerProgress = -2 ∧
      cameraScene.targetCameraY = -2 * TILE - H * (7 / 10) ∧
      cameraScene.targetCameraY < cameraScene.cameraY ∧
      (handlePlayerInput "w" cameraScene).targetCameraY ≤ cameraScene.targetCameraY :=
  have hrun : PlayRun quietOracle cameraScene :=
    PlayRun.input _ _ (PlayRun.frame _ _ (PlayRun.frame _ _ (PlayRun.frame _ _
      (PlayRun.input _ _ (PlayRun.reset _)))))
  ⟨hrun, by decide!, by decide!, by decide!,
    ((camera_never_retreats quietOracle cameraScene hrun).2.1 "w").1⟩

/-! ## The claims on the bookkeeping -/

/-- C15: in every reachable state (the constructed object and whatever the events make
of it, through `resetGame`, `checkIngredientPickup`, `respawnMissingIngredients`,
`completeAllIngredients` and `teleportToHouseForTesting`) the size of `collected` is
the number of entries of `INGREDIENTS` with `taken = true`. -/
theorem collected_size_eq_taken (ω : Oracle) (s : Game) (h : Reachable ω s) :
    s.collected.length = s.INGREDIENTS.countP fun ing => ing.taken :=
  goalInv_count (questInv_of_reachable ω s h).1

theorem shortcutScene_reachable (key : String) : Reachable quietOracle (shortcutScene key) :=
  Reachable.step _ (Event.keydown key 0)
    (Reachable.step _ (Event.startBtn 0) (@Reachable.init quietOracle))

/-- C15 after a start and the shortcut `c`: all six are collected and taken. -/
theorem collected_size_eq_taken_witness :
    Reachable quietOracle (shortcutScene "c") ∧ (shortcutScene "c").collected.length = 6 ∧
      (shortcutScene "c").collected.length =
        (shortcutScene "c").INGREDIENTS.countP fun ing => ing.taken :=
  ⟨shortcutScene_reachable "c", by decide!,
    collected_size_eq_taken quietOracle _ (shortcutScene_reachable "c")⟩

/-- C20: in every reachable state `house.worldY` is set exactly when
`house.entranceSpawned` is true. -/
theorem house_worldY_iff_spawned (ω : Oracle) (s : Game) (h : Reachable ω s) :
    s.house.worldY ≠ none ↔ s.house.entranceSpawned = true := by
  rw [← (questInv_of_reachable ω s h).1.worldY, Option.ne_none_iff_isSome]

/-- C20 after a start and the shortcut `t`: the goal zone is spawned and `house.worldY`
is -18. -/
theorem house_worldY_iff_spawned_witness :
    Reachable quietOracle (shortcutScene "t") ∧
      (shortcutScene "t").house.worldY = some (-18) ∧
      ((shortcutScene "t").house.worldY ≠ none ↔
        (shortcutScene "t").house.entranceSpawned = true) :=
  ⟨shortcutScene_reachable "t", by decide!,
    house_worldY_iff_spawned quietOracle _ (shortcutScene_reachable "t")⟩

/-! ### The goal zone is spawned once in a run -/

theorem handlePlayerInput_house (key : String) (s : Game)
    (hsp : s.house.entranceSpawned = true) : (handlePlayerInput key s).house = s.house := by
  rw [handlePlayerInput_eq]
  split_ifs
  · rfl
  · have hm := (movePlayer_book key s).2.2.1
    have hv : (checkHouseEntry (checkIngredientPickup (movePlayer key s))).house =
        (checkIngredientPickup (movePlayer key s)).house :=
      congrArg GoalView.house (goalView_of_questView (checkHouseEntry_questView _))
    rw [hv, checkIngredientPickup_eq]
    exact ((pickupLoop_house _ (movePlayer key s) (by rw [hm]; exact hsp)).1).trans hm

/-- An event that does not restart leaves a spawned goal zone as it is. -/
theorem handleEvent_house (ω : Oracle) (e : Event) (s : Game) (hr : restarts e s = false)
    (hsp : s.house.entranceSpawned = true) : (handleEvent ω e s).house = s.house := by
  cases e with
  | keydown key now =>
    show (onKeydown ω key now s).house = s.house
    have hr' : ¬ (s.gameState = GameState.title ∧ (key = " " ∨ key = "Enter")) := by
      simpa [restarts] using hr
    unfold onKeydown
    rw [if_neg hr']
    split_ifs
    · show (spawnHouseEntrance (collectAll s)).house = s.house
      rw [spawnHouseEntrance_of_spawned (collectAll s) hsp]; rfl
    · unfold completeAllIngredients
      simp only
      refine (congrArg Game.house (spawnHouseEntrance_of_spawned _ ?_)).trans rfl
      exact hsp
    · exact handlePlayerInput_house _ s hsp
    · exact congrArg GoalView.house (goalView_of_questView (handleBonusInput_questView _ s))
    · rfl
  | frame t =>
    rcases gameLoop_goalView ω t s with h | h
    · exact congrArg GoalView.house h
    · exact congrArg GoalView.house h
  | startBtn now => cases hr
  | restartBtn now => cases hr
  | playAgainBtn now => cases hr
  | bonusBtn now =>
    show (startBonus ω now s).house = s.house
    unfold startBonus
    rcases gameLoop_goalView ω now { s with
      gameState := GameState.bonus, gameRunning := true, bonusTimer := 30, bonusRings := [],
      bonusPlayer := ⟨W / 2, H / 2⟩, ringSpawnTimer := 0 } with h | h
    · exact congrArg GoalView.house h
    · exact congrArg GoalView.house h
  | backToTitleBtn => rfl
  | canvasClick x y =>
    exact congrArg GoalView.house (goalView_of_questView (handleCanvasClick_questView x y s))

theorem spawnCount_add (ω : Oracle) (evs : List Event) :
    ∀ s : Game, sameRun ω evs s = true →
      spawnCount ω evs s + (if s.house.entranceSpawned = true then 1 else 0) =
        if (runEvents ω evs s).house.entranceSpawned = true then 1 else 0 := by
  induction evs with
  | nil => intro s _; simp [spawnCount, runEvents]
  | cons e rest ih =>
    intro s hrun
    simp only [sameRun, Bool.and_eq_true, Bool.not_eq_true'] at hrun
    have hrec := ih (handleEvent ω e s) hrun.2
    simp only [spawnCount, runEvents]
    rw [← hrec]
    by_cases hsp : s.house.entranceSpawned = true
    · have hh := handleEvent_house ω e s hrun.1 hsp
      simp [hh, hsp]
    · have hsp' : s.house.entranceSpawned = false := by simpa using hsp
      by_cases hsp2 : (handleEvent ω e s).house.entranceSpawned = true
      · simp [hsp', hsp2]; omega
      · simp [hsp', hsp2]

theorem resetGame_house (ω : Oracle) (s : Game) :
    (resetGame ω s).house.entranceSpawned = false := by
  unfold resetGame
  simp only
  exact congrArg (fun g => g.house.entranceSpawned) (spawnIngredients_goalView ω _)

/-- C18: in every state of a run (a state that events which do not restart reach from
`resetGame`, the object carrying the six ingredients) `collected.size` equals
`INGREDIENTS.length` exactly when `house.entranceSpawned` is true, and the number of
events of the run that spawned the goal zone is 1 in that case and 0 otherwise. -/
theorem goal_spawned_once (ω : Oracle) (s : Game) (evs : List Event)
    (hk : s.INGREDIENTS.map Ingredient.key = ingredientKeys)
    (hrun : sameRun ω evs (resetGame ω s) = true) :
    ((runEvents ω evs (resetGame ω s)).collected.length =
        (runEvents ω evs (resetGame ω s)).INGREDIENTS.length ↔
      (runEvents ω evs (resetGame ω s)).house.entranceSpawned = true) ∧
    spawnCount ω evs (resetGame ω s) =
      if (runEvents ω evs (resetGame ω s)).house.entranceSpawned = true then 1 else 0 := by
  refine ⟨(runEvents_questInv ω evs _ (resetGame_questInv ω s hk)).1.spawned.symm, ?_⟩
  have h := spawnCount_add ω evs (resetGame ω s) hrun
  rw [resetGame_house] at h
  simpa using h

/-- C18 on a run that ends with the shortcut `t` and a frame: the goal zone was
spawned once, and all six ingredients are collected. -/
theorem goal_spawned_once_witness :
    sameRun quietOracle [Event.frame 40, Event.keydown "t" 50, Event.frame 80]
        (resetGame quietOracle playFields) = true ∧
      spawnCount quietOracle [Event.frame 40, Event.keydown "t" 50, Event.frame 80]
        (resetGame quietOracle playFields) = 1 ∧
      (runEvents quietOracle [Event.frame 40, Event.keydown "t" 50, Event.frame 80]
        (resetGame quietOracle playFields)).collected.length = 6 ∧
      spawnCount quietOracle [Event.frame 40, Event.keydown "t" 50, Event.frame 80]
          (resetGame quietOracle playFields) =
        if (runEvents quietOracle [Event.frame 40, Event.keydown "t" 50, Event.frame 80]
          (resetGame quietOracle playFields)).house.entranceSpawned = true then 1 else 0 :=
  ⟨by decide!, by decide!, by decide!,
    (goal_spawned_once quietOracle playFields
      [Event.frame 40, Event.keydown "t" 50, Event.frame 80] rfl (by decide!)).2⟩

/-! ### The slots and the collected set -/

/-- C16, failing run: after the start button and the shortcut `t` every key is in
`collected`, yet the slots on the map are still untaken; the state is reachable and
the slot of the tofu contradicts the claimed equivalence. -/
theorem teleport_leaves_slots_untaken :
    Reachable quietOracle (shortcutScene "t") ∧
      (∃ slot ∈ (shortcutScene "t").ingredientPositions,
        slot.taken = false ∧ slot.key ∈ (shortcutScene "t").collected) ∧
      ¬ ∀ slot ∈ (shortcutScene "t").ingredientPositions,
        (slot.taken = true ↔ slot.key ∈ (shortcutScene "t").collected) :=
  ⟨shortcutScene_reachable "t", by decide!, by decide!⟩

/-- C17, counterexample: the player at column 7.3 hops onto row -5; the untaken slot
at column 7 of that row is not at the player's position (7.3, -5), yet the hop takes
it and adds its key to `collected`. -/
theorem pickup_exact_position_counterexample :
    fracScene.hopCooldown = 0 ∧
      ∃ slot ∈ fracScene.ingredientPositions, slot.taken = false ∧
        ¬ (((⌊(slot.gx : ℚ)⌋ : ℤ) : ℚ) = (handlePlayerInput "w" fracScene).player.gridX ∧
            slot.gy = (handlePlayerInput "w" fracScene).player.worldY) ∧
        slot ∉ (handlePlayerInput "w" fracScene).ingredientPositions ∧
        slot.key ∉ fracScene.collected ∧
        slot.key ∈ (handlePlayerInput "w" fracScene).collected := by
  decide!

/-- C17, amended: for a state with `hopCooldown = 0` and every key, after
`handlePlayerInput` the slots are the slots before with exactly those taken that were
untaken and have `gx = floor(player.gridX)` and `gy = player.worldY` for the player
after the move, and a key is in `collected` exactly when it was there before or is
the key of such a slot. -/
theorem handlePlayerInput_pickup (key : String) (s : Game) (h : s.hopCooldown = 0) :
    (handlePlayerInput key s).ingredientPositions =
      (s.ingredientPositions.map fun slot =>
        if slotHit (handlePlayerInput key s) slot then takeSlot slot else slot) ∧
    ∀ k : String, k ∈ (handlePlayerInput key s).collected ↔
      k ∈ s.collected ∨
        ∃ slot ∈ s.ingredientPositions, slotHit (handlePlayerInput key s) slot ∧ slot.key = k := by
  have hp : (handlePlayerInput key s).player = (movePlayer key s).player := by
    rw [handlePlayerInput_eq, if_neg (by rw [h]; exact lt_irrefl _)]
    exact (afterMove_fields _).1
  have hhit : ∀ slot, slotHit (handlePlayerInput key s) slot ↔ slotHit (movePlayer key s) slot := by
    intro slot; unfold slotHit; rw [hp]
  have hq := checkHouseEntry_questView (checkIngredientPickup (movePlayer key s))
  obtain ⟨_, hc, _, _, _, hs, _⟩ := movePlayer_book key s
  constructor
  · simp only [hhit]
    rw [handlePlayerInput_eq, if_neg (by rw [h]; exact lt_irrefl _), slots_of_questView hq,
      checkIngredientPickup_eq]
    show (pickupLoop (movePlayer key s).ingredientPositions (movePlayer key s)).1 = _
    rw [pickupLoop_slots, hs]
  · intro k
    simp only [hhit]
    have hcol : (checkHouseEntry (checkIngredientPickup (movePlayer key s))).collected =
        (checkIngredientPickup (movePlayer key s)).collected :=
      congrArg GoalView.collected (goalView_of_questView hq)
    rw [handlePlayerInput_eq, if_neg (by rw [h]; exact lt_irrefl _), hcol,
      checkIngredientPickup_eq]
    show k ∈ (pickupLoop (movePlayer key s).ingredientPositions (movePlayer key s)).2.collected ↔ _
    rw [pickupLoop_collected, hs, hc]

/-- C17 on a hop onto the slot at (7, -5): that slot is taken and its key collected,
the slot at (3, -9) is as it was. -/
theorem handlePlayerInput_pickup_witness :
    pickScene.hopCooldown = 0 ∧
      (handlePlayerInput "w" pickScene).collected = ["tofu"] ∧
      (handlePlayerInput "w" pickScene).ingredientPositions =
        (pickScene.ingredientPositions.map fun slot =>
          if slotHit (handlePlayerInput "w" pickScene) slot then takeSlot slot else slot) :=
  ⟨rfl, by decide!, (handlePlayerInput_pickup "w" pickScene rfl).1⟩

/-! ## SceneStateMachine: the phases of the home scene -/

/-- C22: for every state and every `dt`, `updateHomeInterior` keeps `animationPhase`
or moves it to the next phase of the order fadeIn, playerWalk, approach, hearts,
showButton, so the phase never moves back; from `showButton` it stays in `showButton`;
it never changes `gameState`; and `handleCanvasClick` leaves `gameState` alone unless
the scene is `homeInterior` in phase `showButton`, where it may move to `tofuSoup`. -/
theorem updateHomeInterior_phase (ω : Oracle) (dt : ℚ) (s : Game) :
    ((updateHomeInterior ω dt s).homeInterior.animationPhase = s.homeInterior.animationPhase ∨
      (updateHomeInterior ω dt s).homeInterior.animationPhase =
        nextHomePhase s.homeInterior.animationPhase) ∧
    homePhaseRank s.homeInterior.animationPhase ≤
      homePhaseRank (updateHomeInterior ω dt s).homeInterior.animationPhase ∧
    (s.homeInterior.animationPhase = HomePhase.showButton →
      (updateHomeInterior ω dt s).homeInterior.animationPhase = HomePhase.showButton) ∧
    (updateHomeInterior ω dt s).gameState = s.gameState ∧
    (∀ x y : ℚ, (handleCanvasClick x y s).gameState = s.gameState ∨
      (s.gameState = GameState.homeInterior ∧
        s.homeInterior.animationPhase = HomePhase.showButton ∧
        (handleCanvasClick x y s).gameState = GameState.tofuSoup)) := by
  have hstep : (updateHomeInterior ω dt s).homeInterior.animationPhase =
        s.homeInterior.animationPhase ∨
      (updateHomeInterior ω dt s).homeInterior.animationPhase =
        nextHomePhase s.homeInterior.animationPhase := by
    unfold updateHomeInterior
    simp only
    split <;> rename_i hp <;> simp only [hp, nextHomePhase] <;> split_ifs <;>
      first | exact Or.inl rfl | exact Or.inr rfl
  have hgs : (updateHomeInterior ω dt s).gameState = s.gameState := by
    unfold updateHomeInterior
    simp only
    split <;> split_ifs <;> rfl
  refine ⟨hstep, ?_, ?_, hgs, ?_⟩
  · rcases hstep with h | h
    · rw [h]
    · rw [h]; cases s.homeInterior.animationPhase <;> decide
  · intro hp
    rcases hstep with h | h
    · rw [h, hp]
    · rw [h, hp]; rfl
  · intro x y
    unfold handleCanvasClick
    split
    · split_ifs with h1 h2
      · exact Or.inr ⟨h1.1, h1.2, rfl⟩
      · exact Or.inl rfl
      · exact Or.inl rfl
    · exact Or.inl rfl

/-- C22 on the `showButton` phase: a frame of 40 ms stays in `showButton`, and a click
inside the button moves the game to the soup scene. -/
theorem updateHomeInterior_phase_witness :
    buttonScene.homeInterior.animationPhase = HomePhase.showButton ∧
      (updateHomeInterior quietOracle 40 buttonScene).homeInterior.animationPhase =
        HomePhase.showButton ∧
      (handleCanvasClick 240 570 buttonScene).gameState = GameState.tofuSoup :=
  ⟨rfl, (updateHomeInterior_phase quietOracle 40 buttonScene).2.2.1 rfl, by decide!⟩

/-! ## The hop cooldown -/

theorem pickupStep_hopCooldown (k : String) (s : Game) :
    (pickupStep k s).hopCooldown = s.hopCooldown ∧ (pickupStep k s).gameState = s.gameState := by
  unfold pickupStep spawnHouseEntrance
  simp only
  split_ifs <;> exact ⟨rfl, rfl⟩

theorem pickupLoop_hopCooldown (slots : List Slot) :
    ∀ s : Game, (pickupLoop slots s).2.hopCooldown = s.hopCooldown ∧
      (pickupLoop slots s).2.gameState = s.gameState := by
  induction slots with
  | nil => intro s; exact ⟨rfl, rfl⟩
  | cons slot rest ih =>
    intro s
    rw [pickupLoop_cons]
    split_ifs
    · obtain ⟨h1, h2⟩ := ih (pickupStep slot.key s)
      obtain ⟨g1, g2⟩ := pickupStep_hopCooldown slot.key s
      exact ⟨h1.trans g1, h2.trans g2⟩
    · exact ih s

theorem checkHouseEntry_hopCooldown (s : Game) :
    (checkHouseEntry s).hopCooldown = s.hopCooldown := by
  unfold checkHouseEntry enterHouse
  split_ifs <;> rfl

theorem afterMove_hopCooldown (s : Game) :
    (checkHouseEntry (checkIngredientPickup s)).hopCooldown = s.hopCooldown := by
  rw [checkHouseEntry_hopCooldown, checkIngredientPickup_eq]
  exact (pickupLoop_hopCooldown s.ingredientPositions s).1

/-- A move of the player starts the cooldown. -/
theorem movePlayer_hopCooldown (key : String) (s : Game)
    (h : (movePlayer key s).player.gridX ≠ s.player.gridX ∨
      (movePlayer key s).player.worldY ≠ s.player.worldY) :
    (movePlayer key s).hopCooldown = 120 := by
  unfold movePlayer updateCameraTarget at h ⊢
  simp only at h ⊢
  split_ifs at h ⊢
  all_goals first
    | rfl
    | (rcases h with h | h <;> exact absurd rfl h)

/-- C24: while `hopCooldown > 0`, `handlePlayerInput` and `handleBonusInput` return the
state as it is, for every key (so the player, `maxPlayerProgress`, the camera target,
the slots, `collected`, the house, `gameState` and the bonus token are unchanged);
and whenever `handlePlayerInput` changes the player's position or `handleBonusInput`
changes the token's position, `hopCooldown` is 120 afterwards. -/
theorem hopCooldown_gate (key : String) (s : Game) :
    (s.hopCooldown > 0 → handlePlayerInput key s = s ∧ handleBonusInput key s = s) ∧
    (((handlePlayerInput key s).player.gridX ≠ s.player.gridX ∨
        (handlePlayerInput key s).player.worldY ≠ s.player.worldY) →
      (handlePlayerInput key s).hopCooldown = 120) ∧
    ((handleBonusInput key s).bonusPlayer ≠ s.bonusPlayer →
      (handleBonusInput key s).hopCooldown = 120) := by
  refine ⟨fun h => ⟨?_, ?_⟩, ?_, ?_⟩
  · rw [handlePlayerInput_eq, if_pos h]
  · unfold handleBonusInput; rw [if_pos h]
  · rw [handlePlayerInput_eq]
    split_ifs with hc
    · intro h; rcases h with h | h <;> exact absurd rfl h
    · intro h
      rw [(afterMove_fields (movePlayer key s)).1] at h
      rw [afterMove_hopCooldown]
      exact movePlayer_hopCooldown key s h
  · unfold handleBonusInput
    simp only
    split_ifs <;> intro h <;> first | rfl | exact absurd rfl h

/-- C24 on a state 80 ms into a cooldown, where a hop forward is refused, and on the
same state without cooldown, where the hop is made and starts a cooldown of 120. -/
theorem hopCooldown_gate_witness :
    cooldownScene.hopCooldown > 0 ∧ handlePlayerInput "w" cooldownScene = cooldownScene ∧
      (handlePlayerInput "w" pickScene).player.worldY ≠ pickScene.player.worldY ∧
      (handlePlayerInput "w" pickScene).hopCooldown = 120 ∧
      (handleBonusInput "a" bonusScene).bonusPlayer ≠ bonusScene.bonusPlayer ∧
      (handleBonusInput "a" bonusScene).hopCooldown = 120 :=
  ⟨by decide!, ((hopCooldown_gate "w" cooldownScene).1 (by decide!)).1, by decide!,
    (hopCooldown_gate "w" pickScene).2.1 (Or.inr (by decide!)), by decide!,
    (hopCooldown_gate "a" bonusScene).2.2 (by decide!)⟩

/-! ## Reset -/

theorem spawnInitialAttempts_hazards (ω : Oracle) (ing : Ingredient) (i n : ℕ) (s : Game) :
    (spawnInitialAttempts ω ing i n s).vehicles = s.vehicles ∧
    (spawnInitialAttempts ω ing i n s).logs = s.logs ∧
    (spawnInitialAttempts ω ing i n s).gameSpeed = s.gameSpeed ∧
    (spawnInitialAttempts ω ing i n s).player = s.player := by
  induction n generalizing s with
  | zero => exact ⟨rfl, rfl, rfl, rfl⟩
  | succ n ih =>
    unfold spawnInitialAttempts
    simp only [random]
    split_ifs
    · exact ⟨rfl, rfl, rfl, rfl⟩
    · exact ih _
    · exact ih _

theorem spawnInitialFrom_hazards (ω : Oracle) (ings : List Ingredient) :
    ∀ (i : ℕ) (s : Game), (spawnInitialFrom ω ings i s).vehicles = s.vehicles ∧
      (spawnInitialFrom ω ings i s).logs = s.logs ∧
      (spawnInitialFrom ω ings i s).gameSpeed = s.gameSpeed ∧
      (spawnInitialFrom ω ings i s).player = s.player := by
  induction ings with
  | nil => intro i s; exact ⟨rfl, rfl, rfl, rfl⟩
  | cons ing rest ih =>
    intro i s
    obtain ⟨h1, h2, h3, h4⟩ := ih (i + 1) (spawnInitialAttempts ω ing i 100 s)
    obtain ⟨g1, g2, g3, g4⟩ := spawnInitialAttempts_hazards ω ing i 100 s
    exact ⟨h1.trans g1, h2.trans g2, h3.trans g3, h4.trans g4⟩

/-- C25: for every prior state and all draws, after `resetGame` the lists `vehicles`
and `logs` are empty, `collected` is empty and every entry of `INGREDIENTS` is the
old entry with `taken = false`, the goal zone is cleared (`house.worldY` absent,
`entranceSpawned` and `visible` false, `houseEntrance` and `gameWorldTop` absent,
`finalStretchMode` false), `cameraY = targetCameraY = -0.3 * H`, `gameSpeed = 2`, and
the player is alive at `(floor(GRID_W / 2), 0)` on no log with `maxPlayerProgress = 0`. -/
theorem resetGame_clears (ω : Oracle) (s : Game) :
    (resetGame ω s).vehicles = [] ∧ (resetGame ω s).logs = [] ∧
    (resetGame ω s).collected = [] ∧
    (resetGame ω s).INGREDIENTS =
      (s.INGREDIENTS.map fun ingredient => { ingredient with taken := false }) ∧
    (∀ ing ∈ (resetGame ω s).INGREDIENTS, ing.taken = false) ∧
    (resetGame ω s).house.worldY = none ∧ (resetGame ω s).house.entranceSpawned = false ∧
    (resetGame ω s).house.visible = false ∧ (resetGame ω s).houseEntrance = none ∧
    (resetGame ω s).gameWorldTop = none ∧ (resetGame ω s).finalStretchMode = false ∧
    (resetGame ω s).cameraY = -H * (3 / 10) ∧ (resetGame ω s).targetCameraY = -H * (3 / 10) ∧
    (resetGame ω s).gameSpeed = 2 ∧ (resetGame ω s).player.alive = true ∧
    (resetGame ω s).player.gridX = ⌊(GRID_W : ℚ) / 2⌋ ∧ (resetGame ω s).player.worldY = 0 ∧
    (resetGame ω s).player.onLog = none ∧ (resetGame ω s).maxPlayerProgress = 0 := by
  have hI : (resetGame ω s).INGREDIENTS =
      (s.INGREDIENTS.map fun ingredient => { ingredient with taken := false }) := by
    unfold resetGame
    simp only
    exact congrArg GoalView.INGREDIENTS (spawnIngredients_goalView ω _)
  have htaken : ∀ ing ∈ (resetGame ω s).INGREDIENTS, ing.taken = false := by
    intro ing hing
    rw [hI] at hing
    obtain ⟨a, _, rfl⟩ := List.mem_map.1 hing
    rfl
  unfold resetGame at hI htaken ⊢
  simp only at hI htaken ⊢
  have hv := spawnIngredients_goalView ω
  have hz := spawnInitialFrom_hazards ω
  unfold spawnIngredients spawnInitialIngredients at hI htaken ⊢
  exact ⟨(hz _ _ _).1, (hz _ _ _).2.1, congrArg GoalView.collected (hv _), hI, htaken,
    congrArg (fun g => g.house.worldY) (hv _),
    congrArg (fun g => g.house.entranceSpawned) (hv _),
    congrArg (fun g => g.house.visible) (hv _),
    congrArg GoalView.houseEntrance (hv _), congrArg GoalView.gameWorldTop (hv _),
    congrArg GoalView.finalStretchMode (hv _), congrArg GoalView.cameraY (hv _),
    congrArg GoalView.targetCameraY (hv _), (hz _ _ _).2.2.1,
    congrArg Player.alive (hz _ _ _).2.2.2, congrArg Player.gridX (hz _ _ _).2.2.2,
    congrArg Player.worldY (hz _ _ _).2.2.2, congrArg Player.onLog (hz _ _ _).2.2.2,
    congrArg GoalView.maxPlayerProgress (hv _)⟩

/-- C25 on the state after the shortcut `t`, with six keys collected and the goal zone
spawned: after `resetGame` the set is empty and the zone is cleared. -/
theorem resetGame_clears_witness :
    (shortcutScene "t").collected.length = 6 ∧
      (shortcutScene "t").house.entranceSpawned = true ∧
      (resetGame quietOracle (shortcutScene "t")).collected = [] ∧
      (resetGame quietOracle (shortcutScene "t")).house.entranceSpawned = false :=
  ⟨by decide!, by decide!, (resetGame_clears quietOracle (shortcutScene "t")).2.2.1,
    (resetGame_clears quietOracle (shortcutScene "t")).2.2.2.2.2.2.1⟩

/-! ## GoalController: arrival -/

theorem movePlayer_gameState (key : String) (s : Game) :
    (movePlayer key s).gameState = s.gameState := by
  unfold movePlayer updateCameraTarget
  simp only
  split_ifs <;> rfl

/-- The outcome of `checkHouseEntry` in the `play` scene with the house visible and
all ingredients collected. -/
theorem checkHouseEntry_gameState (s : Game) (hp : s.gameState = GameState.play)
    (hv : s.house.visible = true) (hall : s.collected.length = s.INGREDIENTS.length) :
    ((checkHouseEntry s).gameState = GameState.homeInterior ↔
      (some s.player.worldY = s.house.worldY ∧ s.player.gridX ≥ s.house.gridX ∧
        s.player.gridX ≤ s.house.gridX + 4)) ∧
    ((checkHouseEntry s).gameState = GameState.homeInterior ∨
      (checkHouseEntry s).gameState = GameState.play) := by
  unfold checkHouseEntry
  rw [if_neg (by simp [hv, hall])]
  split_ifs with h
  · exact ⟨⟨fun _ => h, fun _ => rfl⟩, Or.inl rfl⟩
  · refine ⟨⟨fun hg => ?_, fun hc => absurd hc h⟩, Or.inr hp⟩
    rw [hp] at hg
    cases hg

/-- C21: in a reachable state of the `play` scene with `hopCooldown = 0`, the house
visible and all ingredients collected, `handlePlayerInput` moves the game to
`homeInterior` exactly when, after the move, `player.worldY` is `house.worldY` and
`house.gridX ≤ player.gridX ≤ house.gridX + 4`; otherwise `gameState` stays `play`. -/
theorem house_entry (ω : Oracle) (key : String) (s : Game) (hr : Reachable ω s)
    (hp : s.gameState = GameState.play) (hc : s.hopCooldown = 0)
    (hv : s.house.visible = true) (hall : s.collected.length = s.INGREDIENTS.length) :
    ((handlePlayerInput key s).gameState = GameState.homeInterior ↔
      (some (handlePlayerInput key s).player.worldY = (handlePlayerInput key s).house.worldY ∧
        (handlePlayerInput key s).player.gridX ≥ (handlePlayerInput key s).house.gridX ∧
        (handlePlayerInput key s).player.gridX ≤ (handlePlayerInput key s).house.gridX + 4)) ∧
    ((handlePlayerInput key s).gameState = GameState.homeInterior ∨
      (handlePlayerInput key s).gameState = GameState.play) := by
  have hq := questInv_of_reachable ω s hr
  have hsp : s.house.entranceSpawned = true := hq.1.spawned.2 hall
  have hmq := checkIngredientPickup_questInv _ (movePlayer_questInv key s hq)
  obtain ⟨_, _, hmh, _⟩ := movePlayer_book key s
  have hch : (checkIngredientPickup (movePlayer key s)).house = s.house := by
    rw [checkIngredientPickup_eq]
    exact ((pickupLoop_house _ (movePlayer key s) (by rw [hmh]; exact hsp)).1).trans hmh
  have hcg : (checkIngredientPickup (movePlayer key s)).gameState = GameState.play := by
    rw [checkIngredientPickup_eq]
    exact ((pickupLoop_hopCooldown _ (movePlayer key s)).2.trans
      (movePlayer_gameState key s)).trans hp
  have hcall : (checkIngredientPickup (movePlayer key s)).collected.length =
      (checkIngredientPickup (movePlayer key s)).INGREDIENTS.length :=
    hmq.1.spawned.1 (by rw [hch]; exact hsp)
  have hfin := checkHouseEntry_gameState (checkIngredientPickup (movePlayer key s)) hcg
    (by rw [hch]; exact hv) hcall
  have hhouse : (checkHouseEntry (checkIngredientPickup (movePlayer key s))).house =
      (checkIngredientPickup (movePlayer key s)).house :=
    congrArg GoalView.house (goalView_of_questView (checkHouseEntry_questView _))
  rw [handlePlayerInput_eq, if_neg (by rw [hc]; exact lt_irrefl _), checkHouseEntry_player,
    hhouse]
  exact hfin

/-- C21 after the start button and the shortcut `t`, which puts the player in front
of the door: a hop to the left stays in the door span and enters the house. -/
theorem house_entry_witness :
    Reachable quietOracle (shortcutScene "t") ∧
      (shortcutScene "t").gameState = GameState.play ∧
      (handlePlayerInput "a" (shortcutScene "t")).player.gridX = 6 ∧
      (handlePlayerInput "a" (shortcutScene "t")).house.gridX = 5 ∧
      (handlePlayerInput "a" (shortcutScene "t")).gameState = GameState.homeInterior ∧
      ((handlePlayerInput "a" (shortcutScene "t")).gameState = GameState.homeInterior ∨
        (handlePlayerInput "a" (shortcutScene "t")).gameState = GameState.play) :=
  ⟨shortcutScene_reachable "t", by decide!, by decide!, by decide!, by decide!,
    (house_entry quietOracle "a" (shortcutScene "t") (shortcutScene_reachable "t")
      (by decide!) (by decide!) (by decide!) (by decide!)).2⟩

/-! ## The record of progress -/

theorem checkCollisions_worldY (s : Game) :
    (checkCollisions s).player.worldY = s.player.worldY := by
  have key : ∀ t : Game, (increaseDifficulty t).player.worldY = t.player.worldY := by
    intro t; rw [increaseDifficulty_player]
  unfold checkCollisions
  simp only
  split
  · split
    · rw [gameOver_worldY]
    · rw [key]
  · split
    · rw [key]
    · rw [gameOver_worldY]
  · rw [key]

theorem updateRingsFrom_player (dt : ℚ) (n : ℕ) (s : Game) :
    (updateRingsFrom dt n s).player = s.player := by
  induction n generalizing s with
  | zero => rfl
  | succ n ih =>
    unfold updateRingsFrom
    split
    · rw [ih]
    · simp only
      split_ifs <;> rw [ih]

theorem updateBonus_player (dt : ℚ) (s : Game) : (updateBonus dt s).player = s.player := by
  unfold updateBonus
  simp only
  split_ifs <;> simp only [updateRingsFrom_player]

theorem updateHomeInterior_player (ω : Oracle) (dt : ℚ) (s : Game) :
    (updateHomeInterior ω dt s).player = s.player := by
  unfold updateHomeInterior
  simp only
  split <;> split_ifs <;> rfl

theorem spawnSteamLoop_player (ω : Oracle) (n : ℕ) (t : TofuSoup) (s : Game) :
    (spawnSteamLoop ω n t s).2.player = s.player := by
  induction n generalizing t s with
  | zero => rfl
  | succ n ih => unfold spawnSteamLoop; simp only [random]; rw [ih]

theorem updateSteamFrom_player (ω : Oracle) (dt : ℚ) (n : ℕ) (l : List Steam) (s : Game) :
    (updateSteamFrom ω dt n l s).2.player = s.player := by
  induction n generalizing l s with
  | zero => rfl
  | succ n ih =>
    unfold updateSteamFrom
    split
    · rw [ih]
    · simp only [random]
      split_ifs <;> rw [ih]

theorem updateTofuSoup_player (ω : Oracle) (dt : ℚ) (s : Game) :
    (updateTofuSoup ω dt s).player = s.player := by
  unfold updateTofuSoup winGame
  split
  · rfl
  · simp only
    split
    · split_ifs <;> rfl
    · split_ifs <;> simp only [updateSteamFrom_player, spawnSteamLoop_player]

theorem gameLoop_worldY (ω : Oracle) (t : ℚ) (s : Game) :
    (gameLoop ω t s).player.worldY = s.player.worldY := by
  unfold gameLoop
  split_ifs
  · rfl
  · simp only
    have hd : ∀ u : Game, (draw u).player = u.player := by
      intro u; unfold draw; split_ifs <;> rfl
    rw [hd]
    unfold updateScene
    split_ifs
    · unfold updatePlay
      simp only
      rw [checkCollisions_worldY, continuouslySpawnIngredients_worldY]
      show (updateVehiclesAndLogs _).player.worldY = _
      rw [updateVehiclesAndLogs_worldY, spawnVehiclesAndLogs_worldY, updateHopCooldown_worldY]
    · rw [updateBonus_player, updateHopCooldown_worldY]
    · rw [updateHomeInterior_player, updateHopCooldown_worldY]
    · rw [updateTofuSoup_player, updateHopCooldown_worldY]
    · rw [updateHopCooldown_worldY]

/-- The move keeps the player between the record and row 0, and the record after the
move is the lower of the old record and the new row. -/
theorem movePlayer_progress (key : String) (s : Game)
    (h : s.maxPlayerProgress ≤ s.player.worldY ∧ s.player.worldY ≤ 0) :
    (movePlayer key s).maxPlayerProgress ≤ (movePlayer key s).player.worldY ∧
    (movePlayer key s).player.worldY ≤ 0 ∧
    (movePlayer key s).maxPlayerProgress =
      min s.maxPlayerProgress (movePlayer key s).player.worldY := by
  obtain ⟨h1, h2⟩ := h
  unfold movePlayer updateCameraTarget
  simp only
  split_ifs <;> (try simp only at *) <;> omega

theorem playStep_progress (ω : Oracle) (st : PlayStep) (s : Game)
    (h : s.maxPlayerProgress ≤ s.player.worldY ∧ s.player.worldY ≤ 0) :
    (playStep ω st s).maxPlayerProgress ≤ (playStep ω st s).player.worldY ∧
    (playStep ω st s).player.worldY ≤ 0 ∧
    (playStep ω st s).maxPlayerProgress =
      min s.maxPlayerProgress (playStep ω st s).player.worldY := by
  cases st with
  | input key =>
    have e : playStep ω (PlayStep.input key) s = handlePlayerInput key s := rfl
    rw [e]
    rw [handlePlayerInput_eq]
    split_ifs
    · exact ⟨h.1, h.2, (min_eq_left h.1).symm⟩
    · obtain ⟨hp, _, _, hm⟩ := afterMove_fields (movePlayer key s)
      rw [hp, hm]
      exact movePlayer_progress key s h
  | frame t =>
    have e : playStep ω (PlayStep.frame t) s = gameLoop ω t s := rfl
    rw [e]
    rw [gameLoop_worldY, (gameLoop_camera ω t s).2.1]
    exact ⟨h.1, h.2, (min_eq_left h.1).symm⟩

theorem lowestRow_le (ω : Oracle) (steps : List PlayStep) (s : Game) :
    lowestRow ω steps s ≤ s.player.worldY := by
  cases steps with
  | nil => exact le_refl _
  | cons st rest => exact min_le_left _ _

theorem runPlay_progress (ω : Oracle) (steps : List PlayStep) :
    ∀ s : Game, s.maxPlayerProgress ≤ s.player.worldY ∧ s.player.worldY ≤ 0 →
      (runPlay ω steps s).maxPlayerProgress ≤ (runPlay ω steps s).player.worldY ∧
      (runPlay ω steps s).player.worldY ≤ 0 ∧
      (runPlay ω steps s).maxPlayerProgress = min s.maxPlayerProgress (lowestRow ω steps s) := by
  induction steps with
  | nil => intro s h; exact ⟨h.1, h.2, (min_eq_left h.1).symm⟩
  | cons st rest ih =>
    intro s h
    obtain ⟨g1, g2, g3⟩ := playStep_progress ω st s h
    obtain ⟨k1, k2, k3⟩ := ih (playStep ω st s) ⟨g1, g2⟩
    refine ⟨k1, k2, ?_⟩
    show (runPlay ω rest (playStep ω st s)).maxPlayerProgress =
      min s.maxPlayerProgress (min s.player.worldY (lowestRow ω rest (playStep ω st s)))
    have hl := lowestRow_le ω rest (playStep ω st s)
    rw [k3, g3]
    have := h.1
    omega

/-- C29: in every state that player inputs and frames reach from `resetGame` (no
testing shortcut), `maxPlayerProgress ≤ player.worldY ≤ 0`, and `maxPlayerProgress` is
the most negative row the player stood on in the run. -/
theorem progress_bounds (ω : Oracle) (s : Game) (steps : List PlayStep) :
    (runPlay ω steps (resetGame ω s)).maxPlayerProgress ≤
      (runPlay ω steps (resetGame ω s)).player.worldY ∧
    (runPlay ω steps (resetGame ω s)).player.worldY ≤ 0 ∧
    (runPlay ω steps (resetGame ω s)).maxPlayerProgress =
      lowestRow ω steps (resetGame ω s) := by
  obtain ⟨_, _, _, _, _, _, _, _, _, _, _, _, _, _, _, _, hw, _, hm⟩ := resetGame_clears ω s
  obtain ⟨h1, h2, h3⟩ := runPlay_progress ω steps (resetGame ω s)
    ⟨by rw [hw, hm], by rw [hw]⟩
  refine ⟨h1, h2, ?_⟩
  have hl := lowestRow_le ω steps (resetGame ω s)
  rw [h3, hm]
  rw [hw] at hl
  exact min_eq_right hl

/-- C29 on two hops forward and one back: the player is on row -1 and the record is
row -2. -/
theorem progress_bounds_witness :
    (runPlay quietOracle backAndForth (resetGame quietOracle playFields)).player.worldY = -1 ∧
      lowestRow quietOracle backAndForth (resetGame quietOracle playFields) = -2 ∧
      (runPlay quietOracle backAndForth (resetGame quietOracle playFields)).maxPlayerProgress =
        lowestRow quietOracle backAndForth (resetGame quietOracle playFields) :=
  ⟨by decide!, by decide!,
    (progress_bounds quietOracle playFields backAndForth).2.2⟩

/-! ## IngredientManager: placement -/

theorem getLaneType_congr (s t : Game) (hh : t.house = s.house)
    (he : t.houseEntrance = s.houseEntrance) (y : ℤ) : getLaneType t y = getLaneType s y := by
  unfold getLaneType
  rw [hh, he]

theorem farApart_of_not_close (d : ℤ) (slots : List Slot) (gx gy : ℤ)
    (h : (!slots.any fun pos => decide (|pos.gx - gx| < d) && decide (|pos.gy - gy| < d)) = true)
    (slot : Slot) (hx : slot.gx = gx) (hy : slot.gy = gy) :
    ∀ pos ∈ slots, farApart d pos slot := by
  intro pos hpos
  simp only [Bool.not_eq_true', List.any_eq_false, Bool.and_eq_true, decide_eq_true_eq,
    not_and, not_lt] at h
  unfold farApart
  rw [hx, hy]
  by_cases hc : |pos.gx - gx| < d
  · exact Or.inr (h pos hpos hc)
  · exact Or.inl (not_lt.1 hc)

/-- One item of `spawnInitialIngredients`: at most `n` attempts of three draws each, and
either no slot is added or one slot with the item's key, on a row that is not water and
3 apart from every slot already placed. -/
theorem spawnInitialAttempts_place (ω : Oracle) (ing : Ingredient) (i n : ℕ) (s : Game) :
    (spawnInitialAttempts ω ing i n s).rngCalls ≤ s.rngCalls + 3 * n ∧
    ((spawnInitialAttempts ω ing i n s).ingredientPositions = s.ingredientPositions ∨
      ∃ slot : Slot, (spawnInitialAttempts ω ing i n s).ingredientPositions =
          s.ingredientPositions ++ [slot] ∧ slot.key = ing.key ∧
        getLaneType s slot.gy ≠ LaneType.water ∧
        ∀ pos ∈ s.ingredientPositions, farApart 3 pos slot) := by
  induction n generalizing s with
  | zero => exact ⟨le_refl _, Or.inl rfl⟩
  | succ n ih =>
    unfold spawnInitialAttempts
    simp only [random]
    split_ifs with h1 h2
    · refine ⟨by simp only; omega, Or.inr ⟨_, rfl, rfl, h1, ?_⟩⟩
      exact farApart_of_not_close 3 _ _ _ h2 _ rfl rfl
    · obtain ⟨hr, hcase⟩ := ih { s with rngCalls := s.rngCalls + 1 + 1 + 1 }
      refine ⟨?_, hcase⟩
      simp only at hr
      omega
    · obtain ⟨hr, hcase⟩ := ih { s with rngCalls := s.rngCalls + 1 + 1 + 1 }
      refine ⟨?_, hcase⟩
      simp only at hr
      omega

theorem spawnInitialFrom_place (ω : Oracle) (ings : List Ingredient) :
    ∀ (i : ℕ) (s : Game), s.ingredientPositions.Pairwise (farApart 3) →
      (∀ slot ∈ s.ingredientPositions, getLaneType s slot.gy ≠ LaneType.water) →
      (spawnInitialFrom ω ings i s).rngCalls ≤ s.rngCalls + 300 * ings.length ∧
      (spawnInitialFrom ω ings i s).ingredientPositions.Pairwise (farApart 3) ∧
      (∀ slot ∈ (spawnInitialFrom ω ings i s).ingredientPositions,
        getLaneType s slot.gy ≠ LaneType.water) ∧
      ∃ l : List Slot, (spawnInitialFrom ω ings i s).ingredientPositions =
          s.ingredientPositions ++ l ∧
        (l.map Slot.key).Sublist (ings.map Ingredient.key) := by
  induction ings with
  | nil =>
    intro i s hp hw
    exact ⟨le_refl _, hp, hw, [], (List.append_nil _).symm, List.Sublist.refl _⟩
  | cons ing rest ih =>
    intro i s hp hw
    obtain ⟨hr, hcase⟩ := spawnInitialAttempts_place ω ing i 100 s
    have hv := (spawnInitialAttempts_slots ω ing i 100 s).1
    have hlane : ∀ y, getLaneType (spawnInitialAttempts ω ing i 100 s) y = getLaneType s y :=
      getLaneType_congr s _ (congrArg GoalView.house hv) (congrArg GoalView.houseEntrance hv)
    have hp1 : (spawnInitialAttempts ω ing i 100 s).ingredientPositions.Pairwise (farApart 3) := by
      rcases hcase with h | ⟨slot, h, _, _, hfar⟩
      · rw [h]; exact hp
      · rw [h, List.pairwise_append]
        exact ⟨hp, List.pairwise_singleton _ _, fun a ha b hb => by
          rw [List.mem_singleton.1 hb]; exact hfar a ha⟩
    have hw1 : ∀ slot ∈ (spawnInitialAttempts ω ing i 100 s).ingredientPositions,
        getLaneType (spawnInitialAttempts ω ing i 100 s) slot.gy ≠ LaneType.water := by
      intro x hx
      rw [hlane]
      rcases hcase with h | ⟨slot, h, _, hl, _⟩
      · rw [h] at hx; exact hw x hx
      · rw [h] at hx
        rcases List.mem_append.1 hx with hx | hx
        · exact hw x hx
        · rw [List.mem_singleton.1 hx]; exact hl
    obtain ⟨g1, g2, g3, l, g4, g5⟩ := ih (i + 1) (spawnInitialAttempts ω ing i 100 s) hp1 hw1
    refine ⟨?_, g2, fun x hx => by rw [← hlane]; exact g3 x hx, ?_⟩
    · show (spawnInitialFrom ω rest (i + 1) (spawnInitialAttempts ω ing i 100 s)).rngCalls ≤ _
      simp only [List.length_cons]
      omega
    · rcases hcase with h | ⟨slot, h, hk, _, _⟩
      · refine ⟨l, ?_, ?_⟩
        · show (spawnInitialFrom ω rest (i + 1) (spawnInitialAttempts ω ing i 100 s)).ingredientPositions = _
          rw [g4, h]
        · exact List.Sublist.cons _ g5
      · refine ⟨slot :: l, ?_, ?_⟩
        · show (spawnInitialFrom ω rest (i + 1) (spawnInitialAttempts ω ing i 100 s)).ingredientPositions = _
          rw [g4, h, List.append_assoc]; rfl
        · rw [List.map_cons, List.map_cons, hk]
          exact List.Sublist.cons₂ _ g5

/-- C26: from a state with no slot, for all draws, `spawnInitialIngredients` makes at
most 100 attempts (300 draws) per item and leaves slots of which none is on a water
row, whose keys are a sublist of the keys of `INGREDIENTS` (one slot at most per item,
none for an item whose attempts all failed; distinct keys when the items have distinct
keys), and of which any two differ by at least 3 in column or in row. -/
theorem spawnInitialIngredients_place (ω : Oracle) (s : Game)
    (h : s.ingredientPositions = []) :
    (spawnInitialIngredients ω s).rngCalls ≤ s.rngCalls + 3 * 100 * s.INGREDIENTS.length ∧
    (∀ slot ∈ (spawnInitialIngredients ω s).ingredientPositions,
      getLaneType (spawnInitialIngredients ω s) slot.gy ≠ LaneType.water) ∧
    ((spawnInitialIngredients ω s).ingredientPositions.map Slot.key).Sublist
      (s.INGREDIENTS.map Ingredient.key) ∧
    ((s.INGREDIENTS.map Ingredient.key).Nodup →
      ((spawnInitialIngredients ω s).ingredientPositions.map Slot.key).Nodup) ∧
    (spawnInitialIngredients ω s).ingredientPositions.Pairwise (farApart 3) := by
  obtain ⟨h1, h2, h3, l, h4, h5⟩ := spawnInitialFrom_place ω s.INGREDIENTS 0 s
    (by rw [h]; exact List.Pairwise.nil) (by rw [h]; intro x hx; cases hx)
  have hv := (spawnInitialFrom_slots ω s.INGREDIENTS 0 s).1
  have hsub : ((spawnInitialIngredients ω s).ingredientPositions.map Slot.key).Sublist
      (s.INGREDIENTS.map Ingredient.key) := by
    unfold spawnInitialIngredients
    rw [h4, h, List.nil_append]
    exact h5
  refine ⟨by unfold spawnInitialIngredients; omega, ?_, hsub, fun hn => hsub.nodup hn, h2⟩
  intro slot hslot
  unfold spawnInitialIngredients at hslot ⊢
  rw [getLaneType_congr s _ (congrArg GoalView.house hv) (congrArg GoalView.houseEntrance hv)]
  exact h3 slot hslot

/-- C26 on the constructed object with every draw 0.99: four items are placed at
column 14 of rows -14, -22, -30 and -38, and the scallion and the chili, whose attempts
all land on the water rows -46 and -54, are absent. -/
theorem spawnInitialIngredients_place_witness :
    constructorFields.ingredientPositions = [] ∧
      (spawnInitialIngredients quietOracle constructorFields).ingredientPositions.map Slot.key =
        ["tofu", "onion", "broth", "mushroom"] ∧
      (spawnInitialIngredients quietOracle constructorFields).ingredientPositions.map Slot.gy =
        [-14, -22, -30, -38] ∧
      (spawnInitialIngredients quietOracle constructorFields).ingredientPositions.Pairwise
        (farApart 3) :=
  ⟨rfl, by decide!, by decide!,
    (spawnInitialIngredients_place quietOracle constructorFields rfl).2.2.2.2⟩

/-! ## IngredientManager: respawn -/

theorem floor_mul_bounds (r : ℚ) (n : ℤ) (hn : 0 < n) (h0 : 0 ≤ r) (h1 : r < 1) :
    0 ≤ ⌊r * (n : ℚ)⌋ ∧ ⌊r * (n : ℚ)⌋ ≤ n - 1 := by
  have hnq : (0 : ℚ) < n := by exact_mod_cast hn
  constructor
  · exact Int.floor_nonneg.2 (mul_nonneg h0 hnq.le)
  · have : ⌊r * (n : ℚ)⌋ < n := by
      rw [Int.floor_lt]
      calc r * (n : ℚ) < 1 * n := mul_lt_mul_of_pos_right h1 hnq
        _ = n := one_mul _
    omega

/-- One call of the placement loop ahead of the player: either no slot is added or one
untaken slot with the item's key, in the band of rows and columns, on a row that is not
water and 2 apart from every slot already present. -/
theorem spawnAheadAttempts_place (ω : Oracle) (hω : validOracle ω) (ing : Ingredient)
    (n : ℕ) (s : Game) :
    (spawnAheadAttempts ω ing n s).ingredientPositions = s.ingredientPositions ∨
      ∃ slot : Slot, (spawnAheadAttempts ω ing n s).ingredientPositions =
          s.ingredientPositions ++ [slot] ∧ slot.key = ing.key ∧ slot.taken = false ∧
        s.player.worldY - 35 ≤ slot.gy ∧ slot.gy ≤ s.player.worldY - 10 ∧
        0 ≤ slot.gx ∧ slot.gx ≤ GRID_W - 1 ∧
        getLaneType s slot.gy ≠ LaneType.water ∧
        ∀ pos ∈ s.ingredientPositions, farApart 2 pos slot := by
  induction n generalizing s with
  | zero => exact Or.inl rfl
  | succ n ih =>
    unfold spawnAheadAttempts
    simp only [random]
    split_ifs with h1 h2
    · have hx := floor_mul_bounds (ω s.rngCalls) GRID_W (by decide) (hω _).1 (hω _).2
      have h26 : ((s.player.worldY - 10 - (s.player.worldY - 35) + 1 : ℤ) : ℚ) = ((26 : ℤ) : ℚ) := by
        push_cast; ring
      have hy := floor_mul_bounds (ω (s.rngCalls + 1)) 26 (by decide) (hω _).1 (hω _).2
      rw [← h26] at hy
      refine Or.inr ⟨_, rfl, rfl, rfl, ?_, ?_, hx.1, hx.2, h1, ?_⟩
      · simp only; omega
      · simp only; omega
      · exact farApart_of_not_close 2 _ _ _ h2 _ rfl rfl
    · exact ih { s with rngCalls := s.rngCalls + 1 + 1 }
    · exact ih { s with rngCalls := s.rngCalls + 1 + 1 }

/-- What the loop of `respawnMissingIngredients` adds: slots with keys of the listed
items that had no untaken slot in the list the loop started from. -/
theorem respawnEach_adds (ω : Oracle) (hω : validOracle ω) (ings : List Ingredient) :
    ∀ s : Game, ∃ l : List Slot,
      (respawnEach ω ings s).ingredientPositions = s.ingredientPositions ++ l ∧
      ∀ slot ∈ l, slot.key ∈ ings.map Ingredient.key ∧ slot.taken = false ∧
        ¬ ∃ pos ∈ s.ingredientPositions, pos.key = slot.key ∧ pos.taken = false := by
  induction ings with
  | nil => intro s; exact ⟨[], (List.append_nil _).symm, fun _ h => absurd h (List.not_mem_nil _)⟩
  | cons ing rest ih =>
    intro s
    unfold respawnEach
    simp only
    split_ifs with hplaced
    · have hnone : ¬ ∃ pos ∈ s.ingredientPositions, pos.key = ing.key ∧ pos.taken = false := by
        simp only [Bool.not_eq_true', List.any_eq_false, Bool.and_eq_true, decide_eq_true_eq,
          Bool.not_eq_true, not_and] at hplaced
        rintro ⟨pos, hpos, hk, ht⟩
        exact hplaced pos hpos hk ht
      obtain ⟨l, hl, hprop⟩ := ih (spawnIngredientAhead ω ing s)
      rcases spawnAheadAttempts_place ω hω ing 100 s with h | ⟨slot, h, hk, ht, _⟩
      · refine ⟨l, ?_, fun x hx => ?_⟩
        · rw [hl]; unfold spawnIngredientAhead; rw [h]
        · obtain ⟨p1, p2, p3⟩ := hprop x hx
          refine ⟨List.mem_cons_of_mem _ p1, p2, ?_⟩
          unfold spawnIngredientAhead at p3
          rw [h] at p3
          exact p3
      · refine ⟨slot :: l, ?_, fun x hx => ?_⟩
        · rw [hl]; unfold spawnIngredientAhead; rw [h, List.append_assoc]; rfl
        · rcases List.mem_cons.1 hx with hx | hx
          · rw [hx, hk]
            exact ⟨List.mem_cons_self _ _, ht, hnone⟩
          · obtain ⟨p1, p2, p3⟩ := hprop x hx
            refine ⟨List.mem_cons_of_mem _ p1, p2, ?_⟩
            unfold spawnIngredientAhead at p3
            rw [h] at p3
            rintro ⟨pos, hpos, hpk⟩
            exact p3 ⟨pos, List.mem_append_left _ hpos, hpk⟩
    · obtain ⟨l, hl, hprop⟩ := ih s
      exact ⟨l, hl, fun x hx => ⟨List.mem_cons_of_mem _ (hprop x hx).1, (hprop x hx).2⟩⟩

/-- C27: for draws in `[0, 1)`, every player row and every state, a slot added by
`spawnIngredientAhead` has `gy` in `[worldY - 35, worldY - 10]`, `gx` in
`[0, GRID_W - 1]`, lies on a row that is not water, and differs by at least 2 in column
or in row from every slot already present; and `respawnMissingIngredients` keeps the
untaken slots and adds only untaken slots whose key is not in `collected` and had no
untaken slot on the map. -/
theorem respawn_placement (ω : Oracle) (hω : validOracle ω) (s : Game) :
    (∀ ing : Ingredient,
      (spawnIngredientAhead ω ing s).ingredientPositions = s.ingredientPositions ∨
      ∃ slot : Slot, (spawnIngredientAhead ω ing s).ingredientPositions =
          s.ingredientPositions ++ [slot] ∧ slot.key = ing.key ∧
        s.player.worldY - 35 ≤ slot.gy ∧ slot.gy ≤ s.player.worldY - 10 ∧
        0 ≤ slot.gx ∧ slot.gx ≤ GRID_W - 1 ∧
        getLaneType s slot.gy ≠ LaneType.water ∧
        ∀ pos ∈ s.ingredientPositions, farApart 2 pos slot) ∧
    ∃ added : List Slot,
      (respawnMissingIngredients ω s).ingredientPositions =
        (s.ingredientPositions.filter fun pos => !pos.taken) ++ added ∧
      ∀ slot ∈ added, slot.taken = false ∧ slot.key ∉ s.collected ∧
        slot.key ∈ s.INGREDIENTS.map Ingredient.key ∧
        ¬ ∃ pos ∈ s.ingredientPositions, pos.key = slot.key ∧ pos.taken = false := by
  constructor
  · intro ing
    rcases spawnAheadAttempts_place ω hω ing 100 s with h | ⟨slot, h, hk, _, h1, h2, h3, h4, h5, h6⟩
    · exact Or.inl h
    · exact Or.inr ⟨slot, h, hk, h1, h2, h3, h4, h5, h6⟩
  · unfold respawnMissingIngredients
    simp only
    obtain ⟨l, hl, hprop⟩ := respawnEach_adds ω hω
      (s.INGREDIENTS.filter fun ing => !decide (ing.key ∈ s.collected))
      { s with ingredientPositions := s.ingredientPositions.filter fun pos => !pos.taken }
    refine ⟨l, hl, fun x hx => ?_⟩
    obtain ⟨p1, p2, p3⟩ := hprop x hx
    obtain ⟨ing, hing, hkey⟩ := List.mem_map.1 p1
    have hf := List.mem_filter.1 hing
    refine ⟨p2, ?_, ?_, ?_⟩
    · rw [← hkey]; simpa using hf.2
    · rw [← hkey]; exact List.mem_map_of_mem _ hf.1
    · rintro ⟨pos, hpos, hpk, hpt⟩
      exact p3 ⟨pos, List.mem_filter.2 ⟨hpos, by simp [hpt]⟩, hpk, hpt⟩

theorem midOracle_valid : validOracle midOracle := by
  intro k
  unfold midOracle
  norm_num

/-- C27 on a state with the tofu collected, an untaken onion slot and a taken broth
slot: the respawn drops the taken slot, keeps the onion slot and adds slots for other
keys only. -/
theorem respawn_placement_witness :
    validOracle midOracle ∧
      ((respawnMissingIngredients midOracle respawnScene).ingredientPositions.map Slot.key).take 2
        = ["onion", "broth"] ∧
      ∃ added : List Slot,
        (respawnMissingIngredients midOracle respawnScene).ingredientPositions =
          (respawnScene.ingredientPositions.filter fun pos => !pos.taken) ++ added ∧
        ∀ slot ∈ added, slot.taken = false ∧ slot.key ∉ respawnScene.collected ∧
          slot.key ∈ respawnScene.INGREDIENTS.map Ingredient.key ∧
          ¬ ∃ pos ∈ respawnScene.ingredientPositions, pos.key = slot.key ∧ pos.taken = false :=
  ⟨midOracle_valid, by decide!, (respawn_placement midOracle midOracle_valid respawnScene).2⟩

/-! ## SceneStateMachine: the soup scene -/

theorem spawnSteamLoop_timer (ω : Oracle) (n : ℕ) (t : TofuSoup) (s : Game) :
    (spawnSteamLoop ω n t s).1.animationTimer = t.animationTimer ∧
    (spawnSteamLoop ω n t s).1.animationPhase = t.animationPhase ∧
    (spawnSteamLoop ω n t s).2.gameState = s.gameState ∧
    (spawnSteamLoop ω n t s).2.gameRunning = s.gameRunning := by
  induction n generalizing t s with
  | zero => exact ⟨rfl, rfl, rfl, rfl⟩
  | succ n ih =>
    unfold spawnSteamLoop
    simp only [random]
    exact ih _ _

theorem updateSteamFrom_scene (ω : Oracle) (dt : ℚ) (n : ℕ) (l : List Steam) (s : Game) :
    (updateSteamFrom ω dt n l s).2.gameState = s.gameState ∧
    (updateSteamFrom ω dt n l s).2.gameRunning = s.gameRunning := by
  induction n generalizing l s with
  | zero => exact ⟨rfl, rfl⟩
  | succ n ih =>
    unfold updateSteamFrom
    split
    · exact ih _ _
    · simp only [random]
      split_ifs <;> exact ih _ _

/-- One frame of the `showSoup` phase: the timer that the test `> 10000` reads has just
been reset to 0 if it exceeded 200, so the test fails and the scene goes on. -/
theorem updateTofuSoup_showSoup (ω : Oracle) (dt : ℚ) (s : Game) (h : inShowSoup s) :
    (updateTofuSoup ω dt s).gameState = s.gameState ∧
    (updateTofuSoup ω dt s).gameRunning = s.gameRunning ∧
    inShowSoup (updateTofuSoup ω dt s) ∧
    ∀ t : TofuSoup, (updateTofuSoup ω dt s).tofuSoup = some t → t.animationTimer ≤ 200 := by
  obtain ⟨t, ht, hp⟩ := h
  obtain ⟨fo, ph, tm, sp⟩ := t
  simp only at hp
  subst hp
  unfold updateTofuSoup
  rw [ht]
  simp only
  by_cases hc : tm + dt > 200
  · simp only [if_pos hc]
    obtain ⟨h1, h2, h3, h4⟩ := spawnSteamLoop_timer ω 3
      (TofuSoup.mk fo SoupPhase.showSoup (tm + dt) sp) s
    obtain ⟨g1, g2⟩ := updateSteamFrom_scene ω dt
      (spawnSteamLoop ω 3 (TofuSoup.mk fo SoupPhase.showSoup (tm + dt) sp) s).1.steamParticles.length
      (spawnSteamLoop ω 3 (TofuSoup.mk fo SoupPhase.showSoup (tm + dt) sp) s).1.steamParticles
      (spawnSteamLoop ω 3 (TofuSoup.mk fo SoupPhase.showSoup (tm + dt) sp) s).2
    rw [if_neg (by norm_num)]
    refine ⟨g1.trans h3, g2.trans h4, ⟨_, rfl, ?_⟩, ?_⟩
    · exact h2
    · intro t' ht'
      cases ht'
      norm_num
  · simp only [if_neg hc]
    obtain ⟨g1, g2⟩ := updateSteamFrom_scene ω dt sp.length sp s
    rw [if_neg (by linarith)]
    refine ⟨g1, g2, ⟨_, rfl, rfl⟩, ?_⟩
    intro t' ht'
    cases ht'
    exact not_lt.1 hc

/-- C23, what the code does: from the `showSoup` phase, frames with any time steps, and
so any accumulated time, leave `gameState` and `gameRunning` as they are and the phase
in `showSoup`; the game never moves to `ending`. -/
theorem showSoup_never_ends (ω : Oracle) (dts : List ℚ) (s : Game) (h : inShowSoup s) :
    (runSoup ω dts s).gameState = s.gameState ∧
    (runSoup ω dts s).gameRunning = s.gameRunning ∧ inShowSoup (runSoup ω dts s) := by
  induction dts generalizing s with
  | nil => exact ⟨rfl, rfl, h⟩
  | cons dt rest ih =>
    obtain ⟨h1, h2, h3, _⟩ := updateTofuSoup_showSoup ω dt s h
    obtain ⟨g1, g2, g3⟩ := ih (updateTofuSoup ω dt s) h3
    exact ⟨g1.trans h1, g2.trans h2, g3⟩

/-- C23, failing run: 300 frames of 40 ms in the `showSoup` phase accumulate 12000 ms,
and the game is still running the soup scene. -/
theorem showSoup_never_ends_witness :
    inShowSoup soupScene ∧ soupScene.gameState = GameState.tofuSoup ∧
      (List.replicate 300 (40 : ℚ)).sum = 12000 ∧
      (runSoup quietOracle (List.replicate 300 40) soupScene).gameState = GameState.tofuSoup ∧
      (runSoup quietOracle (List.replicate 300 40) soupScene).gameRunning = true :=
  have hs : inShowSoup soupScene :=
    ⟨TofuSoup.mk 1 SoupPhase.showSoup 0 [], by decide!, rfl⟩
  have hrun := showSoup_never_ends quietOracle (List.replicate 300 40) soupScene hs
  ⟨hs, by decide!, by decide!, hrun.1.trans (by decide!), hrun.2.1.trans (by decide!)⟩

/-! ## The bonus scene: rings -/

theorem ringHit_eq_nearRingEdge (p : Point) (ring : Ring) :
    ringHit p ring = nearRingEdge ring.w p ring := rfl

/-- The squared form of the test says what the square root says: the distance of the
token from the centre of the ring differs from the radius by less than `c`. -/
theorem nearRingEdge_iff (c : ℚ) (p : Point) (ring : Ring) :
    nearRingEdge c p ring = true ↔
      |Real.sqrt (((p.x : ℝ) - ring.x) ^ 2 + ((p.y : ℝ) - ring.y) ^ 2) - ring.r| < c := by
  have hd : (0 : ℝ) ≤ ((p.x : ℝ) - ring.x) ^ 2 + ((p.y : ℝ) - ring.y) ^ 2 := by positivity
  have hcast : ∀ q : ℚ, (q < (p.x - ring.x) ^ 2 + (p.y - ring.y) ^ 2 ↔
      (q : ℝ) < ((p.x : ℝ) - ring.x) ^ 2 + ((p.y : ℝ) - ring.y) ^ 2) := by
    intro q
    rw [← Rat.cast_lt (K := ℝ)]
    push_cast
    rfl
  have hcast' : ∀ q : ℚ, ((p.x - ring.x) ^ 2 + (p.y - ring.y) ^ 2 < q ↔
      ((p.x : ℝ) - ring.x) ^ 2 + ((p.y : ℝ) - ring.y) ^ 2 < (q : ℝ)) := by
    intro q
    rw [← Rat.cast_lt (K := ℝ)]
    push_cast
    rfl
  unfold nearRingEdge
  simp only [Bool.and_eq_true, Bool.or_eq_true, decide_eq_true_eq]
  rw [abs_lt, hcast, hcast']
  have hlo : ((ring.r - c : ℚ) < 0 ↔ ((ring.r : ℝ) - c < 0)) := by
    rw [← Rat.cast_lt (K := ℝ)]; push_cast; rfl
  have hhi : ((0 : ℚ) < ring.r + c ↔ (0 : ℝ) < (ring.r : ℝ) + c) := by
    rw [← Rat.cast_lt (K := ℝ)]; push_cast; rfl
  rw [hlo, hhi]
  push_cast
  constructor
  · rintro ⟨h1, h2, h3⟩
    constructor
    · rcases h1 with h1 | h1
      · have := Real.sqrt_nonneg (((p.x : ℝ) - ring.x) ^ 2 + ((p.y : ℝ) - ring.y) ^ 2)
        linarith
      · by_cases hneg : (ring.r : ℝ) - c < 0
        · have := Real.sqrt_nonneg (((p.x : ℝ) - ring.x) ^ 2 + ((p.y : ℝ) - ring.y) ^ 2)
          linarith
        · have := (Real.lt_sqrt (not_lt.1 hneg)).2 h1
          linarith
    · have := (Real.sqrt_lt' h2).2 h3
      linarith
  · rintro ⟨h1, h2⟩
    have hs := Real.sqrt_nonneg (((p.x : ℝ) - ring.x) ^ 2 + ((p.y : ℝ) - ring.y) ^ 2)
    have hpos : (0 : ℝ) < (ring.r : ℝ) + c := by linarith
    refine ⟨?_, hpos, (Real.sqrt_lt' hpos).1 (by linarith)⟩
    by_cases hneg : (ring.r : ℝ) - c < 0
    · exact Or.inl hneg
    · exact Or.inr ((Real.lt_sqrt (not_lt.1 hneg)).1 (by linarith))

/-- The ring loop over the rings `pre` that are still to visit. -/
theorem updateRingsFrom_append (dt : ℚ) (pre : List Ring) :
    ∀ (post : List Ring) (s : Game), s.bonusRings = pre ++ post →
      (updateRingsFrom dt pre.length s).bonusRings =
        (pre.map (growRing dt)).filter (fun ring => decide (ring.r ≤ max W H)) ++ post ∧
      (updateRingsFrom dt pre.length s).bonusPlayer = tokenAfter dt pre s.bonusPlayer := by
  induction pre using List.reverseRecOn with
  | nil => intro post s h; exact ⟨h, rfl⟩
  | append_singleton pre x ih =>
    intro post s h
    rw [List.append_assoc, List.singleton_append] at h
    rw [List.length_append, List.length_singleton]
    unfold updateRingsFrom
    rw [h, get?_append_length]
    simp only
    rw [set_append_length, List.map_append, List.filter_append, List.map_singleton]
    have htok : tokenAfter dt (pre ++ [x]) s.bonusPlayer =
        tokenAfter dt pre (if ringHit s.bonusPlayer (growRing dt x) then ⟨W / 2, H / 2⟩
          else s.bonusPlayer) := by
      unfold tokenAfter
      rw [List.foldr_append]
      rfl
    rw [htok]
    by_cases hbig : (growRing dt x).r > max W H
    · have hbig' : x.r + dt * (2 / 10) > max W H := hbig
      rw [if_pos hbig']
      rw [List.filter_cons_of_neg (by rw [decide_eq_true_eq]; exact not_le.2 hbig),
        List.filter_nil, List.append_nil]
      by_cases hhit : ringHit s.bonusPlayer (growRing dt x) = true
      · have hhit' : ringHit s.bonusPlayer { x with r := x.r + dt * (2 / 10) } = true := hhit
        simp only [if_pos hhit', if_pos hhit]
        rw [eraseIdx_append_length]
        exact ih post _ rfl
      · have hhit' : ¬ ringHit s.bonusPlayer { x with r := x.r + dt * (2 / 10) } = true := hhit
        simp only [if_neg hhit', if_neg hhit]
        rw [eraseIdx_append_length]
        exact ih post _ rfl
    · have hbig' : ¬ x.r + dt * (2 / 10) > max W H := hbig
      rw [if_neg hbig']
      rw [List.filter_cons_of_pos (by rw [decide_eq_true_eq]; exact not_lt.1 hbig), List.filter_nil,
        List.append_assoc, List.singleton_append]
      by_cases hhit : ringHit s.bonusPlayer (growRing dt x) = true
      · have hhit' : ringHit s.bonusPlayer { x with r := x.r + dt * (2 / 10) } = true := hhit
        simp only [if_pos hhit', if_pos hhit]
        exact ih (growRing dt x :: post) _ rfl
      · have hhit' : ¬ ringHit s.bonusPlayer { x with r := x.r + dt * (2 / 10) } = true := hhit
        simp only [if_neg hhit', if_neg hhit]
        exact ih (growRing dt x :: post) _ rfl

theorem updateBonus_loop (dt : ℚ) (s : Game) :
    (updateBonus dt s).bonusRings =
      ((emittedRings dt s).map (growRing dt)).filter (fun ring => decide (ring.r ≤ max W H)) ∧
    (updateBonus dt s).bonusPlayer = tokenAfter dt (emittedRings dt s) s.bonusPlayer := by
  unfold updateBonus emittedRings
  simp only
  by_cases hsp : s.ringSpawnTimer + dt > 2000
  · simp only [if_pos hsp]
    obtain ⟨h1, h2⟩ := updateRingsFrom_append dt
      (s.bonusRings ++ [{ x := s.bonusCat.x, y := s.bonusCat.y, r := 0, w := 15 }]) []
      { s with bonusTimer := s.bonusTimer - dt / 1000
               bonusRings := s.bonusRings ++ [{ x := s.bonusCat.x, y := s.bonusCat.y, r := 0, w := 15 }]
               ringSpawnTimer := 0 } (List.append_nil _).symm
    rw [List.append_nil] at h1
    split_ifs <;> exact ⟨h1, h2⟩
  · simp only [if_neg hsp]
    obtain ⟨h1, h2⟩ := updateRingsFrom_append dt s.bonusRings []
      { s with bonusTimer := s.bonusTimer - dt / 1000, ringSpawnTimer := s.ringSpawnTimer + dt }
      (List.append_nil _).symm
    rw [List.append_nil] at h1
    split_ifs <;> exact ⟨h1, h2⟩

/-- C30 as stated fails: the ring is drawn with line width `w = 15`, so its half-width
is 7.5; after the frame its radius is 100 and the token is 110 from its centre, 10 away
from the radius and so not within the half-width, yet `updateBonus` sends the token
back to the centre. -/
theorem ring_half_width_counterexample :
    hitScene.bonusRings = [{ x := 240, y := 320, r := 92, w := 15 }] ∧
      hitScene.bonusPlayer = ⟨350, 320⟩ ∧
      (updateBonus 40 hitScene).bonusRings = [{ x := 240, y := 320, r := 100, w := 15 }] ∧
      ¬ (|Real.sqrt (((350 : ℝ) - 240) ^ 2 + ((320 : ℝ) - 320) ^ 2) - 100| < 15 / 2) ∧
      hitScene.bonusPlayer ≠ ⟨W / 2, H / 2⟩ ∧
      (updateBonus 40 hitScene).bonusPlayer = ⟨W / 2, H / 2⟩ := by
  refine ⟨rfl, rfl, by decide!, ?_, by decide!, by decide!⟩
  have hsq : Real.sqrt (((350 : ℝ) - 240) ^ 2 + ((320 : ℝ) - 320) ^ 2) = 110 := by
    rw [show ((350 : ℝ) - 240) ^ 2 + ((320 : ℝ) - 320) ^ 2 = 110 ^ 2 by norm_num]
    exact Real.sqrt_sq (by norm_num)
  rw [hsq]
  norm_num

/-- C30, amended: in `updateBonus`, the rings visited are grown by `0.2 * dt` and those
whose radius then exceeds `max(W, H)` are removed; going from the last ring to the
first, the token is sent to the centre `(W/2, H/2)` by each ring that hits it; and a
ring hits the token exactly when the distance of the token from the centre of the ring
differs from the ring's radius by less than the ring's width `w`. -/
theorem updateBonus_ring_hits (dt : ℚ) (s : Game) :
    (updateBonus dt s).bonusRings =
      ((emittedRings dt s).map (growRing dt)).filter (fun ring => decide (ring.r ≤ max W H)) ∧
    (updateBonus dt s).bonusPlayer =
      (emittedRings dt s).foldr
        (fun ring q => if ringHit q (growRing dt ring) then ⟨W / 2, H / 2⟩ else q)
        s.bonusPlayer ∧
    ∀ (p : Point) (ring : Ring), ringHit p ring = true ↔
      |Real.sqrt (((p.x : ℝ) - ring.x) ^ 2 + ((p.y : ℝ) - ring.y) ^ 2) - ring.r| < ring.w :=
  ⟨(updateBonus_loop dt s).1, (updateBonus_loop dt s).2,
    fun p ring => (ringHit_eq_nearRingEdge p ring).symm ▸ nearRingEdge_iff ring.w p ring⟩

/-- C30, amended, on the ring of radius 92 and the token 110 from its centre: the ring
grows to 100, stays in the list, and hits the token. -/
theorem updateBonus_ring_hits_witness :
    emittedRings 40 hitScene = [{ x := 240, y := 320, r := 92, w := 15 }] ∧
      (updateBonus 40 hitScene).bonusRings =
        ((emittedRings 40 hitScene).map (growRing 40)).filter
          (fun ring => decide (ring.r ≤ max W H)) ∧
      (updateBonus 40 hitScene).bonusPlayer = ⟨240, 320⟩ :=
  ⟨by decide!, (updateBonus_ring_hits 40 hitScene).1, by decide!⟩

/-! ## The player's column -/

theorem runEvents_reachable (ω : Oracle) (evs : List Event) :
    ∀ s : Game, Reachable ω s → Reachable ω (runEvents ω evs s) := by
  induction evs with
  | nil => intro s h; exact h
  | cons e rest ih => intro s h; exact ih _ (Reachable.step s e h)

/-- C28 as stated fails: in this run the player rides a log on row -3 to column
14.07952 and hops back to row -2; the state before the hop is reachable, in play, with
no cooldown, and after `handlePlayerInput` the player's `gridX` exceeds `GRID_W - 1`. -/
theorem gridX_range_counterexample :
    Reachable logOracle edgeScene ∧
      (edgeScene.gameState = GameState.play ∧ edgeScene.gameRunning = true ∧
        edgeScene.hopCooldown = 0 ∧ edgeScene.player.alive = true ∧
        edgeScene.player.onLog = some 0 ∧
        (handlePlayerInput "s" edgeScene).player.worldY = -2 ∧
        (handlePlayerInput "s" edgeScene).player.gridX = 87997 / 6250 ∧
        ¬ ((handlePlayerInput "s" edgeScene).player.gridX ≤ (GRID_W : ℚ) - 1)) :=
  ⟨runEvents_reachable logOracle rideEvents _ (@Reachable.init logOracle), by decide!⟩

theorem movePlayer_gridX_int (key : String) (s : Game) (n : ℤ) (hn : s.player.gridX = n)
    (h0 : 0 ≤ n) (h1 : n ≤ GRID_W - 1) :
    ∃ m : ℤ, (movePlayer key s).player.gridX = m ∧ 0 ≤ m ∧ m ≤ GRID_W - 1 := by
  unfold movePlayer updateCameraTarget
  simp only
  split_ifs with c1 c2 c3 c4 c5 c6 c7 c8
  all_goals first
    | exact ⟨n, hn, h0, h1⟩
    | (refine ⟨n - 1, by simp only [hn]; push_cast; ring, ?_, by omega⟩
       rw [hn] at c6
       have : (0 : ℤ) < n := by exact_mod_cast c6
       omega)
    | (refine ⟨n + 1, by simp only [hn]; push_cast; ring, by omega, ?_⟩
       rw [hn] at c8
       have : n < GRID_W - 1 := by exact_mod_cast c8
       omega)

theorem movePlayer_gridX_vertical (key : String) (s : Game)
    (hk : key ≠ "a" ∧ key ≠ "arrowleft" ∧ key ≠ "d" ∧ key ≠ "arrowright") :
    (movePlayer key s).player.gridX = s.player.gridX := by
  unfold movePlayer updateCameraTarget
  simp only
  split_ifs with c1 c2 c3 c4 c5 c6 c7 c8
  all_goals first
    | rfl
    | exact absurd c5 (not_or.2 ⟨hk.1, hk.2.1⟩)
    | exact absurd c7 (not_or.2 ⟨hk.2.2.1, hk.2.2.2⟩)

theorem handlePlayerInput_player (key : String) (s : Game) :
    (handlePlayerInput key s).player = s.player ∨
      (handlePlayerInput key s).player = (movePlayer key s).player := by
  rw [handlePlayerInput_eq]
  split_ifs
  · exact Or.inl rfl
  · exact Or.inr (afterMove_fields _).1

/-- C28, amended: for every state whose `player.gridX` is a whole column in
`[0, GRID_W - 1]`, after `handlePlayerInput` it is again a whole column in
`[0, GRID_W - 1]`; and for every state, a key other than the four sideways keys leaves
`player.gridX` as it is, fractional or not. -/
theorem handlePlayerInput_gridX (key : String) (s : Game) :
    ((∃ n : ℤ, s.player.gridX = n ∧ 0 ≤ n ∧ n ≤ GRID_W - 1) →
      ∃ m : ℤ, (handlePlayerInput key s).player.gridX = m ∧ 0 ≤ m ∧ m ≤ GRID_W - 1) ∧
    ((key ≠ "a" ∧ key ≠ "arrowleft" ∧ key ≠ "d" ∧ key ≠ "arrowright") →
      (handlePlayerInput key s).player.gridX = s.player.gridX) := by
  constructor
  · rintro ⟨n, hn, h0, h1⟩
    rcases handlePlayerInput_player key s with h | h
    · rw [h]; exact ⟨n, hn, h0, h1⟩
    · rw [h]; exact movePlayer_gridX_int key s n hn h0 h1
  · intro hk
    rcases handlePlayerInput_player key s with h | h
    · rw [h]
    · rw [h]; exact movePlayer_gridX_vertical key s hk

/-- C28, amended, on the player at column 14 of row -4: a hop to the right is refused,
and the column is still 14. -/
theorem handlePlayerInput_gridX_witness :
    ({ pickScene with player := { pickScene.player with gridX := 14 } } : Game).player.gridX =
        ((14 : ℤ) : ℚ) ∧
      ∃ m : ℤ, (handlePlayerInput "d"
        { pickScene with player := { pickScene.player with gridX := 14 } }).player.gridX = m ∧
        0 ≤ m ∧ m ≤ GRID_W - 1 :=
  ⟨by decide!, (handlePlayerInput_gridX "d"
    { pickScene with player := { pickScene.player with gridX := 14 } }).1
      ⟨14, by decide!, by decide, by decide⟩⟩

end LoveJourney
